import Mathlib

/-!
Shallow embedding of the client/entity-list synchronization core of the
`pods` container-runtime GUI client.

The embedding covers:
  * the three entity mirrors (`ImageList`, `ContainerList`, `PodList`)
    from `src/model/image_list.rs`, `src/model/container_list.rs` and
    `src/model/pod_list.rs`: ordered ID→entity mappings (the Rust code
    uses `IndexMap`; here an association list in insertion order), the
    `listing`/`initialized` flags, `refresh`, `handle_event` and the
    `remove_*` operations;
  * the cross-collection wiring installed in `imp::Client::constructed`
    (`src/model/client.rs`);
  * `ConnectionManager::try_connect` / `remove_connection`
    (`src/model/connection_manager.rs`).

Asynchronous list calls are modelled by passing the call's result
(`Except PodmanError …`) into the completion function; the network
requests an operation issues are returned explicitly in a `List Request`.
GObject signal emissions and property-change notifications are collected
in a `List Notif`.  Object identity of the GObject entities (which the
Rust code updates in place) is modelled by an `objId : Nat` token
allocated from a counter when an entity is constructed and preserved by
in-place updates.
-/

/-- A transport/domain error from the podman gateway. -/
inductive PodmanError where
  | transport
  deriving Repr, DecidableEq

/-- Outbound notifications: GObject signals and property-change
notifications emitted by the mirrors, in emission order. -/
inductive Notif where
  /-- `gio::ListModel::items_changed(position, removed, added)`. -/
  | itemsChanged (position removed added : Nat)
  /-- entity-level "deleted" signal (`emit_deleted` / `on_deleted`). -/
  | deleted (id : String)
  /-- collection-level removed signal (`container_removed`). -/
  | removed (id : String)
  /-- collection-level added signal ("image-added" / `container_added` /
  "pod-added"). -/
  | added (id : String)
  /-- a property-change notification (`notify("listing")`, …). -/
  | changed (prop : String)
  deriving Repr, DecidableEq

/-- A network request issued to the podman gateway. -/
inductive Request where
  | listImages
  | listContainers (filter : Option String)
  | listPods (filter : Option String)
  | inspectContainer (id : String)
  | ping
  deriving Repr, DecidableEq

/-- An event received from the podman event stream: `type`, `action`,
`actor.id` and the `actor.attributes["name"]` entry used by the image
mirror's tag/untag handling. -/
structure Event where
  typ : String
  action : String
  actorId : String
  actorName : String
  deriving Repr, DecidableEq

/-! ## Association lists in insertion order (the `IndexMap` operations used) -/

/-- Keys of an association list, in insertion order
(`IndexMap::keys`). -/
def assocKeys {α : Type} (l : List (String × α)) : List String :=
  l.map Prod.fst

/-- Lookup by key (`IndexMap::get`). -/
def assocGet {α : Type} (id : String) : List (String × α) → Option α
  | [] => none
  | p :: rest => if p.1 = id then some p.2 else assocGet id rest

/-- `IndexMap::shift_remove_full`: remove the entry with the given key,
shifting the entries behind it down; returns the index and value of the
removed entry together with the remaining list. -/
def assocShiftRemove {α : Type} (id : String) :
    List (String × α) → Option (Nat × α × List (String × α))
  | [] => none
  | p :: rest =>
    if p.1 = id then some (0, p.2, rest)
    else (assocShiftRemove id rest).map fun q => (q.1 + 1, q.2.1, p :: q.2.2)

/-- Replace the value stored at a key in place (the effect of mutating
the entity object held in an occupied `IndexMap` entry). -/
def assocModify {α : Type} (id : String) (f : α → α) :
    List (String × α) → List (String × α)
  | [] => []
  | p :: rest => if p.1 = id then (p.1, f p.2) :: rest else p :: assocModify id f rest

/-! ## Images (`src/model/image_list.rs`) -/

/-- A podman image list response entry (`podman::models::LibpodImageSummary`):
the fields the mirror reads. -/
structure ImageSummary where
  id : String
  repoTags : List String
  deriving Repr, DecidableEq

/-- A `model::Image` entity: GObject identity token, remote ID, the
runtime-reported tag set and the derived list of linked container IDs. -/
structure Image where
  objId : Nat
  id : String
  repoTags : List String
  containers : List String
  deriving Repr, DecidableEq

/-- Modelled from the spec (`model::Image::new` is not part of the
sources at hand): constructing an entity from a listing response entry
snapshots the runtime-reported attributes; the derived container-link
list starts empty. -/
def Image.new (objId : Nat) (s : ImageSummary) : Image :=
  { objId := objId, id := s.id, repoTags := s.repoTags, containers := [] }

/-- Modelled from the spec (`model::Image::update` is not part of the
sources at hand): updating in place overwrites the runtime-reported
attribute snapshot and preserves object identity and derived state. -/
def Image.update (img : Image) (s : ImageSummary) : Image :=
  { img with repoTags := s.repoTags }

/-- Modelled from the spec (`model::Image::add_container` is not part of
the sources at hand): record a linked container ID in the image's
container list. -/
def Image.addContainer (img : Image) (cid : String) : Image :=
  if cid ∈ img.containers then img
  else { img with containers := img.containers ++ [cid] }

/-- Modelled from the spec (`model::Image::remove_container` is not part
of the sources at hand): drop a linked container ID from the image's
container list. -/
def Image.removeContainer (img : Image) (cid : String) : Image :=
  { img with containers := img.containers.filter (· ≠ cid) }

/-- Modelled from the spec (`model::RepoTagList::add`): the entity's tag
set; adding a tag it already holds is a no-op, otherwise the tag is
appended. -/
def addRepoTag (tags : List String) (t : String) : List String :=
  if t ∈ tags then tags else tags ++ [t]

/-- Modelled from the spec (`model::RepoTagList::remove`): removing a tag
from the entity's tag set drops it. -/
def removeRepoTag (tags : List String) (t : String) : List String :=
  tags.filter (· ≠ t)

/-- State of `imp::ImageList`: the insertion-ordered ID→entity mapping,
the `listing` and `initialized` flags, plus the identity-token counter
for constructing entities. -/
structure ImageListState where
  list : List (String × Image)
  listing : Bool
  initialized : Bool
  nextObjId : Nat
  deriving Repr, DecidableEq

/-- A fresh `ImageList`. -/
def ImageListState.empty : ImageListState :=
  { list := [], listing := false, initialized := false, nextObjId := 0 }

/-- Result of a mirror operation: the new state, the notifications
emitted (in order), the network requests issued (in order), and whether
the `err_op` error callback was invoked. -/
structure MirrorOut (σ : Type) where
  state : σ
  notifs : List Notif
  requests : List Request
  errReported : Bool
  deriving Repr, DecidableEq

namespace ImageList

/-- `ImageList::len`. -/
def len (s : ImageListState) : Nat :=
  s.list.length

/-- `ImageList::get_image`. -/
def get_image (s : ImageListState) (id : String) : Option Image :=
  assocGet id s.list

/-- `ImageList::intermediates`: the number of held images with an empty
tag set. -/
def intermediates (s : ImageListState) : Nat :=
  (s.list.filter fun p => p.2.repoTags.length = 0).length

/-- `ImageList::set_listing`. -/
def set_listing (s : ImageListState) (value : Bool) : ImageListState × List Notif :=
  if s.listing = value then (s, [])
  else ({ s with listing := value }, [Notif.changed "listing"])

/-- `ImageList::set_as_initialized`. -/
def set_as_initialized (s : ImageListState) : ImageListState × List Notif :=
  if s.initialized then (s, [])
  else ({ s with initialized := true }, [Notif.changed "initialized"])

/-- `ImageList::remove_image`: `shift_remove_full`, then `emit_deleted`
on the removed entity, then `items_changed(idx, 1, 0)`. -/
def remove_image (s : ImageListState) (id : String) : ImageListState × List Notif :=
  match assocShiftRemove id s.list with
  | none => (s, [])
  | some (idx, _, rest) =>
    ({ s with list := rest }, [Notif.deleted id, Notif.itemsChanged idx 1 0])

/-- The `to_remove` computation in `ImageList::refresh`: locally-held IDs
for which no response entry carries the same ID. -/
def toRemove (s : ImageListState) (summaries : List ImageSummary) : List String :=
  (assocKeys s.list).filter fun id => ¬ summaries.any fun summary => summary.id = id

/-- Folding `remove_image` over the `to_remove` IDs. -/
def removeAll (s : ImageListState) (ids : List String) : ImageListState × List Notif :=
  ids.foldl
    (fun acc id =>
      let r := remove_image acc.1 id
      (r.1, acc.2 ++ r.2))
    (s, [])

/-- One step of the summary loop in `ImageList::refresh`: a vacant entry
constructs and appends a new entity (emitting `items_changed(len, 0, 1)`
and the "image-added" signal), an occupied entry updates the stored
entity in place. -/
def applySummary (s : ImageListState) (summary : ImageSummary) :
    ImageListState × List Notif :=
  let index := len s
  match assocGet summary.id s.list with
  | none =>
    ({ s with
        list := s.list ++ [(summary.id, Image.new s.nextObjId summary)],
        nextObjId := s.nextObjId + 1 },
      [Notif.itemsChanged index 0 1, Notif.added summary.id])
  | some img =>
    ({ s with list := assocModify summary.id (fun _ => Image.update img summary) s.list },
      [])

/-- The summary loop of `ImageList::refresh`. -/
def applySummaries (s : ImageListState) (summaries : List ImageSummary) :
    ImageListState × List Notif :=
  summaries.foldl
    (fun acc summary =>
      let r := applySummary acc.1 summary
      (r.1, acc.2 ++ r.2))
    (s, [])

/-- `ImageList::refresh`, with the asynchronous list call's result passed
in: sets `listing`, reconciles on success (remove-absent, then
insert/update every response entry), invokes `err_op` on failure, and in
both cases clears `listing` and sets `initialized`. -/
def refresh (s : ImageListState) (result : Except PodmanError (List ImageSummary)) :
    MirrorOut ImageListState :=
  let l := set_listing s true
  match result with
  | .ok summaries =>
    let rem := removeAll l.1 (toRemove l.1 summaries)
    let app := applySummaries rem.1 summaries
    let u := set_listing app.1 false
    let i := set_as_initialized u.1
    { state := i.1,
      notifs := l.2 ++ rem.2 ++ app.2 ++ u.2 ++ i.2,
      requests := [Request.listImages],
      errReported := false }
  | .error _ =>
    let u := set_listing l.1 false
    let i := set_as_initialized u.1
    { state := i.1,
      notifs := l.2 ++ u.2 ++ i.2,
      requests := [Request.listImages],
      errReported := true }

/-- `ImageList::tag`: if the image is held, add the tag to its tag set;
notify "intermediates" iff the tag set was empty before. -/
def tag (s : ImageListState) (id : String) (t : String) : ImageListState × List Notif :=
  match assocGet id s.list with
  | none => (s, [])
  | some img =>
    let s' := { s with
      list := assocModify id (fun i => { i with repoTags := addRepoTag i.repoTags t }) s.list }
    if img.repoTags.length = 0 then (s', [Notif.changed "intermediates"]) else (s', [])

/-- `ImageList::untag`: if the image is held, remove the tag from its tag
set; notify "intermediates" iff the tag set is empty afterwards. -/
def untag (s : ImageListState) (id : String) (t : String) : ImageListState × List Notif :=
  match assocGet id s.list with
  | none => (s, [])
  | some img =>
    let s' := { s with
      list := assocModify id (fun i => { i with repoTags := removeRepoTag i.repoTags t }) s.list }
    if (removeRepoTag img.repoTags t).length = 0 then
      (s', [Notif.changed "intermediates"])
    else (s', [])

/-- `ImageList::handle_event`: dispatch on the event's action.  A
"build"/"pull" action starts a refresh: the immediate effect is setting
`listing` and issuing the list request (its completion is a separate
`refresh` application). -/
def handle_event (s : ImageListState) (event : Event) : MirrorOut ImageListState :=
  if event.action = "tag" then
    let r := tag s event.actorId ("localhost/" ++ event.actorName)
    { state := r.1, notifs := r.2, requests := [], errReported := false }
  else if event.action = "untag" then
    let r := untag s event.actorId event.actorName
    { state := r.1, notifs := r.2, requests := [], errReported := false }
  else if event.action = "remove" then
    let r := remove_image s event.actorId
    { state := r.1, notifs := r.2, requests := [], errReported := false }
  else if event.action = "build" ∨ event.action = "pull" then
    let l := set_listing s true
    { state := l.1, notifs := l.2, requests := [Request.listImages], errReported := false }
  else { state := s, notifs := [], requests := [], errReported := false }

end ImageList

/-! ## Containers (`src/model/container_list.rs`) -/

/-- A podman container list response entry (`podman::models::ListContainer`):
the fields the mirror reads. -/
structure ContainerSummary where
  id : String
  isInfra : Bool
  imageId : String
  podId : Option String
  status : String
  deriving Repr, DecidableEq

/-- A `model::Container` entity: GObject identity token, remote ID, the
runtime-reported attribute snapshot, and the derived cross-reference
fields (`image`, `pod`) maintained by the client wiring. -/
structure Container where
  objId : Nat
  id : String
  imageId : String
  podId : Option String
  status : String
  image : Option String
  pod : Option String
  deriving Repr, DecidableEq

/-- Modelled from the spec (`model::Container::new` is not part of the
sources at hand): constructing an entity from a listing response entry
snapshots the runtime-reported attributes; cross-references start
unlinked. -/
def Container.new (objId : Nat) (s : ContainerSummary) : Container :=
  { objId := objId, id := s.id, imageId := s.imageId, podId := s.podId,
    status := s.status, image := none, pod := none }

/-- Modelled from the spec (`model::Container::update` is not part of the
sources at hand): updating in place overwrites the runtime-reported
attribute snapshot and preserves object identity and cross-references. -/
def Container.update (c : Container) (s : ContainerSummary) : Container :=
  { c with imageId := s.imageId, podId := s.podId, status := s.status }

/-- State of `imp::ContainerList`. -/
structure ContainerListState where
  list : List (String × Container)
  listing : Bool
  initialized : Bool
  nextObjId : Nat
  deriving Repr, DecidableEq

/-- A fresh `ContainerList`. -/
def ContainerListState.empty : ContainerListState :=
  { list := [], listing := false, initialized := false, nextObjId := 0 }

namespace ContainerList

/-- `ContainerList::len`. -/
def len (s : ContainerListState) : Nat :=
  s.list.length

/-- `ContainerList::get_container`. -/
def get_container (s : ContainerListState) (id : String) : Option Container :=
  assocGet id s.list

/-- `ContainerList::set_listing`. -/
def set_listing (s : ContainerListState) (value : Bool) : ContainerListState × List Notif :=
  if s.listing = value then (s, [])
  else ({ s with listing := value }, [Notif.changed "listing"])

/-- `ContainerList::set_as_initialized`. -/
def set_as_initialized (s : ContainerListState) : ContainerListState × List Notif :=
  if s.initialized then (s, [])
  else ({ s with initialized := true }, [Notif.changed "initialized"])

/-- `ContainerList::remove_container`: `shift_remove_full`, then
`on_deleted` on the removed entity (modelled from the spec as the
entity-level "deleted" notification, `model::Container::on_deleted` not
being part of the sources at hand), then the collection-level
`container_removed` signal, then `items_changed(idx, 1, 0)`. -/
def remove_container (s : ContainerListState) (id : String) :
    ContainerListState × List Notif :=
  match assocShiftRemove id s.list with
  | none => (s, [])
  | some (idx, _, rest) =>
    ({ s with list := rest },
      [Notif.deleted id, Notif.removed id, Notif.itemsChanged idx 1 0])

/-- The `to_remove` computation in `ContainerList::refresh` (performed
only for an unfiltered refresh): locally-held IDs for which no response
entry — infra entries included — carries the same ID. -/
def toRemove (s : ContainerListState) (summaries : List ContainerSummary) : List String :=
  (assocKeys s.list).filter fun id => ¬ summaries.any fun c => c.id = id

/-- Folding `remove_container` over the `to_remove` IDs. -/
def removeAll (s : ContainerListState) (ids : List String) :
    ContainerListState × List Notif :=
  ids.foldl
    (fun acc id =>
      let r := remove_container acc.1 id
      (r.1, acc.2 ++ r.2))
    (s, [])

/-- One step of the summary loop in `ContainerList::refresh` (the loop
runs on the response entries that are not infra containers). -/
def applySummary (s : ContainerListState) (summary : ContainerSummary) :
    ContainerListState × List Notif :=
  let index := len s
  match assocGet summary.id s.list with
  | none =>
    ({ s with
        list := s.list ++ [(summary.id, Container.new s.nextObjId summary)],
        nextObjId := s.nextObjId + 1 },
      [Notif.itemsChanged index 0 1, Notif.added summary.id])
  | some c =>
    ({ s with list := assocModify summary.id (fun _ => Container.update c summary) s.list },
      [])

/-- The summary loop of `ContainerList::refresh`. -/
def applySummaries (s : ContainerListState) (summaries : List ContainerSummary) :
    ContainerListState × List Notif :=
  summaries.foldl
    (fun acc summary =>
      let r := applySummary acc.1 summary
      (r.1, acc.2 ++ r.2))
    (s, [])

/-- `ContainerList::refresh`, with the asynchronous list call's result
passed in.  The remove-absent reconciliation runs only when no ID filter
was supplied; the insert/update loop skips response entries flagged
`is_infra`. -/
def refresh (s : ContainerListState) (id : Option String)
    (result : Except PodmanError (List ContainerSummary)) :
    MirrorOut ContainerListState :=
  let l := set_listing s true
  match result with
  | .ok listContainers =>
    let rem :=
      if id.isNone then removeAll l.1 (toRemove l.1 listContainers)
      else (l.1, [])
    let app := applySummaries rem.1 (listContainers.filter fun c => ¬ c.isInfra)
    let u := set_listing app.1 false
    let i := set_as_initialized u.1
    { state := i.1,
      notifs := l.2 ++ rem.2 ++ app.2 ++ u.2 ++ i.2,
      requests := [Request.listContainers id],
      errReported := false }
  | .error _ =>
    let u := set_listing l.1 false
    let i := set_as_initialized u.1
    { state := i.1,
      notifs := l.2 ++ u.2 ++ i.2,
      requests := [Request.listContainers id],
      errReported := true }

/-- `ContainerList::handle_event`: "remove" evicts immediately;
"health_status" re-inspects the entity if held; every other action starts
a refresh scoped to the entity's ID if it is held, unfiltered otherwise
(the immediate effect is setting `listing` and issuing the list
request). -/
def handle_event (s : ContainerListState) (event : Event) : MirrorOut ContainerListState :=
  if event.action = "remove" then
    let r := remove_container s event.actorId
    { state := r.1, notifs := r.2, requests := [], errReported := false }
  else if event.action = "health_status" then
    match get_container s event.actorId with
    | some _ =>
      { state := s, notifs := [], requests := [Request.inspectContainer event.actorId],
        errReported := false }
    | none => { state := s, notifs := [], requests := [], errReported := false }
  else
    let filter := (get_container s event.actorId).map fun _ => event.actorId
    let l := set_listing s true
    { state := l.1, notifs := l.2, requests := [Request.listContainers filter],
      errReported := false }

end ContainerList

/-! ## Pods (`src/model/pod_list.rs`) -/

/-- A podman pod list response entry (`podman::models::ListPodsReport`):
the fields the mirror reads. -/
structure PodSummary where
  id : String
  status : String
  deriving Repr, DecidableEq

/-- A `model::Pod` entity: GObject identity token, remote ID, the
runtime-reported attribute snapshot, and the derived list of linked
container IDs (the pod's own container list). -/
structure Pod where
  objId : Nat
  id : String
  status : String
  containers : List String
  deriving Repr, DecidableEq

/-- Modelled from the spec (`model::Pod::new` is not part of the sources
at hand). -/
def Pod.new (objId : Nat) (s : PodSummary) : Pod :=
  { objId := objId, id := s.id, status := s.status, containers := [] }

/-- Modelled from the spec (`model::Pod::update` is not part of the
sources at hand). -/
def Pod.update (p : Pod) (s : PodSummary) : Pod :=
  { p with status := s.status }

/-- Modelled from the spec (the pod's own `SimpleContainerList` is not
part of the sources at hand): record a linked container ID. -/
def Pod.addContainer (p : Pod) (cid : String) : Pod :=
  if cid ∈ p.containers then p
  else { p with containers := p.containers ++ [cid] }

/-- Modelled from the spec: drop a linked container ID. -/
def Pod.removeContainer (p : Pod) (cid : String) : Pod :=
  { p with containers := p.containers.filter (· ≠ cid) }

/-- State of `imp::PodList`. -/
structure PodListState where
  list : List (String × Pod)
  listing : Bool
  initialized : Bool
  nextObjId : Nat
  deriving Repr, DecidableEq

/-- A fresh `PodList`. -/
def PodListState.empty : PodListState :=
  { list := [], listing := false, initialized := false, nextObjId := 0 }

namespace PodList

/-- `PodList::len`. -/
def len (s : PodListState) : Nat :=
  s.list.length

/-- `PodList::get_pod`. -/
def get_pod (s : PodListState) (id : String) : Option Pod :=
  assocGet id s.list

/-- `PodList::set_listing`. -/
def set_listing (s : PodListState) (value : Bool) : PodListState × List Notif :=
  if s.listing = value then (s, [])
  else ({ s with listing := value }, [Notif.changed "listing"])

/-- `PodList::set_as_initialized`. -/
def set_as_initialized (s : PodListState) : PodListState × List Notif :=
  if s.initialized then (s, [])
  else ({ s with initialized := true }, [Notif.changed "initialized"])

/-- `PodList::remove_pod`: `shift_remove_full`, then `emit_deleted` on
the removed entity, then `items_changed(idx, 1, 0)`. -/
def remove_pod (s : PodListState) (id : String) : PodListState × List Notif :=
  match assocShiftRemove id s.list with
  | none => (s, [])
  | some (idx, _, rest) =>
    ({ s with list := rest }, [Notif.deleted id, Notif.itemsChanged idx 1 0])

/-- The `to_remove` computation in `PodList::refresh` (performed only for
an unfiltered refresh). -/
def toRemove (s : PodListState) (summaries : List PodSummary) : List String :=
  (assocKeys s.list).filter fun id => ¬ summaries.any fun p => p.id = id

/-- Folding `remove_pod` over the `to_remove` IDs. -/
def removeAll (s : PodListState) (ids : List String) : PodListState × List Notif :=
  ids.foldl
    (fun acc id =>
      let r := remove_pod acc.1 id
      (r.1, acc.2 ++ r.2))
    (s, [])

/-- One step of the report loop in `PodList::refresh`. -/
def applySummary (s : PodListState) (summary : PodSummary) : PodListState × List Notif :=
  let index := len s
  match assocGet summary.id s.list with
  | none =>
    ({ s with
        list := s.list ++ [(summary.id, Pod.new s.nextObjId summary)],
        nextObjId := s.nextObjId + 1 },
      [Notif.itemsChanged index 0 1, Notif.added summary.id])
  | some p =>
    ({ s with list := assocModify summary.id (fun _ => Pod.update p summary) s.list },
      [])

/-- The report loop of `PodList::refresh`. -/
def applySummaries (s : PodListState) (summaries : List PodSummary) :
    PodListState × List Notif :=
  summaries.foldl
    (fun acc summary =>
      let r := applySummary acc.1 summary
      (r.1, acc.2 ++ r.2))
    (s, [])

/-- `PodList::refresh`, with the asynchronous list call's result passed
in. -/
def refresh (s : PodListState) (id : Option String)
    (result : Except PodmanError (List PodSummary)) : MirrorOut PodListState :=
  let l := set_listing s true
  match result with
  | .ok listPods =>
    let rem :=
      if id.isNone then removeAll l.1 (toRemove l.1 listPods)
      else (l.1, [])
    let app := applySummaries rem.1 listPods
    let u := set_listing app.1 false
    let i := set_as_initialized u.1
    { state := i.1,
      notifs := l.2 ++ rem.2 ++ app.2 ++ u.2 ++ i.2,
      requests := [Request.listPods id],
      errReported := false }
  | .error _ =>
    let u := set_listing l.1 false
    let i := set_as_initialized u.1
    { state := i.1,
      notifs := l.2 ++ u.2 ++ i.2,
      requests := [Request.listPods id],
      errReported := true }

/-- `PodList::handle_event`: "remove" evicts immediately; every other
action starts a refresh scoped to the pod's ID if it is held, unfiltered
otherwise. -/
def handle_event (s : PodListState) (event : Event) : MirrorOut PodListState :=
  if event.action = "remove" then
    let r := remove_pod s event.actorId
    { state := r.1, notifs := r.2, requests := [], errReported := false }
  else
    let filter := (get_pod s event.actorId).map fun _ => event.actorId
    let l := set_listing s true
    { state := l.1, notifs := l.2, requests := [Request.listPods filter],
      errReported := false }

end PodList

/-! ## Client cross-reference wiring (`src/model/client.rs`) -/

/-- The client's state: its three entity mirrors. -/
structure ClientState where
  images : ImageListState
  containers : ContainerListState
  pods : PodListState
  deriving Repr, DecidableEq

/-- IDs carried by the collection-level added signals in a notification
log, in emission order. -/
def notifAddedIds (ns : List Notif) : List String :=
  ns.filterMap fun n =>
    match n with
    | Notif.added id => some id
    | _ => none

/-- IDs carried by the collection-level removed signals in a notification
log, in emission order. -/
def notifRemovedIds (ns : List Notif) : List String :=
  ns.filterMap fun n =>
    match n with
    | Notif.removed id => some id
    | _ => none

/-- IDs carried by the entity-level deleted signals in a notification
log, in emission order. -/
def notifDeletedIds (ns : List Notif) : List String :=
  ns.filterMap fun n =>
    match n with
    | Notif.deleted id => some id
    | _ => none

namespace Client

/-- The image mirror's "image-added" handler installed in
`imp::Client::constructed`: every currently-known container whose
recorded image ID matches the added image is linked in both
directions. -/
def onImageAdded (s : ClientState) (imageId : String) : ClientState :=
  let matching := (s.containers.list.filter fun p => p.2.imageId = imageId).map Prod.fst
  { s with
    containers := { s.containers with
      list := s.containers.list.map fun p =>
        (p.1, if p.2.imageId = imageId then { p.2 with image := some imageId } else p.2) },
    images := { s.images with
      list := assocModify imageId (fun img => matching.foldl Image.addContainer img)
        s.images.list } }

/-- The container mirror's `container_added` handler installed in
`imp::Client::constructed`: the container's image link is set to the
image found for its recorded image ID (or cleared if none is held), a
found image records the container; if the container's recorded pod ID is
held, pod and container are linked in both directions. -/
def onContainerAdded (s : ClientState) (containerId : String) : ClientState :=
  match assocGet containerId s.containers.list with
  | none => s
  | some c =>
    let imageFound := (assocGet c.imageId s.images.list).isSome
    let s1 := { s with
      containers := { s.containers with
        list := assocModify containerId
          (fun c' => { c' with image := if imageFound then some c.imageId else none })
          s.containers.list },
      images :=
        if imageFound then
          { s.images with
            list := assocModify c.imageId (fun img => img.addContainer containerId)
              s.images.list }
        else s.images }
    match c.podId with
    | some pid =>
      if (assocGet pid s.pods.list).isSome then
        { s1 with
          containers := { s1.containers with
            list := assocModify containerId (fun c' => { c' with pod := some pid })
              s1.containers.list },
          pods := { s1.pods with
            list := assocModify pid (fun p => p.addContainer containerId) s1.pods.list } }
      else s1
    | none => s1

/-- The container mirror's `container_removed` handler installed in
`imp::Client::constructed`: the removed container (already evicted from
the mirror, the handler receives the entity object) is unlinked from the
image found for its recorded image ID and from its linked pod. -/
def onContainerRemoved (s : ClientState) (c : Container) : ClientState :=
  let s1 :=
    if (assocGet c.imageId s.images.list).isSome then
      { s with images := { s.images with
          list := assocModify c.imageId (fun img => img.removeContainer c.id)
            s.images.list } }
    else s
  match c.pod with
  | some pid =>
    { s1 with pods := { s1.pods with
        list := assocModify pid (fun p => p.removeContainer c.id) s1.pods.list } }
  | none => s1

/-- The pod mirror's "pod-added" handler installed in
`imp::Client::constructed`: every currently-known container whose
recorded pod ID matches the added pod is linked in both directions. -/
def onPodAdded (s : ClientState) (podId : String) : ClientState :=
  let matching := (s.containers.list.filter fun p => p.2.podId = some podId).map Prod.fst
  { s with
    containers := { s.containers with
      list := s.containers.list.map fun p =>
        (p.1, if p.2.podId = some podId then { p.2 with pod := some podId } else p.2) },
    pods := { s.pods with
      list := assocModify podId (fun pd => matching.foldl Pod.addContainer pd)
        s.pods.list } }

/-- A client-level image refresh: the mirror refresh followed by the
"image-added" wiring handler for each added image. -/
def refreshImages (s : ClientState) (result : Except PodmanError (List ImageSummary)) :
    ClientState :=
  let out := ImageList.refresh s.images result
  (notifAddedIds out.notifs).foldl onImageAdded { s with images := out.state }

/-- A client-level container refresh: the mirror refresh, the
`container_removed` wiring handler for each evicted container, and the
`container_added` wiring handler for each added container. -/
def refreshContainers (s : ClientState) (id : Option String)
    (result : Except PodmanError (List ContainerSummary)) : ClientState :=
  let out := ContainerList.refresh s.containers id result
  let removed := (notifRemovedIds out.notifs).filterMap fun cid =>
    assocGet cid s.containers.list
  let s1 := removed.foldl onContainerRemoved { s with containers := out.state }
  (notifAddedIds out.notifs).foldl onContainerAdded s1

/-- A client-level pod refresh: the mirror refresh followed by the
"pod-added" wiring handler for each added pod. -/
def refreshPods (s : ClientState) (id : Option String)
    (result : Except PodmanError (List PodSummary)) : ClientState :=
  let out := PodList.refresh s.pods id result
  (notifAddedIds out.notifs).foldl onPodAdded { s with pods := out.state }

end Client

/-! ## Connection manager (`src/model/connection_manager.rs`) -/

/-- A named, user-configured endpoint descriptor. -/
structure Connection where
  uuid : String
  name : String
  url : String
  deriving Repr, DecidableEq

/-- State of `imp::ConnectionManager`: the insertion-ordered UUID→connection
mapping and the currently active client (identified by the connection it
was created from). -/
structure ConnectionManagerState where
  connections : List (String × Connection)
  client : Option Connection
  deriving Repr, DecidableEq

/-- `IndexMap::insert_full`: replace in place at the existing index if
the key is present, append otherwise; returns the entry's index. -/
def assocInsertFull {α : Type} (l : List (String × α)) (k : String) (v : α) :
    Nat × List (String × α) :=
  match assocGet k l with
  | some _ =>
    (((l.map Prod.fst).indexOf k), assocModify k (fun _ => v) l)
  | none => (l.length, l ++ [(k, v)])

/-- Result of a `try_connect` attempt. -/
structure TryConnectOut where
  state : ConnectionManagerState
  /-- `try_connect` itself returned `Err` (synchronously). -/
  returnedErr : Bool
  /-- the network requests issued. -/
  requests : List Request
  /-- `sync_to_disk` was called. -/
  persisted : Bool
  notifs : List Notif
  deriving Repr, DecidableEq

namespace ConnectionManager

/-- `ConnectionManager::try_connect`, with the nondeterministic inputs
passed in: the freshly generated UUID, whether `Client::try_from`
succeeds for the URL, and the result of the asynchronous ping.  A
duplicate name is rejected before any network call; on ping success the
client is made active, the connection inserted and the store persisted;
on ping failure nothing is mutated or persisted. -/
def try_connect (s : ConnectionManagerState) (uuid name url : String) (urlOk : Bool)
    (ping : Except PodmanError Unit) : TryConnectOut :=
  if (s.connections.map Prod.snd).any (fun c => c.name = name) then
    { state := s, returnedErr := true, requests := [], persisted := false, notifs := [] }
  else if urlOk = false then
    { state := s, returnedErr := true, requests := [], persisted := false, notifs := [] }
  else
    match ping with
    | .ok _ =>
      let conn : Connection := { uuid := uuid, name := name, url := url }
      let ins := assocInsertFull s.connections uuid conn
      { state := { connections := ins.2, client := some conn },
        returnedErr := false,
        requests := [Request.ping],
        persisted := true,
        notifs := [Notif.changed "client", Notif.itemsChanged ins.1 0 1] }
    | .error _ =>
      { state := s, returnedErr := false, requests := [Request.ping], persisted := false,
        notifs := [] }

end ConnectionManager

/-! ## Operation sequences applied to one mirror -/

/-- One state transition of the image mirror: the completion of an
asynchronous refresh, or an incoming event from the event stream. -/
inductive ImageOp where
  | refreshDone (result : Except PodmanError (List ImageSummary))
  | event (e : Event)

/-- Apply one image-mirror operation to the mirror state. -/
def ImageList.applyOp (s : ImageListState) (op : ImageOp) : ImageListState :=
  match op with
  | ImageOp.refreshDone r => (ImageList.refresh s r).state
  | ImageOp.event e => (ImageList.handle_event s e).state

/-- One state transition of the container mirror. -/
inductive ContainerOp where
  | refreshDone (id : Option String) (result : Except PodmanError (List ContainerSummary))
  | event (e : Event)

/-- Apply one container-mirror operation to the mirror state. -/
def ContainerList.applyOp (s : ContainerListState) (op : ContainerOp) : ContainerListState :=
  match op with
  | ContainerOp.refreshDone id r => (ContainerList.refresh s id r).state
  | ContainerOp.event e => (ContainerList.handle_event s e).state

/-- One state transition of the pod mirror. -/
inductive PodOp where
  | refreshDone (id : Option String) (result : Except PodmanError (List PodSummary))
  | event (e : Event)

/-- Apply one pod-mirror operation to the mirror state. -/
def PodList.applyOp (s : PodListState) (op : PodOp) : PodListState :=
  match op with
  | PodOp.refreshDone id r => (PodList.refresh s id r).state
  | PodOp.event e => (PodList.handle_event s e).state

/-- A client state holding one unlinked container "c1" whose image ID is
"i1", with empty image and pod mirrors: the image arrives later. -/
def c4Before : ClientState :=
  { images := ImageListState.empty,
    containers :=
      { list := [("c1", { objId := 0, id := "c1", imageId := "i1", podId := none,
                          status := "running", image := none, pod := none })],
        listing := false, initialized := false, nextObjId := 1 },
    pods := PodListState.empty }

/-- A client state holding image "i1" and pod "p1" but no containers: the
container arrives later. -/
def c4After : ClientState :=
  { images :=
      { list := [("i1", { objId := 0, id := "i1", repoTags := [], containers := [] })],
        listing := false, initialized := false, nextObjId := 1 },
    containers := ContainerListState.empty,
    pods :=
      { list := [("p1", { objId := 0, id := "p1", status := "running", containers := [] })],
        listing := false, initialized := false, nextObjId := 1 } }

/-- The container listing entry used in the concrete linking scenario. -/
def c4Sum : ContainerSummary :=
  { id := "c2", isInfra := false, imageId := "i1", podId := some "p1", status := "created" }

/-- A pod-less container listing entry used in the concrete linking
scenario. -/
def c4SumNoPod : ContainerSummary :=
  { id := "c3", isInfra := false, imageId := "i1", podId := none, status := "created" }

/-! ## Lemmas about the association-list operations -/

theorem assocKeys_append {α : Type} (l₁ l₂ : List (String × α)) :
    assocKeys (l₁ ++ l₂) = assocKeys l₁ ++ assocKeys l₂ := by
  simp [assocKeys]

theorem assocGet_eq_none_iff {α : Type} {id : String} {l : List (String × α)} :
    assocGet id l = none ↔ id ∉ assocKeys l := by
  induction l with
  | nil => simp [assocGet, assocKeys]
  | cons p rest ih =>
    simp only [assocGet, assocKeys, List.map_cons, List.mem_cons]
    by_cases h : p.1 = id
    · simp [h]
    · simp only [h, if_false]
      rw [ih]
      constructor
      · intro hn hor
        rcases hor with h1 | h1
        · exact h h1.symm
        · exact hn h1
      · intro hn h1
        exact hn (Or.inr h1)

theorem assocGet_isSome_iff {α : Type} {id : String} {l : List (String × α)} :
    (assocGet id l).isSome ↔ id ∈ assocKeys l := by
  rcases h : assocGet id l with _ | v
  · simp [assocGet_eq_none_iff.mp h]
  · simp only [Option.isSome_some, true_iff]
    by_contra hmem
    rw [assocGet_eq_none_iff.mpr hmem] at h
    exact Option.noConfusion h

theorem assocGet_mem {α : Type} {id : String} {l : List (String × α)} {v : α}
    (h : assocGet id l = some v) : (id, v) ∈ l := by
  induction l with
  | nil => simp [assocGet] at h
  | cons p rest ih =>
    by_cases hp : p.1 = id
    · simp [assocGet, hp] at h
      subst hp h
      exact List.mem_cons_self _ _
    · simp [assocGet, hp] at h
      exact List.mem_cons_of_mem _ (ih h)

theorem assocGet_append {α : Type} (id : String) (l₁ l₂ : List (String × α)) :
    assocGet id (l₁ ++ l₂) =
      match assocGet id l₁ with
      | some v => some v
      | none => assocGet id l₂ := by
  induction l₁ with
  | nil => simp [assocGet]
  | cons p rest ih =>
    by_cases hp : p.1 = id <;> simp [assocGet, hp, ih]

theorem assocModify_keys {α : Type} (id : String) (f : α → α) (l : List (String × α)) :
    assocKeys (assocModify id f l) = assocKeys l := by
  induction l with
  | nil => rfl
  | cons p rest ih =>
    by_cases hp : p.1 = id
    · simp [assocModify, assocKeys, hp]
    · simp only [assocModify, hp, if_false, assocKeys, List.map_cons]
      simpa [assocKeys] using ih

theorem assocGet_modify_self {α : Type} {id : String} (f : α → α) (l : List (String × α)) :
    assocGet id (assocModify id f l) = (assocGet id l).map f := by
  induction l with
  | nil => rfl
  | cons p rest ih =>
    by_cases hp : p.1 = id <;> simp [assocModify, assocGet, hp, ih]

theorem assocGet_modify_ne {α : Type} {k id : String} (hne : k ≠ id) (f : α → α)
    (l : List (String × α)) : assocGet k (assocModify id f l) = assocGet k l := by
  induction l with
  | nil => rfl
  | cons p rest ih =>
    by_cases hp : p.1 = id
    · have hik : ¬ id = k := fun h => hne h.symm
      simp [assocModify, assocGet, hp, hik]
    · simp [assocModify, assocGet, hp, ih]

theorem assocModify_same {α : Type} {id : String} {l : List (String × α)} {v : α}
    (h : assocGet id l = some v) : assocModify id (fun _ => v) l = l := by
  induction l with
  | nil => rfl
  | cons p rest ih =>
    obtain ⟨a, b⟩ := p
    by_cases hp : a = id
    · subst hp
      simp only [assocGet, if_pos] at h
      injection h with h
      subst h
      simp [assocModify]
    · simp only [assocGet, hp, if_false] at h
      simp [assocModify, hp, ih h]

theorem assocShiftRemove_eq_none_iff {α : Type} {id : String} {l : List (String × α)} :
    assocShiftRemove id l = none ↔ id ∉ assocKeys l := by
  induction l with
  | nil => simp [assocShiftRemove, assocKeys]
  | cons p rest ih =>
    by_cases hp : p.1 = id
    · simp [assocShiftRemove, assocKeys, hp]
    · simp only [assocShiftRemove, hp, if_false, assocKeys, List.map_cons, List.mem_cons]
      rw [Option.map_eq_none']
      simp only [assocKeys] at ih
      rw [ih]
      constructor
      · rintro h (h' | h')
        · exact hp h'.symm
        · exact h h'
      · intro h h'
        exact h (Or.inr h')

theorem assocShiftRemove_of_nodup {α : Type} {id : String} {l : List (String × α)}
    {idx : Nat} {v : α} {rest : List (String × α)} (hnd : (assocKeys l).Nodup)
    (h : assocShiftRemove id l = some (idx, v, rest)) :
    rest = l.filter (fun p => p.1 ≠ id) ∧ assocGet id l = some v := by
  induction l generalizing idx rest with
  | nil => simp [assocShiftRemove] at h
  | cons p tail ih =>
    obtain ⟨a, b⟩ := p
    simp only [assocKeys, List.map_cons, List.nodup_cons] at hnd
    by_cases hp : a = id
    · subst hp
      simp only [assocShiftRemove, if_pos] at h
      injection h with h
      injection h with h1 h
      injection h with h2 h3
      subst h2
      subst h3
      have hfil : tail.filter (fun p => p.1 ≠ a) = tail := by
        rw [List.filter_eq_self]
        intro q hq
        have hmem : q.1 ∈ List.map Prod.fst tail := List.mem_map_of_mem Prod.fst hq
        have : q.1 ≠ a := fun he => hnd.1 (he ▸ hmem)
        simpa using this
      refine ⟨?_, by simp [assocGet]⟩
      rw [List.filter_cons]
      simp only [ne_eq, decide_not] at hfil
      simp [hfil]
    · simp only [assocShiftRemove, hp, if_false] at h
      rcases hq : assocShiftRemove id tail with _ | q
      · rw [hq] at h
        simp at h
      · obtain ⟨i', v', rest'⟩ := q
        rw [hq] at h
        simp only [Option.map_some'] at h
        injection h with h
        injection h with h1 h
        injection h with h2 h3
        subst h2
        subst h3
        obtain ⟨ih1, ih2⟩ := ih hnd.2 hq
        refine ⟨?_, by simp [assocGet, hp, ih2]⟩
        rw [List.filter_cons, ih1]
        simp [hp]

theorem assocKeys_filter_key {α : Type} (g : String → Bool) (l : List (String × α)) :
    assocKeys (l.filter fun p => g p.1) = (assocKeys l).filter g := by
  induction l with
  | nil => rfl
  | cons p rest ih =>
    simp only [assocKeys] at ih ⊢
    rcases hg : g p.1 with _ | _ <;> simp [List.filter_cons, hg, ih]

theorem assocKeys_filter_nodup {α : Type} {l : List (String × α)}
    (hnd : (assocKeys l).Nodup) (f : String × α → Bool) :
    (assocKeys (l.filter f)).Nodup :=
  hnd.sublist ((List.filter_sublist l).map Prod.fst)

theorem foldl_pair_acc {σ β γ : Type} (f : σ → β → σ × List γ) (xs : List β) (s : σ)
    (n : List γ) :
    xs.foldl
        (fun acc x =>
          let r := f acc.1 x
          (r.1, acc.2 ++ r.2)) (s, n)
      = ((xs.foldl
            (fun acc x =>
              let r := f acc.1 x
              (r.1, acc.2 ++ r.2)) (s, [])).1,
          n ++ (xs.foldl
            (fun acc x =>
              let r := f acc.1 x
              (r.1, acc.2 ++ r.2)) (s, [])).2) := by
  induction xs generalizing s n with
  | nil => simp
  | cons x xs ih =>
    simp only [List.foldl_cons]
    rw [ih ((f s x).1) (n ++ (f s x).2), ih ((f s x).1) ([] ++ (f s x).2)]
    simp [List.append_assoc]

theorem notifAddedIds_append (a b : List Notif) :
    notifAddedIds (a ++ b) = notifAddedIds a ++ notifAddedIds b :=
  List.filterMap_append a b _

theorem notifRemovedIds_append (a b : List Notif) :
    notifRemovedIds (a ++ b) = notifRemovedIds a ++ notifRemovedIds b :=
  List.filterMap_append a b _

namespace ImageList

theorem set_listing_state (s : ImageListState) (v : Bool) :
    (set_listing s v).1 = { s with listing := v } := by
  obtain ⟨l, li, init, n⟩ := s
  by_cases h : li = v <;> simp [set_listing, h]

theorem set_as_initialized_state (s : ImageListState) :
    (set_as_initialized s).1 = { s with initialized := true } := by
  obtain ⟨l, li, init, n⟩ := s
  rcases init with _ | _ <;> simp [set_as_initialized]

theorem remove_image_state {s : ImageListState} {id : String}
    (hnd : (assocKeys s.list).Nodup) :
    (remove_image s id).1 = { s with list := s.list.filter fun p => p.1 ≠ id } := by
  rcases hq : assocShiftRemove id s.list with _ | ⟨⟨i, v, rest⟩⟩
  · have hid : id ∉ assocKeys s.list := assocShiftRemove_eq_none_iff.mp hq
    have hfil : s.list.filter (fun p => p.1 ≠ id) = s.list := by
      rw [List.filter_eq_self]
      intro q hqmem
      have hm : q.1 ∈ assocKeys s.list := List.mem_map_of_mem Prod.fst hqmem
      have : q.1 ≠ id := fun he => hid (he ▸ hm)
      simpa using this
    simp only [ne_eq, decide_not] at hfil
    simp [remove_image, hq, hfil]
  · obtain ⟨h1, -⟩ := assocShiftRemove_of_nodup hnd hq
    simp [remove_image, hq, h1]

theorem remove_image_notifs_no_added (s : ImageListState) (id : String) :
    notifAddedIds (remove_image s id).2 = [] := by
  rcases hq : assocShiftRemove id s.list with _ | ⟨⟨i, v, rest⟩⟩ <;>
    simp [remove_image, hq, notifAddedIds]

theorem removeAll_cons (s : ImageListState) (id : String) (ids : List String) :
    removeAll s (id :: ids)
      = ((removeAll (remove_image s id).1 ids).1,
          (remove_image s id).2 ++ (removeAll (remove_image s id).1 ids).2) := by
  unfold removeAll
  rw [List.foldl_cons]
  show (ids.foldl _ ((remove_image s id).1, [] ++ (remove_image s id).2)) = _
  rw [List.nil_append, foldl_pair_acc remove_image ids]

theorem removeAll_state {ids : List String} {s : ImageListState}
    (hnd : (assocKeys s.list).Nodup) :
    (removeAll s ids).1 = { s with list := s.list.filter fun p => ¬ p.1 ∈ ids } := by
  induction ids generalizing s with
  | nil =>
    have hfil : s.list.filter (fun p => ¬ p.1 ∈ ([] : List String)) = s.list := by
      rw [List.filter_eq_self]
      intro q hq
      simp
    simp [removeAll, hfil]
  | cons i rest ih =>
    rw [removeAll_cons]
    have h1 := @remove_image_state s i hnd
    have hnd' : (assocKeys (remove_image s i).1.list).Nodup := by
      rw [h1]
      exact assocKeys_filter_nodup hnd _
    rw [ih hnd', h1]
    simp only []
    rw [List.filter_filter]
    congr 1
    apply List.filter_congr
    intro p hp
    simp only [List.mem_cons, not_or, Bool.decide_and, decide_not]
    exact Bool.and_comm _ _

theorem removeAll_notifs_no_added (ids : List String) (s : ImageListState) :
    notifAddedIds (removeAll s ids).2 = [] := by
  induction ids generalizing s with
  | nil => rfl
  | cons i rest ih =>
    rw [removeAll_cons]
    simp only [notifAddedIds_append, remove_image_notifs_no_added, ih, List.append_nil]

theorem applySummary_vacant {s : ImageListState} {sum : ImageSummary}
    (h : assocGet sum.id s.list = none) :
    applySummary s sum =
      ({ s with
          list := s.list ++ [(sum.id, Image.new s.nextObjId sum)],
          nextObjId := s.nextObjId + 1 },
        [Notif.itemsChanged (len s) 0 1, Notif.added sum.id]) := by
  simp [applySummary, h]

theorem applySummary_occupied {s : ImageListState} {sum : ImageSummary} {img : Image}
    (h : assocGet sum.id s.list = some img) :
    applySummary s sum =
      ({ s with list := assocModify sum.id (fun _ => Image.update img sum) s.list }, []) := by
  simp [applySummary, h]

theorem applySummaries_cons (s : ImageListState) (sum : ImageSummary)
    (sums : List ImageSummary) :
    applySummaries s (sum :: sums)
      = ((applySummaries (applySummary s sum).1 sums).1,
          (applySummary s sum).2 ++ (applySummaries (applySummary s sum).1 sums).2) := by
  unfold applySummaries
  rw [List.foldl_cons]
  show (sums.foldl _ ((applySummary s sum).1, [] ++ (applySummary s sum).2)) = _
  rw [List.nil_append, foldl_pair_acc applySummary sums]

theorem applySummaries_nil (s : ImageListState) : applySummaries s [] = (s, []) := rfl

theorem applySummary_keys_vacant {s : ImageListState} {sum : ImageSummary}
    (h : assocGet sum.id s.list = none) :
    assocKeys (applySummary s sum).1.list = assocKeys s.list ++ [sum.id]
      ∧ notifAddedIds (applySummary s sum).2 = [sum.id] := by
  rw [applySummary_vacant h]
  exact ⟨by simp [assocKeys], by simp [notifAddedIds]⟩

theorem applySummary_keys_occupied {s : ImageListState} {sum : ImageSummary} {img : Image}
    (h : assocGet sum.id s.list = some img) :
    assocKeys (applySummary s sum).1.list = assocKeys s.list
      ∧ notifAddedIds (applySummary s sum).2 = [] := by
  rw [applySummary_occupied h]
  exact ⟨by simp [assocModify_keys], by simp [notifAddedIds]⟩

theorem applySummary_get_preserved {s : ImageListState} {sum : ImageSummary}
    (k : String) (img : Image) (h : assocGet k s.list = some img) :
    ∃ img', assocGet k (applySummary s sum).1.list = some img'
      ∧ img'.objId = img.objId := by
  rcases hget : assocGet sum.id s.list with _ | img0
  · rw [applySummary_vacant hget]
    refine ⟨img, ?_, rfl⟩
    rw [assocGet_append, h]
  · rw [applySummary_occupied hget]
    by_cases hk : sum.id = k
    · subst hk
      rw [h] at hget
      injection hget with hget
      subst hget
      refine ⟨Image.update img sum, ?_, rfl⟩
      simp only [assocGet_modify_self, h, Option.map_some']
    · exact ⟨img, by rw [assocGet_modify_ne (fun he => hk he.symm), h], rfl⟩

theorem applySummary_get_other {s : ImageListState} {sum : ImageSummary} {k : String}
    (hk : sum.id ≠ k) :
    assocGet k (applySummary s sum).1.list = assocGet k s.list := by
  rcases hget : assocGet sum.id s.list with _ | img0
  · rw [applySummary_vacant hget]
    simp only [assocGet_append]
    rcases assocGet k s.list with _ | v
    · simp [assocGet, hk]
    · rfl
  · rw [applySummary_occupied hget]
    exact assocGet_modify_ne (fun he => hk he.symm) _ _

theorem applySummary_get_self_vacant {s : ImageListState} {sum : ImageSummary}
    (h : assocGet sum.id s.list = none) :
    assocGet sum.id (applySummary s sum).1.list = some (Image.new s.nextObjId sum) := by
  rw [applySummary_vacant h]
  simp only [assocGet_append, h]
  simp [assocGet]

theorem applySummary_get_self_occupied {s : ImageListState} {sum : ImageSummary} {img : Image}
    (h : assocGet sum.id s.list = some img) :
    assocGet sum.id (applySummary s sum).1.list = some (Image.update img sum) := by
  rw [applySummary_occupied h]
  simp only [assocGet_modify_self, h, Option.map_some']

theorem applySummaries_spec (sums : List ImageSummary) (s : ImageListState)
    (hnd : (assocKeys s.list).Nodup) :
    assocKeys (applySummaries s sums).1.list
        = assocKeys s.list ++ notifAddedIds (applySummaries s sums).2
      ∧ (assocKeys (applySummaries s sums).1.list).Nodup
      ∧ (∀ a ∈ notifAddedIds (applySummaries s sums).2,
          a ∉ assocKeys s.list ∧ ∃ x ∈ sums, x.id = a)
      ∧ (∀ x ∈ sums, x.id ∈ assocKeys (applySummaries s sums).1.list)
      ∧ (∀ k img, assocGet k s.list = some img →
          ∃ img', assocGet k (applySummaries s sums).1.list = some img'
            ∧ img'.objId = img.objId) := by
  induction sums generalizing s with
  | nil =>
    refine ⟨by simp [applySummaries_nil, notifAddedIds],
      by simpa [applySummaries_nil] using hnd,
      by simp [applySummaries_nil, notifAddedIds], by simp, ?_⟩
    intro k img h
    exact ⟨img, by simpa [applySummaries_nil] using h, rfl⟩
  | cons sum sums ih =>
    rw [applySummaries_cons]
    simp only [notifAddedIds_append]
    rcases hget : assocGet sum.id s.list with _ | img0
    · obtain ⟨hk1, hk2⟩ := applySummary_keys_vacant hget
      have hfresh : sum.id ∉ assocKeys s.list := assocGet_eq_none_iff.mp hget
      have hnd' : (assocKeys (applySummary s sum).1.list).Nodup := by
        rw [hk1]
        rw [List.nodup_append]
        refine ⟨hnd, List.nodup_singleton _, ?_⟩
        intro a ha hb
        simp only [List.mem_singleton] at hb
        exact hfresh (hb ▸ ha)
      obtain ⟨ih1, ih2, ih3, ih4, ih5⟩ := ih (applySummary s sum).1 hnd'
      refine ⟨?_, ih2, ?_, ?_, ?_⟩
      · simp only [ih1, hk1, hk2, List.append_assoc, List.singleton_append]
      · intro a ha
        rw [hk2] at ha
        simp only [List.singleton_append, List.mem_cons] at ha
        rcases ha with rfl | ha
        · exact ⟨hfresh, sum, List.mem_cons_self _ _, rfl⟩
        · obtain ⟨hna, x, hx, hxa⟩ := ih3 a ha
          refine ⟨fun hmem => hna ?_, x, List.mem_cons_of_mem _ hx, hxa⟩
          rw [hk1]
          exact List.mem_append_left _ hmem
      · intro x hx
        rcases List.mem_cons.mp hx with rfl | hx
        · rw [ih1, hk1]
          exact List.mem_append_left _ (List.mem_append_right _ (List.mem_singleton_self _))
        · exact ih4 x hx
      · intro k img h
        obtain ⟨img1, h1, h2⟩ := applySummary_get_preserved k img h
        obtain ⟨img2, h3, h4⟩ := ih5 k img1 h1
        exact ⟨img2, h3, h4.trans h2⟩
    · obtain ⟨hk1, hk2⟩ := applySummary_keys_occupied hget
      have hnd' : (assocKeys (applySummary s sum).1.list).Nodup := by
        rw [hk1]
        exact hnd
      obtain ⟨ih1, ih2, ih3, ih4, ih5⟩ := ih (applySummary s sum).1 hnd'
      refine ⟨?_, ih2, ?_, ?_, ?_⟩
      · simp only [ih1, hk1, hk2, List.nil_append]
      · intro a ha
        rw [hk2] at ha
        simp only [List.nil_append] at ha
        obtain ⟨hna, x, hx, hxa⟩ := ih3 a ha
        exact ⟨by rw [← hk1]; exact hna, x, List.mem_cons_of_mem _ hx, hxa⟩
      · intro x hx
        rcases List.mem_cons.mp hx with rfl | hx
        · rw [ih1, hk1]
          refine List.mem_append_left _ ?_
          exact assocGet_isSome_iff.mp (by rw [hget]; rfl)
        · exact ih4 x hx
      · intro k img h
        obtain ⟨img1, h1, h2⟩ := applySummary_get_preserved k img h
        obtain ⟨img2, h3, h4⟩ := ih5 k img1 h1
        exact ⟨img2, h3, h4.trans h2⟩

theorem applySummaries_get_preserved {sums : List ImageSummary} {s : ImageListState}
    {k : String} (hk : ∀ x ∈ sums, x.id ≠ k) :
    assocGet k (applySummaries s sums).1.list = assocGet k s.list := by
  induction sums generalizing s with
  | nil => rfl
  | cons sum sums ih =>
    rw [applySummaries_cons]
    show assocGet k (applySummaries (applySummary s sum).1 sums).1.list = _
    rw [ih (fun x hx => hk x (List.mem_cons_of_mem _ hx))]
    exact applySummary_get_other (hk sum (List.mem_cons_self _ _))

theorem applySummaries_fresh_value {sums : List ImageSummary} {s : ImageListState}
    {sum : ImageSummary} (hnds : (sums.map (fun x => x.id)).Nodup)
    (hmem : sum ∈ sums) (hfresh : sum.id ∉ assocKeys s.list) :
    ∃ n, assocGet sum.id (applySummaries s sums).1.list = some (Image.new n sum) := by
  induction sums generalizing s with
  | nil => simp at hmem
  | cons x sums ih =>
    rw [applySummaries_cons]
    show ∃ n, assocGet sum.id (applySummaries (applySummary s x).1 sums).1.list = _
    simp only [List.map_cons, List.nodup_cons] at hnds
    rcases List.mem_cons.mp hmem with rfl | hmem'
    · have hget : assocGet sum.id s.list = none := assocGet_eq_none_iff.mpr hfresh
      have hv := applySummary_get_self_vacant hget
      have hpres : ∀ y ∈ sums, y.id ≠ sum.id := by
        intro y hy he
        exact hnds.1 (he ▸ List.mem_map_of_mem _ hy)
      rw [applySummaries_get_preserved hpres, hv]
      exact ⟨s.nextObjId, rfl⟩
    · have hxne : x.id ≠ sum.id := by
        intro he
        exact hnds.1 (he ▸ List.mem_map_of_mem _ hmem')
      have hfresh' : sum.id ∉ assocKeys (applySummary s x).1.list := by
        rcases hg : assocGet x.id s.list with _ | i0
        · obtain ⟨hk1, -⟩ := applySummary_keys_vacant hg
          rw [hk1]
          intro hc
          rcases List.mem_append.mp hc with hc | hc
          · exact hfresh hc
          · simp only [List.mem_singleton] at hc
            exact hxne hc.symm
        · obtain ⟨hk1, -⟩ := applySummary_keys_occupied hg
          rw [hk1]
          exact hfresh
      exact ih hnds.2 hmem' hfresh'

theorem applySummaries_establishes {sums : List ImageSummary} {s : ImageListState}
    (hnds : (sums.map (fun x => x.id)).Nodup) :
    ∀ sum ∈ sums, ∃ img, assocGet sum.id (applySummaries s sums).1.list = some img
      ∧ img.repoTags = sum.repoTags := by
  induction sums generalizing s with
  | nil =>
    intro sum h
    simp at h
  | cons x sums ih =>
    simp only [List.map_cons, List.nodup_cons] at hnds
    intro sum hmem
    rw [applySummaries_cons]
    show ∃ img, assocGet sum.id (applySummaries (applySummary s x).1 sums).1.list = some img ∧ _
    rcases List.mem_cons.mp hmem with rfl | hmem'
    · have hpres : ∀ y ∈ sums, y.id ≠ sum.id := fun y hy he =>
        hnds.1 (he ▸ List.mem_map_of_mem _ hy)
      rw [applySummaries_get_preserved hpres]
      rcases hg : assocGet sum.id s.list with _ | i0
      · rw [applySummary_get_self_vacant hg]
        exact ⟨_, rfl, rfl⟩
      · rw [applySummary_get_self_occupied hg]
        exact ⟨_, rfl, rfl⟩
    · exact ih hnds.2 sum hmem'

theorem applySummaries_fix {sums : List ImageSummary} {s : ImageListState}
    (h : ∀ sum ∈ sums, ∃ img, assocGet sum.id s.list = some img
      ∧ Image.update img sum = img) :
    applySummaries s sums = (s, []) := by
  induction sums generalizing s with
  | nil => rfl
  | cons x sums ih =>
    rw [applySummaries_cons]
    obtain ⟨img, hg, hupd⟩ := h x (List.mem_cons_self _ _)
    have hstep : applySummary s x = (s, []) := by
      rw [applySummary_occupied hg]
      simp only [hupd]
      rw [assocModify_same hg]
    rw [hstep, ih (fun sum hmem => h sum (List.mem_cons_of_mem _ hmem))]
    rfl

end ImageList

theorem assocGet_filter {α : Type} {k : String} {l : List (String × α)} {v : α}
    (g : String → Bool) (h : assocGet k l = some v) (hg : g k = true) :
    assocGet k (l.filter fun p => g p.1) = some v := by
  induction l with
  | nil => simp [assocGet] at h
  | cons p rest ih =>
    obtain ⟨a, b⟩ := p
    by_cases hp : a = k
    · subst hp
      simp only [assocGet, if_pos] at h
      injection h with h
      subst h
      rw [List.filter_cons]
      simp only [hg]
      simp [assocGet]
    · simp only [assocGet, hp, if_false] at h
      rw [List.filter_cons]
      rcases hga : g a with _ | _
      · simp only [Bool.false_eq_true, if_false]
        exact ih h
      · simp only [if_true]
        simp only [assocGet, hp, if_false]
        exact ih h

theorem Image.update_self {img : Image} {sum : ImageSummary}
    (h : img.repoTags = sum.repoTags) : Image.update img sum = img := by
  cases img
  simp only [Image.update] at *
  simp_all

namespace ImageList

theorem set_listing_notifs_no_added (s : ImageListState) (v : Bool) :
    notifAddedIds (set_listing s v).2 = [] := by
  by_cases h : s.listing = v <;> simp [set_listing, h, notifAddedIds]

theorem set_as_initialized_notifs_no_added (s : ImageListState) :
    notifAddedIds (set_as_initialized s).2 = [] := by
  obtain ⟨l, li, init, n⟩ := s
  rcases init with _ | _ <;> simp [set_as_initialized, notifAddedIds]

theorem refresh_error_spec (s : ImageListState) (e : PodmanError) :
    (refresh s (.error e)).state = { s with listing := false, initialized := true }
      ∧ (refresh s (.error e)).errReported = true
      ∧ (refresh s (.error e)).notifs
          = (set_listing s true).2 ++ (set_listing (set_listing s true).1 false).2
            ++ (set_as_initialized (set_listing (set_listing s true).1 false).1).2 := by
  refine ⟨?_, rfl, rfl⟩
  show (set_as_initialized (set_listing (set_listing s true).1 false).1).1 = _
  rw [set_listing_state, set_listing_state, set_as_initialized_state]

theorem refresh_ok_state (s : ImageListState) (sums : List ImageSummary) :
    (refresh s (.ok sums)).state
      = { (applySummaries (removeAll { s with listing := true }
            (toRemove { s with listing := true } sums)).1 sums).1 with
          listing := false, initialized := true } := by
  show (set_as_initialized (set_listing (applySummaries
      (removeAll (set_listing s true).1
        (toRemove (set_listing s true).1 sums)).1 sums).1 false).1).1 = _
  rw [set_listing_state s true, set_listing_state, set_as_initialized_state]

theorem refresh_ok_added (s : ImageListState) (sums : List ImageSummary) :
    notifAddedIds (refresh s (.ok sums)).notifs
      = notifAddedIds (applySummaries (removeAll { s with listing := true }
          (toRemove { s with listing := true } sums)).1 sums).2 := by
  show notifAddedIds ((set_listing s true).2
      ++ (removeAll (set_listing s true).1 (toRemove (set_listing s true).1 sums)).2
      ++ (applySummaries (removeAll (set_listing s true).1
            (toRemove (set_listing s true).1 sums)).1 sums).2
      ++ (set_listing (applySummaries (removeAll (set_listing s true).1
            (toRemove (set_listing s true).1 sums)).1 sums).1 false).2
      ++ (set_as_initialized (set_listing (applySummaries
            (removeAll (set_listing s true).1
              (toRemove (set_listing s true).1 sums)).1 sums).1 false).1).2) = _
  rw [set_listing_state s true]
  simp only [notifAddedIds_append, set_listing_notifs_no_added,
    set_as_initialized_notifs_no_added, removeAll_notifs_no_added,
    List.nil_append, List.append_nil]

theorem removeAll_toRemove_state {s : ImageListState} {sums : List ImageSummary}
    (hnd : (assocKeys s.list).Nodup) :
    (removeAll s (toRemove s sums)).1
      = { s with list := s.list.filter fun p => sums.any fun x => x.id = p.1 } := by
  rw [removeAll_state hnd]
  congr 1
  apply List.filter_congr
  intro p hp
  have hpk : p.1 ∈ assocKeys s.list := List.mem_map_of_mem Prod.fst hp
  have hiff : p.1 ∈ toRemove s sums ↔ ¬ ((sums.any fun x => x.id = p.1) = true) := by
    simp [toRemove, List.mem_filter, hpk]
  by_cases hany : (sums.any fun x => x.id = p.1) = true
  · have hni : ¬ p.1 ∈ toRemove s sums := fun hc => (hiff.mp hc) hany
    simp [hni, hany]
  · have hin : p.1 ∈ toRemove s sums := hiff.mpr hany
    rw [Bool.not_eq_true] at hany
    simp [hin, hany]

theorem refresh_ok_spec (s : ImageListState) (sums : List ImageSummary)
    (hnd : (assocKeys s.list).Nodup) :
    assocKeys (refresh s (.ok sums)).state.list
        = ((assocKeys s.list).filter fun k => sums.any fun x => x.id = k)
          ++ notifAddedIds (refresh s (.ok sums)).notifs
      ∧ (assocKeys (refresh s (.ok sums)).state.list).Nodup
      ∧ (∀ a ∈ notifAddedIds (refresh s (.ok sums)).notifs,
          a ∉ assocKeys s.list ∧ ∃ x ∈ sums, x.id = a)
      ∧ (∀ x ∈ sums, x.id ∈ assocKeys (refresh s (.ok sums)).state.list)
      ∧ (∀ k img, assocGet k s.list = some img → (sums.any fun x => x.id = k) = true →
          ∃ img', assocGet k (refresh s (.ok sums)).state.list = some img'
            ∧ img'.objId = img.objId) := by
  have hrem := @removeAll_toRemove_state { s with listing := true } sums hnd
  have hremlist : (removeAll { s with listing := true }
      (toRemove { s with listing := true } sums)).1.list
        = s.list.filter fun p => sums.any fun x => x.id = p.1 := by
    rw [hrem]
  have hremkeys : assocKeys (removeAll { s with listing := true }
      (toRemove { s with listing := true } sums)).1.list
        = (assocKeys s.list).filter fun k => sums.any fun x => x.id = k := by
    rw [hremlist]
    exact assocKeys_filter_key (fun k => sums.any fun x => decide (x.id = k)) s.list
  have hndrem : (assocKeys (removeAll { s with listing := true }
      (toRemove { s with listing := true } sums)).1.list).Nodup := by
    rw [hremlist]
    exact assocKeys_filter_nodup hnd _
  obtain ⟨sp1, sp2, sp3, sp4, sp5⟩ := applySummaries_spec sums _ hndrem
  have hstate : (refresh s (.ok sums)).state.list
      = (applySummaries (removeAll { s with listing := true }
          (toRemove { s with listing := true } sums)).1 sums).1.list := by
    rw [refresh_ok_state]
  have hadded := refresh_ok_added s sums
  refine ⟨?_, ?_, ?_, ?_, ?_⟩
  · rw [hstate, hadded, sp1, hremkeys]
  · rw [hstate]
    exact sp2
  · intro a ha
    rw [hadded] at ha
    obtain ⟨hna, x, hx, hxa⟩ := sp3 a ha
    refine ⟨?_, x, hx, hxa⟩
    intro hmem
    apply hna
    rw [hremkeys]
    rw [List.mem_filter]
    refine ⟨hmem, ?_⟩
    rw [List.any_eq_true]
    exact ⟨x, hx, by simp [hxa]⟩
  · intro x hx
    rw [hstate]
    exact sp4 x hx
  · intro k img hget hany
    have hgetrem : assocGet k (removeAll { s with listing := true }
        (toRemove { s with listing := true } sums)).1.list = some img := by
      rw [hremlist]
      exact assocGet_filter (fun k => sums.any fun x => decide (x.id = k)) hget hany
    obtain ⟨img', h1, h2⟩ := sp5 k img hgetrem
    rw [hstate]
    exact ⟨img', h1, h2⟩

theorem refresh_twice (s : ImageListState) (sums : List ImageSummary)
    (hnd : (assocKeys s.list).Nodup) (hnds : (sums.map fun x => x.id).Nodup) :
    (refresh (refresh s (.ok sums)).state (.ok sums)).state = (refresh s (.ok sums)).state
      ∧ (refresh (refresh s (.ok sums)).state (.ok sums)).notifs
          = [Notif.changed "listing", Notif.changed "listing"] := by
  obtain ⟨sp1, sp2, sp3, sp4, sp5⟩ := refresh_ok_spec s sums hnd
  have hshape := refresh_ok_state s sums
  have hlist1 : (refresh s (.ok sums)).state.listing = false := by rw [hshape]
  have hinit1 : (refresh s (.ok sums)).state.initialized = true := by rw [hshape]
  have hsub : ∀ k ∈ assocKeys (refresh s (.ok sums)).state.list,
      (sums.any fun x => x.id = k) = true := by
    intro k hk
    rw [sp1] at hk
    rcases List.mem_append.mp hk with hk | hk
    · exact (List.mem_filter.mp hk).2
    · obtain ⟨-, x, hx, hxa⟩ := sp3 k hk
      rw [List.any_eq_true]
      exact ⟨x, hx, by simp [hxa]⟩
  have hest : ∀ sum ∈ sums, ∃ img,
      assocGet sum.id (refresh s (.ok sums)).state.list = some img
        ∧ img.repoTags = sum.repoTags := by
    intro sum hmem
    have h := applySummaries_establishes (s := (removeAll { s with listing := true }
      (toRemove { s with listing := true } sums)).1) hnds sum hmem
    rw [hshape]
    exact h
  have hsl1 : set_listing (refresh s (.ok sums)).state true
      = ({ (refresh s (.ok sums)).state with listing := true },
          [Notif.changed "listing"]) := by
    simp [set_listing, hlist1]
  have htr : toRemove ({ (refresh s (.ok sums)).state with listing := true }) sums = [] := by
    unfold toRemove
    rw [List.filter_eq_nil_iff]
    intro a ha
    have h := hsub a ha
    simp [h]
  have happ2 : applySummaries ({ (refresh s (.ok sums)).state with listing := true }) sums
      = ({ (refresh s (.ok sums)).state with listing := true }, []) := by
    apply applySummaries_fix
    intro sum hmem
    obtain ⟨img, hg, hrt⟩ := hest sum hmem
    exact ⟨img, hg, Image.update_self hrt⟩
  have hsl2 : set_listing ({ (refresh s (.ok sums)).state with listing := true }) false
      = ((refresh s (.ok sums)).state, [Notif.changed "listing"]) := by
    have hb : ({ ({ (refresh s (.ok sums)).state with listing := true }) with
        listing := false } : ImageListState) = (refresh s (.ok sums)).state := by
      rw [hshape]
    simp only [set_listing]
    rw [if_neg (by simp)]
    rw [hb]
  have hsai : set_as_initialized (refresh s (.ok sums)).state
      = ((refresh s (.ok sums)).state, []) := by
    simp [set_as_initialized, hinit1]
  constructor
  · show (set_as_initialized (set_listing (applySummaries
        (removeAll (set_listing (refresh s (.ok sums)).state true).1
          (toRemove (set_listing (refresh s (.ok sums)).state true).1 sums)).1 sums).1
        false).1).1 = _
    simp only [hsl1, htr, removeAll, List.foldl_nil, happ2, hsl2, hsai]
  · show ((set_listing (refresh s (.ok sums)).state true).2
      ++ (removeAll (set_listing (refresh s (.ok sums)).state true).1
            (toRemove (set_listing (refresh s (.ok sums)).state true).1 sums)).2
      ++ (applySummaries (removeAll (set_listing (refresh s (.ok sums)).state true).1
            (toRemove (set_listing (refresh s (.ok sums)).state true).1 sums)).1 sums).2
      ++ (set_listing (applySummaries (removeAll
            (set_listing (refresh s (.ok sums)).state true).1
            (toRemove (set_listing (refresh s (.ok sums)).state true).1 sums)).1 sums).1
          false).2
      ++ (set_as_initialized (set_listing (applySummaries (removeAll
            (set_listing (refresh s (.ok sums)).state true).1
            (toRemove (set_listing (refresh s (.ok sums)).state true).1 sums)).1 sums).1
          false).1).2) = _
    simp only [hsl1, htr, removeAll, List.foldl_nil, happ2, hsl2, hsai]
    rfl

end ImageList

theorem countP_assocModify {α : Type} {id : String} {l : List (String × α)} {v : α}
    (q : String × α → Bool) (f : α → α) (h : assocGet id l = some v) :
    List.countP q (assocModify id f l) + (if q (id, v) then 1 else 0)
      = List.countP q l + (if q (id, f v) then 1 else 0) := by
  induction l with
  | nil => simp [assocGet] at h
  | cons p rest ih =>
    obtain ⟨a, b⟩ := p
    by_cases hp : a = id
    · subst hp
      simp only [assocGet, if_pos] at h
      injection h with h
      subst h
      simp only [assocModify, if_pos]
      rw [List.countP_cons, List.countP_cons]
      by_cases h1 : q (a, b) = true <;> by_cases h2 : q (a, f b) = true <;>
        simp [h1, h2]
    · simp only [assocGet, hp, if_false] at h
      simp only [assocModify, hp, if_false]
      rw [List.countP_cons, List.countP_cons]
      have hih := ih h
      omega

theorem addRepoTag_ne_nil (tags : List String) (t : String) : addRepoTag tags t ≠ [] := by
  unfold addRepoTag
  by_cases h : t ∈ tags
  · simp only [h, if_true]
    exact List.ne_nil_of_mem h
  · simp only [h, if_false]
    simp

namespace ImageList

theorem intermediates_countP (s : ImageListState) :
    intermediates s = List.countP (fun p => decide (p.2.repoTags.length = 0)) s.list := by
  simp [intermediates, List.countP_eq_length_filter]

theorem tag_state {s : ImageListState} {id : String} {img : Image} (t : String)
    (h : assocGet id s.list = some img) :
    (tag s id t).1 = { s with
      list := assocModify id (fun i => { i with repoTags := addRepoTag i.repoTags t })
        s.list } := by
  simp only [tag, h]
  split <;> rfl

theorem untag_state {s : ImageListState} {id : String} {img : Image} (t : String)
    (h : assocGet id s.list = some img) :
    (untag s id t).1 = { s with
      list := assocModify id (fun i => { i with repoTags := removeRepoTag i.repoTags t })
        s.list } := by
  simp only [untag, h]
  split <;> rfl

theorem tag_keys (s : ImageListState) (id t : String) :
    assocKeys (tag s id t).1.list = assocKeys s.list := by
  rcases h : assocGet id s.list with _ | img
  · simp [tag, h]
  · rw [tag_state t h]
    exact assocModify_keys _ _ _

theorem untag_keys (s : ImageListState) (id t : String) :
    assocKeys (untag s id t).1.list = assocKeys s.list := by
  rcases h : assocGet id s.list with _ | img
  · simp [untag, h]
  · rw [untag_state t h]
    exact assocModify_keys _ _ _

theorem tag_intermediates_of_empty {s : ImageListState} {id : String} {img : Image}
    (t : String) (h : assocGet id s.list = some img) (h0 : img.repoTags = []) :
    intermediates (tag s id t).1 + 1 = intermediates s := by
  have hlist : (tag s id t).1.list
      = assocModify id (fun i => { i with repoTags := addRepoTag i.repoTags t }) s.list := by
    rw [tag_state t h]
  rw [intermediates_countP, intermediates_countP, hlist]
  have hc := countP_assocModify (fun p => decide (p.2.repoTags.length = 0))
    (fun i => { i with repoTags := addRepoTag i.repoTags t }) h
  have h1 : (decide (img.repoTags.length = 0)) = true := by simp [h0]
  have h2 : (decide ((addRepoTag img.repoTags t).length = 0)) = false := by
    simp only [decide_eq_false_iff_not]
    intro hlen
    exact addRepoTag_ne_nil img.repoTags t (List.eq_nil_of_length_eq_zero hlen)
  simp only [h1, h2, if_true, if_false] at hc
  simpa using hc

theorem tag_intermediates_of_nonempty {s : ImageListState} {id : String} {img : Image}
    (t : String) (h : assocGet id s.list = some img) (h0 : img.repoTags ≠ []) :
    intermediates (tag s id t).1 = intermediates s := by
  have hlist : (tag s id t).1.list
      = assocModify id (fun i => { i with repoTags := addRepoTag i.repoTags t }) s.list := by
    rw [tag_state t h]
  rw [intermediates_countP, intermediates_countP, hlist]
  have hc := countP_assocModify (fun p => decide (p.2.repoTags.length = 0))
    (fun i => { i with repoTags := addRepoTag i.repoTags t }) h
  have h1 : (decide (img.repoTags.length = 0)) = false := by
    simp only [decide_eq_false_iff_not]
    intro hlen
    exact h0 (List.eq_nil_of_length_eq_zero hlen)
  have h2 : (decide ((addRepoTag img.repoTags t).length = 0)) = false := by
    simp only [decide_eq_false_iff_not]
    intro hlen
    exact addRepoTag_ne_nil img.repoTags t (List.eq_nil_of_length_eq_zero hlen)
  simp only [h1, h2, if_false] at hc
  omega

theorem untag_intermediates_of_last {s : ImageListState} {id : String} {img : Image}
    (t : String) (h : assocGet id s.list = some img) (h0 : img.repoTags ≠ [])
    (h1 : removeRepoTag img.repoTags t = []) :
    intermediates (untag s id t).1 = intermediates s + 1 := by
  have hlist : (untag s id t).1.list
      = assocModify id (fun i => { i with repoTags := removeRepoTag i.repoTags t }) s.list := by
    rw [untag_state t h]
  rw [intermediates_countP, intermediates_countP, hlist]
  have hc := countP_assocModify (fun p => decide (p.2.repoTags.length = 0))
    (fun i => { i with repoTags := removeRepoTag i.repoTags t }) h
  have hb1 : (decide (img.repoTags.length = 0)) = false := by
    simp only [decide_eq_false_iff_not]
    intro hlen
    exact h0 (List.eq_nil_of_length_eq_zero hlen)
  have hb2 : (decide ((removeRepoTag img.repoTags t).length = 0)) = true := by
    simp [h1]
  simp only [hb1, hb2, if_true, if_false] at hc
  simpa using hc

theorem untag_intermediates_of_rest {s : ImageListState} {id : String} {img : Image}
    (t : String) (h : assocGet id s.list = some img)
    (h1 : img.repoTags = [] ∨ removeRepoTag img.repoTags t ≠ []) :
    intermediates (untag s id t).1 = intermediates s := by
  have hlist : (untag s id t).1.list
      = assocModify id (fun i => { i with repoTags := removeRepoTag i.repoTags t }) s.list := by
    rw [untag_state t h]
  rw [intermediates_countP, intermediates_countP, hlist]
  have hc := countP_assocModify (fun p => decide (p.2.repoTags.length = 0))
    (fun i => { i with repoTags := removeRepoTag i.repoTags t }) h
  rcases h1 with h1 | h1
  · have hb1 : (decide (img.repoTags.length = 0)) = true := by simp [h1]
    have hb2 : (decide ((removeRepoTag img.repoTags t).length = 0)) = true := by
      simp [removeRepoTag, h1]
    simp only [hb1, hb2, if_true] at hc
    omega
  · have hb1 : (decide (img.repoTags.length = 0)) = false := by
      simp only [decide_eq_false_iff_not]
      intro hlen
      have : img.repoTags = [] := List.eq_nil_of_length_eq_zero hlen
      exact h1 (by simp [removeRepoTag, this])
    have hb2 : (decide ((removeRepoTag img.repoTags t).length = 0)) = false := by
      simp only [decide_eq_false_iff_not]
      intro hlen
      exact h1 (List.eq_nil_of_length_eq_zero hlen)
    simp only [hb1, hb2, if_false] at hc
    omega

theorem handle_event_tag_eq (s : ImageListState) (e : Event) (he : e.action = "tag") :
    handle_event s e
      = { state := (tag s e.actorId ("localhost/" ++ e.actorName)).1,
          notifs := (tag s e.actorId ("localhost/" ++ e.actorName)).2,
          requests := [], errReported := false } := by
  simp [handle_event, he]

theorem handle_event_untag_eq (s : ImageListState) (e : Event) (he : e.action = "untag") :
    handle_event s e
      = { state := (untag s e.actorId e.actorName).1,
          notifs := (untag s e.actorId e.actorName).2,
          requests := [], errReported := false } := by
  simp [handle_event, he]

theorem handle_event_remove_eq (s : ImageListState) (e : Event) (he : e.action = "remove") :
    handle_event s e
      = { state := (remove_image s e.actorId).1, notifs := (remove_image s e.actorId).2,
          requests := [], errReported := false } := by
  simp [handle_event, he]

theorem handle_event_refresh_eq (s : ImageListState) (e : Event)
    (h1 : ¬ e.action = "tag") (h2 : ¬ e.action = "untag") (h3 : ¬ e.action = "remove")
    (h45 : e.action = "build" ∨ e.action = "pull") :
    handle_event s e
      = { state := (set_listing s true).1, notifs := (set_listing s true).2,
          requests := [Request.listImages], errReported := false } := by
  simp [handle_event, h1, h2, h3, h45]

theorem handle_event_unknown_eq (s : ImageListState) (e : Event)
    (h1 : ¬ e.action = "tag") (h2 : ¬ e.action = "untag") (h3 : ¬ e.action = "remove")
    (h4 : ¬ e.action = "build") (h5 : ¬ e.action = "pull") :
    handle_event s e = { state := s, notifs := [], requests := [], errReported := false } := by
  simp [handle_event, h1, h2, h3, h4, h5]

theorem applyOp_spec (s : ImageListState) (op : ImageOp)
    (hnd : (assocKeys s.list).Nodup) :
    (assocKeys (ImageList.applyOp s op).list).Nodup
      ∧ ∃ (keep : String → Bool) (add : List String),
          assocKeys (ImageList.applyOp s op).list = (assocKeys s.list).filter keep ++ add
            ∧ ∀ a ∈ add, a ∉ assocKeys s.list := by
  rcases op with r | e
  · simp only [ImageList.applyOp]
    rcases r with err | sums
    · obtain ⟨h1, -, -⟩ := refresh_error_spec s err
      have hl : (refresh s (.error err)).state.list = s.list := by rw [h1]
      refine ⟨by rw [hl]; exact hnd, fun _ => true, [], ?_, by simp⟩
      rw [hl]
      simp [List.filter_true]
    · obtain ⟨sp1, sp2, sp3, -, -⟩ := refresh_ok_spec s sums hnd
      exact ⟨sp2, fun k => sums.any fun x => decide (x.id = k),
        notifAddedIds (refresh s (.ok sums)).notifs, sp1,
        fun a ha => (sp3 a ha).1⟩
  · simp only [ImageList.applyOp]
    by_cases h1 : e.action = "tag"
    · rw [handle_event_tag_eq s e h1]
      refine ⟨by rw [tag_keys]; exact hnd, fun _ => true, [], ?_, by simp⟩
      rw [tag_keys]
      simp [List.filter_true]
    · by_cases h2 : e.action = "untag"
      · rw [handle_event_untag_eq s e h2]
        refine ⟨by rw [untag_keys]; exact hnd, fun _ => true, [], ?_, by simp⟩
        rw [untag_keys]
        simp [List.filter_true]
      · by_cases h3 : e.action = "remove"
        · rw [handle_event_remove_eq s e h3]
          have hl : (remove_image s e.actorId).1.list
              = s.list.filter (fun p => p.1 ≠ e.actorId) := by
            rw [remove_image_state hnd]
          have hk : assocKeys (remove_image s e.actorId).1.list
              = (assocKeys s.list).filter (fun k => decide (k ≠ e.actorId)) := by
            rw [hl]
            exact assocKeys_filter_key (fun k => decide (k ≠ e.actorId)) s.list
          refine ⟨by rw [hk]; exact hnd.filter _, fun k => decide (k ≠ e.actorId), [],
            ?_, by simp⟩
          rw [hk]
          simp
        · by_cases h45 : e.action = "build" ∨ e.action = "pull"
          · rw [handle_event_refresh_eq s e h1 h2 h3 h45]
            have hl : (set_listing s true).1.list = s.list := by
              rw [set_listing_state]
            refine ⟨by rw [hl]; exact hnd, fun _ => true, [], ?_, by simp⟩
            rw [hl]
            simp [List.filter_true]
          · rw [handle_event_unknown_eq s e h1 h2 h3
              (fun h => h45 (Or.inl h)) (fun h => h45 (Or.inr h))]
            exact ⟨hnd, fun _ => true, [], by simp [List.filter_true], by simp⟩

theorem applyOps_nodup (ops : List ImageOp) :
    (assocKeys (ops.foldl ImageList.applyOp ImageListState.empty).list).Nodup := by
  suffices h : ∀ s, (assocKeys s.list).Nodup →
      (assocKeys (ops.foldl ImageList.applyOp s).list).Nodup by
    exact h ImageListState.empty (by simp [ImageListState.empty, assocKeys])
  induction ops with
  | nil =>
    intro s h
    exact h
  | cons op ops ih =>
    intro s h
    rw [List.foldl_cons]
    exact ih _ (applyOp_spec s op h).1

end ImageList

theorem Container.update_self_c {c : Container} {sum : ContainerSummary}
    (h1 : c.imageId = sum.imageId) (h2 : c.podId = sum.podId) (h3 : c.status = sum.status) :
    Container.update c sum = c := by
  cases c
  simp only [Container.update] at *
  simp_all

namespace ContainerList

theorem set_listing_state_c (s : ContainerListState) (v : Bool) :
    (set_listing s v).1 = { s with listing := v } := by
  obtain ⟨l, li, init, n⟩ := s
  by_cases h : li = v <;> simp [set_listing, h]

theorem set_as_initialized_state_c (s : ContainerListState) :
    (set_as_initialized s).1 = { s with initialized := true } := by
  obtain ⟨l, li, init, n⟩ := s
  rcases init with _ | _ <;> simp [set_as_initialized]

theorem remove_container_state {s : ContainerListState} {id : String}
    (hnd : (assocKeys s.list).Nodup) :
    (remove_container s id).1 = { s with list := s.list.filter fun p => p.1 ≠ id } := by
  rcases hq : assocShiftRemove id s.list with _ | ⟨⟨i, v, rest⟩⟩
  · have hid : id ∉ assocKeys s.list := assocShiftRemove_eq_none_iff.mp hq
    have hfil : s.list.filter (fun p => p.1 ≠ id) = s.list := by
      rw [List.filter_eq_self]
      intro q hqmem
      have hm : q.1 ∈ assocKeys s.list := List.mem_map_of_mem Prod.fst hqmem
      have : q.1 ≠ id := fun he => hid (he ▸ hm)
      simpa using this
    simp only [ne_eq, decide_not] at hfil
    simp [remove_container, hq, hfil]
  · obtain ⟨h1, -⟩ := assocShiftRemove_of_nodup hnd hq
    simp [remove_container, hq, h1]

theorem remove_container_notifs_no_added (s : ContainerListState) (id : String) :
    notifAddedIds (remove_container s id).2 = [] := by
  rcases hq : assocShiftRemove id s.list with _ | ⟨⟨i, v, rest⟩⟩ <;>
    simp [remove_container, hq, notifAddedIds]

theorem removeAll_cons_c (s : ContainerListState) (id : String) (ids : List String) :
    removeAll s (id :: ids)
      = ((removeAll (remove_container s id).1 ids).1,
          (remove_container s id).2 ++ (removeAll (remove_container s id).1 ids).2) := by
  unfold removeAll
  rw [List.foldl_cons]
  show (ids.foldl _ ((remove_container s id).1, [] ++ (remove_container s id).2)) = _
  rw [List.nil_append, foldl_pair_acc remove_container ids]

theorem removeAll_state_c {ids : List String} {s : ContainerListState}
    (hnd : (assocKeys s.list).Nodup) :
    (removeAll s ids).1 = { s with list := s.list.filter fun p => ¬ p.1 ∈ ids } := by
  induction ids generalizing s with
  | nil =>
    have hfil : s.list.filter (fun p => ¬ p.1 ∈ ([] : List String)) = s.list := by
      rw [List.filter_eq_self]
      intro q hq
      simp
    simp [removeAll, hfil]
  | cons i rest ih =>
    rw [removeAll_cons_c]
    have h1 := @remove_container_state s i hnd
    have hnd' : (assocKeys (remove_container s i).1.list).Nodup := by
      rw [h1]
      exact assocKeys_filter_nodup hnd _
    rw [ih hnd', h1]
    simp only []
    rw [List.filter_filter]
    congr 1
    apply List.filter_congr
    intro p hp
    simp only [List.mem_cons, not_or, Bool.decide_and, decide_not]
    exact Bool.and_comm _ _

theorem removeAll_notifs_no_added_c (ids : List String) (s : ContainerListState) :
    notifAddedIds (removeAll s ids).2 = [] := by
  induction ids generalizing s with
  | nil => rfl
  | cons i rest ih =>
    rw [removeAll_cons_c]
    simp only [notifAddedIds_append, remove_container_notifs_no_added, ih, List.append_nil]

theorem applySummary_vacant_c {s : ContainerListState} {sum : ContainerSummary}
    (h : assocGet sum.id s.list = none) :
    applySummary s sum =
      ({ s with
          list := s.list ++ [(sum.id, Container.new s.nextObjId sum)],
          nextObjId := s.nextObjId + 1 },
        [Notif.itemsChanged (len s) 0 1, Notif.added sum.id]) := by
  simp [applySummary, h]

theorem applySummary_occupied_c {s : ContainerListState} {sum : ContainerSummary}
    {c : Container} (h : assocGet sum.id s.list = some c) :
    applySummary s sum =
      ({ s with list := assocModify sum.id (fun _ => Container.update c sum) s.list },
        []) := by
  simp [applySummary, h]

theorem applySummaries_cons_c (s : ContainerListState) (sum : ContainerSummary)
    (sums : List ContainerSummary) :
    applySummaries s (sum :: sums)
      = ((applySummaries (applySummary s sum).1 sums).1,
          (applySummary s sum).2 ++ (applySummaries (applySummary s sum).1 sums).2) := by
  unfold applySummaries
  rw [List.foldl_cons]
  show (sums.foldl _ ((applySummary s sum).1, [] ++ (applySummary s sum).2)) = _
  rw [List.nil_append, foldl_pair_acc applySummary sums]

theorem applySummaries_nil_c (s : ContainerListState) : applySummaries s [] = (s, []) := rfl

theorem applySummary_keys_vacant_c {s : ContainerListState} {sum : ContainerSummary}
    (h : assocGet sum.id s.list = none) :
    assocKeys (applySummary s sum).1.list = assocKeys s.list ++ [sum.id]
      ∧ notifAddedIds (applySummary s sum).2 = [sum.id] := by
  rw [applySummary_vacant_c h]
  exact ⟨by simp [assocKeys], by simp [notifAddedIds]⟩

theorem applySummary_keys_occupied_c {s : ContainerListState} {sum : ContainerSummary}
    {c : Container} (h : assocGet sum.id s.list = some c) :
    assocKeys (applySummary s sum).1.list = assocKeys s.list
      ∧ notifAddedIds (applySummary s sum).2 = [] := by
  rw [applySummary_occupied_c h]
  exact ⟨by simp [assocModify_keys], by simp [notifAddedIds]⟩

theorem applySummary_get_preserved_c {s : ContainerListState} {sum : ContainerSummary}
    (k : String) (c : Container) (h : assocGet k s.list = some c) :
    ∃ c', assocGet k (applySummary s sum).1.list = some c'
      ∧ c'.objId = c.objId := by
  rcases hget : assocGet sum.id s.list with _ | c0
  · rw [applySummary_vacant_c hget]
    refine ⟨c, ?_, rfl⟩
    rw [assocGet_append, h]
  · rw [applySummary_occupied_c hget]
    by_cases hk : sum.id = k
    · subst hk
      rw [h] at hget
      injection hget with hget
      subst hget
      refine ⟨Container.update c sum, ?_, rfl⟩
      simp only [assocGet_modify_self, h, Option.map_some']
    · exact ⟨c, by rw [assocGet_modify_ne (fun he => hk he.symm), h], rfl⟩

theorem applySummary_get_other_c {s : ContainerListState} {sum : ContainerSummary}
    {k : String} (hk : sum.id ≠ k) :
    assocGet k (applySummary s sum).1.list = assocGet k s.list := by
  rcases hget : assocGet sum.id s.list with _ | c0
  · rw [applySummary_vacant_c hget]
    simp only [assocGet_append]
    rcases assocGet k s.list with _ | v
    · simp [assocGet, hk]
    · rfl
  · rw [applySummary_occupied_c hget]
    exact assocGet_modify_ne (fun he => hk he.symm) _ _

theorem applySummary_get_self_vacant_c {s : ContainerListState} {sum : ContainerSummary}
    (h : assocGet sum.id s.list = none) :
    assocGet sum.id (applySummary s sum).1.list
      = some (Container.new s.nextObjId sum) := by
  rw [applySummary_vacant_c h]
  simp only [assocGet_append, h]
  simp [assocGet]

theorem applySummary_get_self_occupied_c {s : ContainerListState} {sum : ContainerSummary}
    {c : Container} (h : assocGet sum.id s.list = some c) :
    assocGet sum.id (applySummary s sum).1.list = some (Container.update c sum) := by
  rw [applySummary_occupied_c h]
  simp only [assocGet_modify_self, h, Option.map_some']

theorem applySummaries_spec_c (sums : List ContainerSummary) (s : ContainerListState)
    (hnd : (assocKeys s.list).Nodup) :
    assocKeys (applySummaries s sums).1.list
        = assocKeys s.list ++ notifAddedIds (applySummaries s sums).2
      ∧ (assocKeys (applySummaries s sums).1.list).Nodup
      ∧ (∀ a ∈ notifAddedIds (applySummaries s sums).2,
          a ∉ assocKeys s.list ∧ ∃ x ∈ sums, x.id = a)
      ∧ (∀ x ∈ sums, x.id ∈ assocKeys (applySummaries s sums).1.list)
      ∧ (∀ k c, assocGet k s.list = some c →
          ∃ c', assocGet k (applySummaries s sums).1.list = some c'
            ∧ c'.objId = c.objId) := by
  induction sums generalizing s with
  | nil =>
    refine ⟨by simp [applySummaries_nil_c, notifAddedIds],
      by simpa [applySummaries_nil_c] using hnd,
      by simp [applySummaries_nil_c, notifAddedIds], by simp, ?_⟩
    intro k c h
    exact ⟨c, by simpa [applySummaries_nil_c] using h, rfl⟩
  | cons sum sums ih =>
    rw [applySummaries_cons_c]
    simp only [notifAddedIds_append]
    rcases hget : assocGet sum.id s.list with _ | c0
    · obtain ⟨hk1, hk2⟩ := applySummary_keys_vacant_c hget
      have hfresh : sum.id ∉ assocKeys s.list := assocGet_eq_none_iff.mp hget
      have hnd' : (assocKeys (applySummary s sum).1.list).Nodup := by
        rw [hk1]
        rw [List.nodup_append]
        refine ⟨hnd, List.nodup_singleton _, ?_⟩
        intro a ha hb
        simp only [List.mem_singleton] at hb
        exact hfresh (hb ▸ ha)
      obtain ⟨ih1, ih2, ih3, ih4, ih5⟩ := ih (applySummary s sum).1 hnd'
      refine ⟨?_, ih2, ?_, ?_, ?_⟩
      · simp only [ih1, hk1, hk2, List.append_assoc, List.singleton_append]
      · intro a ha
        rw [hk2] at ha
        simp only [List.singleton_append, List.mem_cons] at ha
        rcases ha with rfl | ha
        · exact ⟨hfresh, sum, List.mem_cons_self _ _, rfl⟩
        · obtain ⟨hna, x, hx, hxa⟩ := ih3 a ha
          refine ⟨fun hmem => hna ?_, x, List.mem_cons_of_mem _ hx, hxa⟩
          rw [hk1]
          exact List.mem_append_left _ hmem
      · intro x hx
        rcases List.mem_cons.mp hx with rfl | hx
        · rw [ih1, hk1]
          exact List.mem_append_left _ (List.mem_append_right _ (List.mem_singleton_self _))
        · exact ih4 x hx
      · intro k c h
        obtain ⟨c1, h1, h2⟩ := applySummary_get_preserved_c k c h
        obtain ⟨c2, h3, h4⟩ := ih5 k c1 h1
        exact ⟨c2, h3, h4.trans h2⟩
    · obtain ⟨hk1, hk2⟩ := applySummary_keys_occupied_c hget
      have hnd' : (assocKeys (applySummary s sum).1.list).Nodup := by
        rw [hk1]
        exact hnd
      obtain ⟨ih1, ih2, ih3, ih4, ih5⟩ := ih (applySummary s sum).1 hnd'
      refine ⟨?_, ih2, ?_, ?_, ?_⟩
      · simp only [ih1, hk1, hk2, List.nil_append]
      · intro a ha
        rw [hk2] at ha
        simp only [List.nil_append] at ha
        obtain ⟨hna, x, hx, hxa⟩ := ih3 a ha
        exact ⟨by rw [← hk1]; exact hna, x, List.mem_cons_of_mem _ hx, hxa⟩
      · intro x hx
        rcases List.mem_cons.mp hx with rfl | hx
        · rw [ih1, hk1]
          refine List.mem_append_left _ ?_
          exact assocGet_isSome_iff.mp (by rw [hget]; rfl)
        · exact ih4 x hx
      · intro k c h
        obtain ⟨c1, h1, h2⟩ := applySummary_get_preserved_c k c h
        obtain ⟨c2, h3, h4⟩ := ih5 k c1 h1
        exact ⟨c2, h3, h4.trans h2⟩

theorem applySummaries_get_preserved_c {sums : List ContainerSummary}
    {s : ContainerListState} {k : String} (hk : ∀ x ∈ sums, x.id ≠ k) :
    assocGet k (applySummaries s sums).1.list = assocGet k s.list := by
  induction sums generalizing s with
  | nil => rfl
  | cons sum sums ih =>
    rw [applySummaries_cons_c]
    show assocGet k (applySummaries (applySummary s sum).1 sums).1.list = _
    rw [ih (fun x hx => hk x (List.mem_cons_of_mem _ hx))]
    exact applySummary_get_other_c (hk sum (List.mem_cons_self _ _))

theorem applySummaries_fresh_value_c {sums : List ContainerSummary}
    {s : ContainerListState} {sum : ContainerSummary}
    (hnds : (sums.map (fun x => x.id)).Nodup)
    (hmem : sum ∈ sums) (hfresh : sum.id ∉ assocKeys s.list) :
    ∃ n, assocGet sum.id (applySummaries s sums).1.list
      = some (Container.new n sum) := by
  induction sums generalizing s with
  | nil => simp at hmem
  | cons x sums ih =>
    rw [applySummaries_cons_c]
    show ∃ n, assocGet sum.id (applySummaries (applySummary s x).1 sums).1.list = _
    simp only [List.map_cons, List.nodup_cons] at hnds
    rcases List.mem_cons.mp hmem with rfl | hmem'
    · have hget : assocGet sum.id s.list = none := assocGet_eq_none_iff.mpr hfresh
      have hv := applySummary_get_self_vacant_c hget
      have hpres : ∀ y ∈ sums, y.id ≠ sum.id := by
        intro y hy he
        exact hnds.1 (he ▸ List.mem_map_of_mem _ hy)
      rw [applySummaries_get_preserved_c hpres, hv]
      exact ⟨s.nextObjId, rfl⟩
    · have hxne : x.id ≠ sum.id := by
        intro he
        exact hnds.1 (he ▸ List.mem_map_of_mem _ hmem')
      have hfresh' : sum.id ∉ assocKeys (applySummary s x).1.list := by
        rcases hg : assocGet x.id s.list with _ | c0
        · obtain ⟨hk1, -⟩ := applySummary_keys_vacant_c hg
          rw [hk1]
          intro hc
          rcases List.mem_append.mp hc with hc | hc
          · exact hfresh hc
          · simp only [List.mem_singleton] at hc
            exact hxne hc.symm
        · obtain ⟨hk1, -⟩ := applySummary_keys_occupied_c hg
          rw [hk1]
          exact hfresh
      exact ih hnds.2 hmem' hfresh'

theorem applySummaries_establishes_c {sums : List ContainerSummary}
    {s : ContainerListState} (hnds : (sums.map (fun x => x.id)).Nodup) :
    ∀ sum ∈ sums, ∃ c, assocGet sum.id (applySummaries s sums).1.list = some c
      ∧ c.imageId = sum.imageId ∧ c.podId = sum.podId ∧ c.status = sum.status := by
  induction sums generalizing s with
  | nil =>
    intro sum h
    simp at h
  | cons x sums ih =>
    simp only [List.map_cons, List.nodup_cons] at hnds
    intro sum hmem
    rw [applySummaries_cons_c]
    show ∃ c, assocGet sum.id (applySummaries (applySummary s x).1 sums).1.list = some c ∧ _
    rcases List.mem_cons.mp hmem with rfl | hmem'
    · have hpres : ∀ y ∈ sums, y.id ≠ sum.id := fun y hy he =>
        hnds.1 (he ▸ List.mem_map_of_mem _ hy)
      rw [applySummaries_get_preserved_c hpres]
      rcases hg : assocGet sum.id s.list with _ | c0
      · rw [applySummary_get_self_vacant_c hg]
        exact ⟨_, rfl, rfl, rfl, rfl⟩
      · rw [applySummary_get_self_occupied_c hg]
        exact ⟨_, rfl, rfl, rfl, rfl⟩
    · exact ih hnds.2 sum hmem'

theorem applySummaries_fix_c {sums : List ContainerSummary} {s : ContainerListState}
    (h : ∀ sum ∈ sums, ∃ c, assocGet sum.id s.list = some c
      ∧ Container.update c sum = c) :
    applySummaries s sums = (s, []) := by
  induction sums generalizing s with
  | nil => rfl
  | cons x sums ih =>
    rw [applySummaries_cons_c]
    obtain ⟨c, hg, hupd⟩ := h x (List.mem_cons_self _ _)
    have hstep : applySummary s x = (s, []) := by
      rw [applySummary_occupied_c hg]
      simp only [hupd]
      rw [assocModify_same hg]
    rw [hstep, ih (fun sum hmem => h sum (List.mem_cons_of_mem _ hmem))]
    rfl

theorem set_listing_notifs_no_added_c (s : ContainerListState) (v : Bool) :
    notifAddedIds (set_listing s v).2 = [] := by
  by_cases h : s.listing = v <;> simp [set_listing, h, notifAddedIds]

theorem set_as_initialized_notifs_no_added_c (s : ContainerListState) :
    notifAddedIds (set_as_initialized s).2 = [] := by
  obtain ⟨l, li, init, n⟩ := s
  rcases init with _ | _ <;> simp [set_as_initialized, notifAddedIds]

theorem refresh_error_spec_c (s : ContainerListState) (id : Option String)
    (e : PodmanError) :
    (refresh s id (.error e)).state = { s with listing := false, initialized := true }
      ∧ (refresh s id (.error e)).errReported = true
      ∧ (refresh s id (.error e)).requests = [Request.listContainers id] := by
  refine ⟨?_, rfl, rfl⟩
  show (set_as_initialized (set_listing (set_listing s true).1 false).1).1 = _
  rw [set_listing_state_c, set_listing_state_c, set_as_initialized_state_c]

theorem refresh_none_ok_state_c (s : ContainerListState) (sums : List ContainerSummary) :
    (refresh s none (.ok sums)).state
      = { (applySummaries (removeAll { s with listing := true }
            (toRemove { s with listing := true } sums)).1
            (sums.filter fun c => ¬ c.isInfra)).1 with
          listing := false, initialized := true } := by
  show (set_as_initialized (set_listing (applySummaries
      (removeAll (set_listing s true).1
        (toRemove (set_listing s true).1 sums)).1
      (sums.filter fun c => ¬ c.isInfra)).1 false).1).1 = _
  rw [set_listing_state_c s true, set_listing_state_c, set_as_initialized_state_c]

theorem refresh_none_ok_added_c (s : ContainerListState) (sums : List ContainerSummary) :
    notifAddedIds (refresh s none (.ok sums)).notifs
      = notifAddedIds (applySummaries (removeAll { s with listing := true }
          (toRemove { s with listing := true } sums)).1
          (sums.filter fun c => ¬ c.isInfra)).2 := by
  show notifAddedIds ((set_listing s true).2
      ++ (removeAll (set_listing s true).1 (toRemove (set_listing s true).1 sums)).2
      ++ (applySummaries (removeAll (set_listing s true).1
            (toRemove (set_listing s true).1 sums)).1
            (sums.filter fun c => ¬ c.isInfra)).2
      ++ (set_listing (applySummaries (removeAll (set_listing s true).1
            (toRemove (set_listing s true).1 sums)).1
            (sums.filter fun c => ¬ c.isInfra)).1 false).2
      ++ (set_as_initialized (set_listing (applySummaries
            (removeAll (set_listing s true).1
              (toRemove (set_listing s true).1 sums)).1
            (sums.filter fun c => ¬ c.isInfra)).1 false).1).2) = _
  rw [set_listing_state_c s true]
  simp only [notifAddedIds_append, set_listing_notifs_no_added_c,
    set_as_initialized_notifs_no_added_c, removeAll_notifs_no_added_c,
    List.nil_append, List.append_nil]

theorem removeAll_toRemove_state_c {s : ContainerListState} {sums : List ContainerSummary}
    (hnd : (assocKeys s.list).Nodup) :
    (removeAll s (toRemove s sums)).1
      = { s with list := s.list.filter fun p => sums.any fun x => x.id = p.1 } := by
  rw [removeAll_state_c hnd]
  congr 1
  apply List.filter_congr
  intro p hp
  have hpk : p.1 ∈ assocKeys s.list := List.mem_map_of_mem Prod.fst hp
  have hiff : p.1 ∈ toRemove s sums ↔ ¬ ((sums.any fun x => x.id = p.1) = true) := by
    simp [toRemove, List.mem_filter, hpk]
  by_cases hany : (sums.any fun x => x.id = p.1) = true
  · have hni : ¬ p.1 ∈ toRemove s sums := fun hc => (hiff.mp hc) hany
    simp [hni, hany]
  · have hin : p.1 ∈ toRemove s sums := hiff.mpr hany
    rw [Bool.not_eq_true] at hany
    simp [hin, hany]

theorem refresh_none_ok_spec_c (s : ContainerListState) (sums : List ContainerSummary)
    (hnd : (assocKeys s.list).Nodup) :
    assocKeys (refresh s none (.ok sums)).state.list
        = ((assocKeys s.list).filter fun k => sums.any fun x => x.id = k)
          ++ notifAddedIds (refresh s none (.ok sums)).notifs
      ∧ (assocKeys (refresh s none (.ok sums)).state.list).Nodup
      ∧ (∀ a ∈ notifAddedIds (refresh s none (.ok sums)).notifs,
          a ∉ assocKeys s.list ∧ ∃ x ∈ sums, x.id = a ∧ x.isInfra = false)
      ∧ (∀ x ∈ sums, x.isInfra = false → x.id ∈ assocKeys (refresh s none (.ok sums)).state.list)
      ∧ (∀ k c, assocGet k s.list = some c → (sums.any fun x => x.id = k) = true →
          ∃ c', assocGet k (refresh s none (.ok sums)).state.list = some c'
            ∧ c'.objId = c.objId) := by
  have hrem := @removeAll_toRemove_state_c { s with listing := true } sums hnd
  have hremlist : (removeAll { s with listing := true }
      (toRemove { s with listing := true } sums)).1.list
        = s.list.filter fun p => sums.any fun x => x.id = p.1 := by
    rw [hrem]
  have hremkeys : assocKeys (removeAll { s with listing := true }
      (toRemove { s with listing := true } sums)).1.list
        = (assocKeys s.list).filter fun k => sums.any fun x => x.id = k := by
    rw [hremlist]
    exact assocKeys_filter_key (fun k => sums.any fun x => decide (x.id = k)) s.list
  have hndrem : (assocKeys (removeAll { s with listing := true }
      (toRemove { s with listing := true } sums)).1.list).Nodup := by
    rw [hremlist]
    exact assocKeys_filter_nodup hnd _
  obtain ⟨sp1, sp2, sp3, sp4, sp5⟩ :=
    applySummaries_spec_c (sums.filter fun c => ¬ c.isInfra) _ hndrem
  have hstate : (refresh s none (.ok sums)).state.list
      = (applySummaries (removeAll { s with listing := true }
          (toRemove { s with listing := true } sums)).1
          (sums.filter fun c => ¬ c.isInfra)).1.list := by
    rw [refresh_none_ok_state_c]
  have hadded := refresh_none_ok_added_c s sums
  refine ⟨?_, ?_, ?_, ?_, ?_⟩
  · rw [hstate, hadded, sp1, hremkeys]
  · rw [hstate]
    exact sp2
  · intro a ha
    rw [hadded] at ha
    obtain ⟨hna, x, hx, hxa⟩ := sp3 a ha
    obtain ⟨hxs, hxinf⟩ := List.mem_filter.mp hx
    refine ⟨?_, x, hxs, hxa, by simpa using hxinf⟩
    intro hmem
    apply hna
    rw [hremkeys]
    rw [List.mem_filter]
    refine ⟨hmem, ?_⟩
    rw [List.any_eq_true]
    exact ⟨x, hxs, by simp [hxa]⟩
  · intro x hx hinf
    rw [hstate]
    exact sp4 x (List.mem_filter.mpr ⟨hx, by simp [hinf]⟩)
  · intro k c hget hany
    have hgetrem : assocGet k (removeAll { s with listing := true }
        (toRemove { s with listing := true } sums)).1.list = some c := by
      rw [hremlist]
      exact assocGet_filter (fun k => sums.any fun x => decide (x.id = k)) hget hany
    obtain ⟨c', h1, h2⟩ := sp5 k c hgetrem
    rw [hstate]
    exact ⟨c', h1, h2⟩

theorem refresh_some_ok_state_c (s : ContainerListState) (x : String)
    (sums : List ContainerSummary) :
    (refresh s (some x) (.ok sums)).state
      = { (applySummaries { s with listing := true }
            (sums.filter fun c => ¬ c.isInfra)).1 with
          listing := false, initialized := true } := by
  show (set_as_initialized (set_listing (applySummaries (set_listing s true).1
      (sums.filter fun c => ¬ c.isInfra)).1 false).1).1 = _
  rw [set_listing_state_c s true, set_listing_state_c, set_as_initialized_state_c]

theorem refresh_twice_c (s : ContainerListState) (sums : List ContainerSummary)
    (hnd : (assocKeys s.list).Nodup) (hnds : (sums.map fun x => x.id).Nodup) :
    (refresh (refresh s none (.ok sums)).state none (.ok sums)).state
        = (refresh s none (.ok sums)).state
      ∧ (refresh (refresh s none (.ok sums)).state none (.ok sums)).notifs
          = [Notif.changed "listing", Notif.changed "listing"] := by
  obtain ⟨sp1, sp2, sp3, sp4, sp5⟩ := refresh_none_ok_spec_c s sums hnd
  have hshape := refresh_none_ok_state_c s sums
  have hlist1 : (refresh s none (.ok sums)).state.listing = false := by rw [hshape]
  have hinit1 : (refresh s none (.ok sums)).state.initialized = true := by rw [hshape]
  have hndf : ((sums.filter fun c => ¬ c.isInfra).map fun x => x.id).Nodup :=
    hnds.sublist ((List.filter_sublist sums).map (fun x => x.id))
  have hsub : ∀ k ∈ assocKeys (refresh s none (.ok sums)).state.list,
      (sums.any fun x => x.id = k) = true := by
    intro k hk
    rw [sp1] at hk
    rcases List.mem_append.mp hk with hk | hk
    · exact (List.mem_filter.mp hk).2
    · obtain ⟨-, x, hx, hxa, -⟩ := sp3 k hk
      rw [List.any_eq_true]
      exact ⟨x, hx, by simp [hxa]⟩
  have hest : ∀ sum ∈ (sums.filter fun c => ¬ c.isInfra), ∃ c,
      assocGet sum.id (refresh s none (.ok sums)).state.list = some c
        ∧ c.imageId = sum.imageId ∧ c.podId = sum.podId ∧ c.status = sum.status := by
    intro sum hmem
    have h := applySummaries_establishes_c (s := (removeAll { s with listing := true }
      (toRemove { s with listing := true } sums)).1) hndf sum hmem
    rw [hshape]
    exact h
  have hsl1 : set_listing (refresh s none (.ok sums)).state true
      = ({ (refresh s none (.ok sums)).state with listing := true },
          [Notif.changed "listing"]) := by
    simp [set_listing, hlist1]
  have htr : toRemove ({ (refresh s none (.ok sums)).state with listing := true }) sums
      = [] := by
    unfold toRemove
    rw [List.filter_eq_nil_iff]
    intro a ha
    have h := hsub a ha
    simp [h]
  have happ2 : applySummaries
      ({ (refresh s none (.ok sums)).state with listing := true })
      (sums.filter fun c => ¬ c.isInfra)
      = ({ (refresh s none (.ok sums)).state with listing := true }, []) := by
    apply applySummaries_fix_c
    intro sum hmem
    obtain ⟨c, hg, h1, h2, h3⟩ := hest sum hmem
    exact ⟨c, hg, Container.update_self_c h1 h2 h3⟩
  have hsl2 : set_listing ({ (refresh s none (.ok sums)).state with listing := true }) false
      = ((refresh s none (.ok sums)).state, [Notif.changed "listing"]) := by
    have hb : ({ ({ (refresh s none (.ok sums)).state with listing := true }) with
        listing := false } : ContainerListState) = (refresh s none (.ok sums)).state := by
      rw [hshape]
    simp only [set_listing]
    rw [if_neg (by simp)]
    rw [hb]
  have hsai : set_as_initialized (refresh s none (.ok sums)).state
      = ((refresh s none (.ok sums)).state, []) := by
    simp [set_as_initialized, hinit1]
  constructor
  · show (set_as_initialized (set_listing (applySummaries
        (removeAll (set_listing (refresh s none (.ok sums)).state true).1
          (toRemove (set_listing (refresh s none (.ok sums)).state true).1 sums)).1
        (sums.filter fun c => ¬ c.isInfra)).1 false).1).1 = _
    simp only [hsl1, htr, removeAll, List.foldl_nil, happ2, hsl2, hsai]
  · show ((set_listing (refresh s none (.ok sums)).state true).2
      ++ (removeAll (set_listing (refresh s none (.ok sums)).state true).1
            (toRemove (set_listing (refresh s none (.ok sums)).state true).1 sums)).2
      ++ (applySummaries (removeAll (set_listing (refresh s none (.ok sums)).state true).1
            (toRemove (set_listing (refresh s none (.ok sums)).state true).1 sums)).1
            (sums.filter fun c => ¬ c.isInfra)).2
      ++ (set_listing (applySummaries (removeAll
            (set_listing (refresh s none (.ok sums)).state true).1
            (toRemove (set_listing (refresh s none (.ok sums)).state true).1 sums)).1
            (sums.filter fun c => ¬ c.isInfra)).1 false).2
      ++ (set_as_initialized (set_listing (applySummaries (removeAll
            (set_listing (refresh s none (.ok sums)).state true).1
            (toRemove (set_listing (refresh s none (.ok sums)).state true).1 sums)).1
            (sums.filter fun c => ¬ c.isInfra)).1 false).1).2) = _
    simp only [hsl1, htr, removeAll, List.foldl_nil, happ2, hsl2, hsai]
    rfl

theorem handle_event_remove_eq_c (s : ContainerListState) (e : Event)
    (he : e.action = "remove") :
    handle_event s e
      = { state := (remove_container s e.actorId).1,
          notifs := (remove_container s e.actorId).2,
          requests := [], errReported := false } := by
  simp [handle_event, he]

theorem handle_event_health_state_c (s : ContainerListState) (e : Event)
    (_h1 : ¬ e.action = "remove") (h2 : e.action = "health_status") :
    (handle_event s e).state = s ∧ (handle_event s e).notifs = []
      ∧ (handle_event s e).errReported = false := by
  simp only [handle_event, _h1, if_false, h2, if_true]
  rcases get_container s e.actorId with _ | c <;> exact ⟨rfl, rfl, rfl⟩

theorem handle_event_other_eq_c (s : ContainerListState) (e : Event)
    (h1 : ¬ e.action = "remove") (h2 : ¬ e.action = "health_status") :
    handle_event s e
      = { state := (set_listing s true).1, notifs := (set_listing s true).2,
          requests := [Request.listContainers
            ((get_container s e.actorId).map fun _ => e.actorId)],
          errReported := false } := by
  simp [handle_event, h1, h2]

theorem applyOp_spec_c (s : ContainerListState) (op : ContainerOp)
    (hnd : (assocKeys s.list).Nodup) :
    (assocKeys (ContainerList.applyOp s op).list).Nodup
      ∧ ∃ (keep : String → Bool) (add : List String),
          assocKeys (ContainerList.applyOp s op).list = (assocKeys s.list).filter keep ++ add
            ∧ ∀ a ∈ add, a ∉ assocKeys s.list := by
  rcases op with ⟨id, r⟩ | e
  · simp only [ContainerList.applyOp]
    rcases r with err | sums
    · obtain ⟨h1, -, -⟩ := refresh_error_spec_c s id err
      have hl : (refresh s id (.error err)).state.list = s.list := by rw [h1]
      refine ⟨by rw [hl]; exact hnd, fun _ => true, [], ?_, by simp⟩
      rw [hl]
      simp [List.filter_true]
    · rcases id with _ | x
      · obtain ⟨sp1, sp2, sp3, -, -⟩ := refresh_none_ok_spec_c s sums hnd
        exact ⟨sp2, fun k => sums.any fun y => decide (y.id = k),
          notifAddedIds (refresh s none (.ok sums)).notifs, sp1,
          fun a ha => (sp3 a ha).1⟩
      · obtain ⟨sp1, sp2, sp3, -, -⟩ :=
          applySummaries_spec_c (sums.filter fun c => ¬ c.isInfra)
            ({ s with listing := true }) hnd
        have hl : (refresh s (some x) (.ok sums)).state.list
            = (applySummaries { s with listing := true }
                (sums.filter fun c => ¬ c.isInfra)).1.list := by
          rw [refresh_some_ok_state_c]
        refine ⟨by rw [hl]; exact sp2, fun _ => true,
          notifAddedIds (applySummaries { s with listing := true }
            (sums.filter fun c => ¬ c.isInfra)).2, ?_, fun a ha => (sp3 a ha).1⟩
        rw [hl, sp1]
        simp [List.filter_true]
  · simp only [ContainerList.applyOp]
    by_cases h1 : e.action = "remove"
    · rw [handle_event_remove_eq_c s e h1]
      have hl : (remove_container s e.actorId).1.list
          = s.list.filter (fun p => p.1 ≠ e.actorId) := by
        rw [remove_container_state hnd]
      have hk : assocKeys (remove_container s e.actorId).1.list
          = (assocKeys s.list).filter (fun k => decide (k ≠ e.actorId)) := by
        rw [hl]
        exact assocKeys_filter_key (fun k => decide (k ≠ e.actorId)) s.list
      refine ⟨by rw [hk]; exact hnd.filter _, fun k => decide (k ≠ e.actorId), [],
        ?_, by simp⟩
      rw [hk]
      simp
    · by_cases h2 : e.action = "health_status"
      · obtain ⟨hs, -, -⟩ := handle_event_health_state_c s e h1 h2
        rw [hs]
        exact ⟨hnd, fun _ => true, [], by simp [List.filter_true], by simp⟩
      · rw [handle_event_other_eq_c s e h1 h2]
        have hl : (set_listing s true).1.list = s.list := by
          rw [set_listing_state_c]
        refine ⟨by rw [hl]; exact hnd, fun _ => true, [], ?_, by simp⟩
        rw [hl]
        simp [List.filter_true]

theorem applyOps_nodup_c (ops : List ContainerOp) :
    (assocKeys (ops.foldl ContainerList.applyOp ContainerListState.empty).list).Nodup := by
  suffices h : ∀ s, (assocKeys s.list).Nodup →
      (assocKeys (ops.foldl ContainerList.applyOp s).list).Nodup by
    exact h ContainerListState.empty (by simp [ContainerListState.empty, assocKeys])
  induction ops with
  | nil =>
    intro s h
    exact h
  | cons op ops ih =>
    intro s h
    rw [List.foldl_cons]
    exact ih _ (applyOp_spec_c s op h).1

end ContainerList

theorem Pod.update_self_p {p : Pod} {sum : PodSummary} (h : p.status = sum.status) :
    Pod.update p sum = p := by
  cases p
  simp only [Pod.update] at *
  simp_all

namespace PodList

theorem set_listing_state_p (s : PodListState) (v : Bool) :
    (set_listing s v).1 = { s with listing := v } := by
  obtain ⟨l, li, init, n⟩ := s
  by_cases h : li = v <;> simp [set_listing, h]

theorem set_as_initialized_state_p (s : PodListState) :
    (set_as_initialized s).1 = { s with initialized := true } := by
  obtain ⟨l, li, init, n⟩ := s
  rcases init with _ | _ <;> simp [set_as_initialized]

theorem remove_pod_state {s : PodListState} {id : String}
    (hnd : (assocKeys s.list).Nodup) :
    (remove_pod s id).1 = { s with list := s.list.filter fun p => p.1 ≠ id } := by
  rcases hq : assocShiftRemove id s.list with _ | ⟨⟨i, v, rest⟩⟩
  · have hid : id ∉ assocKeys s.list := assocShiftRemove_eq_none_iff.mp hq
    have hfil : s.list.filter (fun p => p.1 ≠ id) = s.list := by
      rw [List.filter_eq_self]
      intro q hqmem
      have hm : q.1 ∈ assocKeys s.list := List.mem_map_of_mem Prod.fst hqmem
      have : q.1 ≠ id := fun he => hid (he ▸ hm)
      simpa using this
    simp only [ne_eq, decide_not] at hfil
    simp [remove_pod, hq, hfil]
  · obtain ⟨h1, -⟩ := assocShiftRemove_of_nodup hnd hq
    simp [remove_pod, hq, h1]

theorem remove_pod_notifs_no_added (s : PodListState) (id : String) :
    notifAddedIds (remove_pod s id).2 = [] := by
  rcases hq : assocShiftRemove id s.list with _ | ⟨⟨i, v, rest⟩⟩ <;>
    simp [remove_pod, hq, notifAddedIds]

theorem removeAll_cons_p (s : PodListState) (id : String) (ids : List String) :
    removeAll s (id :: ids)
      = ((removeAll (remove_pod s id).1 ids).1,
          (remove_pod s id).2 ++ (removeAll (remove_pod s id).1 ids).2) := by
  unfold removeAll
  rw [List.foldl_cons]
  show (ids.foldl _ ((remove_pod s id).1, [] ++ (remove_pod s id).2)) = _
  rw [List.nil_append, foldl_pair_acc remove_pod ids]

theorem removeAll_state_p {ids : List String} {s : PodListState}
    (hnd : (assocKeys s.list).Nodup) :
    (removeAll s ids).1 = { s with list := s.list.filter fun p => ¬ p.1 ∈ ids } := by
  induction ids generalizing s with
  | nil =>
    have hfil : s.list.filter (fun p => ¬ p.1 ∈ ([] : List String)) = s.list := by
      rw [List.filter_eq_self]
      intro q hq
      simp
    simp [removeAll, hfil]
  | cons i rest ih =>
    rw [removeAll_cons_p]
    have h1 := @remove_pod_state s i hnd
    have hnd' : (assocKeys (remove_pod s i).1.list).Nodup := by
      rw [h1]
      exact assocKeys_filter_nodup hnd _
    rw [ih hnd', h1]
    simp only []
    rw [List.filter_filter]
    congr 1
    apply List.filter_congr
    intro p hp
    simp only [List.mem_cons, not_or, Bool.decide_and, decide_not]
    exact Bool.and_comm _ _

theorem removeAll_notifs_no_added_p (ids : List String) (s : PodListState) :
    notifAddedIds (removeAll s ids).2 = [] := by
  induction ids generalizing s with
  | nil => rfl
  | cons i rest ih =>
    rw [removeAll_cons_p]
    simp only [notifAddedIds_append, remove_pod_notifs_no_added, ih, List.append_nil]

theorem applySummary_vacant_p {s : PodListState} {sum : PodSummary}
    (h : assocGet sum.id s.list = none) :
    applySummary s sum =
      ({ s with
          list := s.list ++ [(sum.id, Pod.new s.nextObjId sum)],
          nextObjId := s.nextObjId + 1 },
        [Notif.itemsChanged (len s) 0 1, Notif.added sum.id]) := by
  simp [applySummary, h]

theorem applySummary_occupied_p {s : PodListState} {sum : PodSummary}
    {p : Pod} (h : assocGet sum.id s.list = some p) :
    applySummary s sum =
      ({ s with list := assocModify sum.id (fun _ => Pod.update p sum) s.list }, []) := by
  simp [applySummary, h]

theorem applySummaries_cons_p (s : PodListState) (sum : PodSummary)
    (sums : List PodSummary) :
    applySummaries s (sum :: sums)
      = ((applySummaries (applySummary s sum).1 sums).1,
          (applySummary s sum).2 ++ (applySummaries (applySummary s sum).1 sums).2) := by
  unfold applySummaries
  rw [List.foldl_cons]
  show (sums.foldl _ ((applySummary s sum).1, [] ++ (applySummary s sum).2)) = _
  rw [List.nil_append, foldl_pair_acc applySummary sums]

theorem applySummaries_nil_p (s : PodListState) : applySummaries s [] = (s, []) := rfl

theorem applySummary_keys_vacant_p {s : PodListState} {sum : PodSummary}
    (h : assocGet sum.id s.list = none) :
    assocKeys (applySummary s sum).1.list = assocKeys s.list ++ [sum.id]
      ∧ notifAddedIds (applySummary s sum).2 = [sum.id] := by
  rw [applySummary_vacant_p h]
  exact ⟨by simp [assocKeys], by simp [notifAddedIds]⟩

theorem applySummary_keys_occupied_p {s : PodListState} {sum : PodSummary}
    {p : Pod} (h : assocGet sum.id s.list = some p) :
    assocKeys (applySummary s sum).1.list = assocKeys s.list
      ∧ notifAddedIds (applySummary s sum).2 = [] := by
  rw [applySummary_occupied_p h]
  exact ⟨by simp [assocModify_keys], by simp [notifAddedIds]⟩

theorem applySummary_get_preserved_p {s : PodListState} {sum : PodSummary}
    (k : String) (p : Pod) (h : assocGet k s.list = some p) :
    ∃ p', assocGet k (applySummary s sum).1.list = some p'
      ∧ p'.objId = p.objId := by
  rcases hget : assocGet sum.id s.list with _ | p0
  · rw [applySummary_vacant_p hget]
    refine ⟨p, ?_, rfl⟩
    rw [assocGet_append, h]
  · rw [applySummary_occupied_p hget]
    by_cases hk : sum.id = k
    · subst hk
      rw [h] at hget
      injection hget with hget
      subst hget
      refine ⟨Pod.update p sum, ?_, rfl⟩
      simp only [assocGet_modify_self, h, Option.map_some']
    · exact ⟨p, by rw [assocGet_modify_ne (fun he => hk he.symm), h], rfl⟩

theorem applySummary_get_other_p {s : PodListState} {sum : PodSummary}
    {k : String} (hk : sum.id ≠ k) :
    assocGet k (applySummary s sum).1.list = assocGet k s.list := by
  rcases hget : assocGet sum.id s.list with _ | p0
  · rw [applySummary_vacant_p hget]
    simp only [assocGet_append]
    rcases assocGet k s.list with _ | v
    · simp [assocGet, hk]
    · rfl
  · rw [applySummary_occupied_p hget]
    exact assocGet_modify_ne (fun he => hk he.symm) _ _

theorem applySummary_get_self_vacant_p {s : PodListState} {sum : PodSummary}
    (h : assocGet sum.id s.list = none) :
    assocGet sum.id (applySummary s sum).1.list = some (Pod.new s.nextObjId sum) := by
  rw [applySummary_vacant_p h]
  simp only [assocGet_append, h]
  simp [assocGet]

theorem applySummary_get_self_occupied_p {s : PodListState} {sum : PodSummary}
    {p : Pod} (h : assocGet sum.id s.list = some p) :
    assocGet sum.id (applySummary s sum).1.list = some (Pod.update p sum) := by
  rw [applySummary_occupied_p h]
  simp only [assocGet_modify_self, h, Option.map_some']

theorem applySummaries_spec_p (sums : List PodSummary) (s : PodListState)
    (hnd : (assocKeys s.list).Nodup) :
    assocKeys (applySummaries s sums).1.list
        = assocKeys s.list ++ notifAddedIds (applySummaries s sums).2
      ∧ (assocKeys (applySummaries s sums).1.list).Nodup
      ∧ (∀ a ∈ notifAddedIds (applySummaries s sums).2,
          a ∉ assocKeys s.list ∧ ∃ x ∈ sums, x.id = a)
      ∧ (∀ x ∈ sums, x.id ∈ assocKeys (applySummaries s sums).1.list)
      ∧ (∀ k p, assocGet k s.list = some p →
          ∃ p', assocGet k (applySummaries s sums).1.list = some p'
            ∧ p'.objId = p.objId) := by
  induction sums generalizing s with
  | nil =>
    refine ⟨by simp [applySummaries_nil_p, notifAddedIds],
      by simpa [applySummaries_nil_p] using hnd,
      by simp [applySummaries_nil_p, notifAddedIds], by simp, ?_⟩
    intro k p h
    exact ⟨p, by simpa [applySummaries_nil_p] using h, rfl⟩
  | cons sum sums ih =>
    rw [applySummaries_cons_p]
    simp only [notifAddedIds_append]
    rcases hget : assocGet sum.id s.list with _ | p0
    · obtain ⟨hk1, hk2⟩ := applySummary_keys_vacant_p hget
      have hfresh : sum.id ∉ assocKeys s.list := assocGet_eq_none_iff.mp hget
      have hnd' : (assocKeys (applySummary s sum).1.list).Nodup := by
        rw [hk1]
        rw [List.nodup_append]
        refine ⟨hnd, List.nodup_singleton _, ?_⟩
        intro a ha hb
        simp only [List.mem_singleton] at hb
        exact hfresh (hb ▸ ha)
      obtain ⟨ih1, ih2, ih3, ih4, ih5⟩ := ih (applySummary s sum).1 hnd'
      refine ⟨?_, ih2, ?_, ?_, ?_⟩
      · simp only [ih1, hk1, hk2, List.append_assoc, List.singleton_append]
      · intro a ha
        rw [hk2] at ha
        simp only [List.singleton_append, List.mem_cons] at ha
        rcases ha with rfl | ha
        · exact ⟨hfresh, sum, List.mem_cons_self _ _, rfl⟩
        · obtain ⟨hna, x, hx, hxa⟩ := ih3 a ha
          refine ⟨fun hmem => hna ?_, x, List.mem_cons_of_mem _ hx, hxa⟩
          rw [hk1]
          exact List.mem_append_left _ hmem
      · intro x hx
        rcases List.mem_cons.mp hx with rfl | hx
        · rw [ih1, hk1]
          exact List.mem_append_left _ (List.mem_append_right _ (List.mem_singleton_self _))
        · exact ih4 x hx
      · intro k p h
        obtain ⟨p1, h1, h2⟩ := applySummary_get_preserved_p k p h
        obtain ⟨p2, h3, h4⟩ := ih5 k p1 h1
        exact ⟨p2, h3, h4.trans h2⟩
    · obtain ⟨hk1, hk2⟩ := applySummary_keys_occupied_p hget
      have hnd' : (assocKeys (applySummary s sum).1.list).Nodup := by
        rw [hk1]
        exact hnd
      obtain ⟨ih1, ih2, ih3, ih4, ih5⟩ := ih (applySummary s sum).1 hnd'
      refine ⟨?_, ih2, ?_, ?_, ?_⟩
      · simp only [ih1, hk1, hk2, List.nil_append]
      · intro a ha
        rw [hk2] at ha
        simp only [List.nil_append] at ha
        obtain ⟨hna, x, hx, hxa⟩ := ih3 a ha
        exact ⟨by rw [← hk1]; exact hna, x, List.mem_cons_of_mem _ hx, hxa⟩
      · intro x hx
        rcases List.mem_cons.mp hx with rfl | hx
        · rw [ih1, hk1]
          refine List.mem_append_left _ ?_
          exact assocGet_isSome_iff.mp (by rw [hget]; rfl)
        · exact ih4 x hx
      · intro k p h
        obtain ⟨p1, h1, h2⟩ := applySummary_get_preserved_p k p h
        obtain ⟨p2, h3, h4⟩ := ih5 k p1 h1
        exact ⟨p2, h3, h4.trans h2⟩

theorem applySummaries_get_preserved_p {sums : List PodSummary}
    {s : PodListState} {k : String} (hk : ∀ x ∈ sums, x.id ≠ k) :
    assocGet k (applySummaries s sums).1.list = assocGet k s.list := by
  induction sums generalizing s with
  | nil => rfl
  | cons sum sums ih =>
    rw [applySummaries_cons_p]
    show assocGet k (applySummaries (applySummary s sum).1 sums).1.list = _
    rw [ih (fun x hx => hk x (List.mem_cons_of_mem _ hx))]
    exact applySummary_get_other_p (hk sum (List.mem_cons_self _ _))

theorem applySummaries_establishes_p {sums : List PodSummary}
    {s : PodListState} (hnds : (sums.map (fun x => x.id)).Nodup) :
    ∀ sum ∈ sums, ∃ p, assocGet sum.id (applySummaries s sums).1.list = some p
      ∧ p.status = sum.status := by
  induction sums generalizing s with
  | nil =>
    intro sum h
    simp at h
  | cons x sums ih =>
    simp only [List.map_cons, List.nodup_cons] at hnds
    intro sum hmem
    rw [applySummaries_cons_p]
    show ∃ p, assocGet sum.id (applySummaries (applySummary s x).1 sums).1.list = some p ∧ _
    rcases List.mem_cons.mp hmem with rfl | hmem'
    · have hpres : ∀ y ∈ sums, y.id ≠ sum.id := fun y hy he =>
        hnds.1 (he ▸ List.mem_map_of_mem _ hy)
      rw [applySummaries_get_preserved_p hpres]
      rcases hg : assocGet sum.id s.list with _ | p0
      · rw [applySummary_get_self_vacant_p hg]
        exact ⟨_, rfl, rfl⟩
      · rw [applySummary_get_self_occupied_p hg]
        exact ⟨_, rfl, rfl⟩
    · exact ih hnds.2 sum hmem'

theorem applySummaries_fix_p {sums : List PodSummary} {s : PodListState}
    (h : ∀ sum ∈ sums, ∃ p, assocGet sum.id s.list = some p
      ∧ Pod.update p sum = p) :
    applySummaries s sums = (s, []) := by
  induction sums generalizing s with
  | nil => rfl
  | cons x sums ih =>
    rw [applySummaries_cons_p]
    obtain ⟨p, hg, hupd⟩ := h x (List.mem_cons_self _ _)
    have hstep : applySummary s x = (s, []) := by
      rw [applySummary_occupied_p hg]
      simp only [hupd]
      rw [assocModify_same hg]
    rw [hstep, ih (fun sum hmem => h sum (List.mem_cons_of_mem _ hmem))]
    rfl

theorem set_listing_notifs_no_added_p (s : PodListState) (v : Bool) :
    notifAddedIds (set_listing s v).2 = [] := by
  by_cases h : s.listing = v <;> simp [set_listing, h, notifAddedIds]

theorem set_as_initialized_notifs_no_added_p (s : PodListState) :
    notifAddedIds (set_as_initialized s).2 = [] := by
  obtain ⟨l, li, init, n⟩ := s
  rcases init with _ | _ <;> simp [set_as_initialized, notifAddedIds]

theorem refresh_error_spec_p (s : PodListState) (id : Option String) (e : PodmanError) :
    (refresh s id (.error e)).state = { s with listing := false, initialized := true }
      ∧ (refresh s id (.error e)).errReported = true
      ∧ (refresh s id (.error e)).requests = [Request.listPods id] := by
  refine ⟨?_, rfl, rfl⟩
  show (set_as_initialized (set_listing (set_listing s true).1 false).1).1 = _
  rw [set_listing_state_p, set_listing_state_p, set_as_initialized_state_p]

theorem refresh_none_ok_state_p (s : PodListState) (sums : List PodSummary) :
    (refresh s none (.ok sums)).state
      = { (applySummaries (removeAll { s with listing := true }
            (toRemove { s with listing := true } sums)).1 sums).1 with
          listing := false, initialized := true } := by
  show (set_as_initialized (set_listing (applySummaries
      (removeAll (set_listing s true).1
        (toRemove (set_listing s true).1 sums)).1 sums).1 false).1).1 = _
  rw [set_listing_state_p s true, set_listing_state_p, set_as_initialized_state_p]

theorem refresh_none_ok_added_p (s : PodListState) (sums : List PodSummary) :
    notifAddedIds (refresh s none (.ok sums)).notifs
      = notifAddedIds (applySummaries (removeAll { s with listing := true }
          (toRemove { s with listing := true } sums)).1 sums).2 := by
  show notifAddedIds ((set_listing s true).2
      ++ (removeAll (set_listing s true).1 (toRemove (set_listing s true).1 sums)).2
      ++ (applySummaries (removeAll (set_listing s true).1
            (toRemove (set_listing s true).1 sums)).1 sums).2
      ++ (set_listing (applySummaries (removeAll (set_listing s true).1
            (toRemove (set_listing s true).1 sums)).1 sums).1 false).2
      ++ (set_as_initialized (set_listing (applySummaries
            (removeAll (set_listing s true).1
              (toRemove (set_listing s true).1 sums)).1 sums).1 false).1).2) = _
  rw [set_listing_state_p s true]
  simp only [notifAddedIds_append, set_listing_notifs_no_added_p,
    set_as_initialized_notifs_no_added_p, removeAll_notifs_no_added_p,
    List.nil_append, List.append_nil]

theorem removeAll_toRemove_state_p {s : PodListState} {sums : List PodSummary}
    (hnd : (assocKeys s.list).Nodup) :
    (removeAll s (toRemove s sums)).1
      = { s with list := s.list.filter fun p => sums.any fun x => x.id = p.1 } := by
  rw [removeAll_state_p hnd]
  congr 1
  apply List.filter_congr
  intro p hp
  have hpk : p.1 ∈ assocKeys s.list := List.mem_map_of_mem Prod.fst hp
  have hiff : p.1 ∈ toRemove s sums ↔ ¬ ((sums.any fun x => x.id = p.1) = true) := by
    simp [toRemove, List.mem_filter, hpk]
  by_cases hany : (sums.any fun x => x.id = p.1) = true
  · have hni : ¬ p.1 ∈ toRemove s sums := fun hc => (hiff.mp hc) hany
    simp [hni, hany]
  · have hin : p.1 ∈ toRemove s sums := hiff.mpr hany
    rw [Bool.not_eq_true] at hany
    simp [hin, hany]

theorem refresh_none_ok_spec_p (s : PodListState) (sums : List PodSummary)
    (hnd : (assocKeys s.list).Nodup) :
    assocKeys (refresh s none (.ok sums)).state.list
        = ((assocKeys s.list).filter fun k => sums.any fun x => x.id = k)
          ++ notifAddedIds (refresh s none (.ok sums)).notifs
      ∧ (assocKeys (refresh s none (.ok sums)).state.list).Nodup
      ∧ (∀ a ∈ notifAddedIds (refresh s none (.ok sums)).notifs,
          a ∉ assocKeys s.list ∧ ∃ x ∈ sums, x.id = a)
      ∧ (∀ x ∈ sums, x.id ∈ assocKeys (refresh s none (.ok sums)).state.list)
      ∧ (∀ k p, assocGet k s.list = some p → (sums.any fun x => x.id = k) = true →
          ∃ p', assocGet k (refresh s none (.ok sums)).state.list = some p'
            ∧ p'.objId = p.objId) := by
  have hrem := @removeAll_toRemove_state_p { s with listing := true } sums hnd
  have hremlist : (removeAll { s with listing := true }
      (toRemove { s with listing := true } sums)).1.list
        = s.list.filter fun p => sums.any fun x => x.id = p.1 := by
    rw [hrem]
  have hremkeys : assocKeys (removeAll { s with listing := true }
      (toRemove { s with listing := true } sums)).1.list
        = (assocKeys s.list).filter fun k => sums.any fun x => x.id = k := by
    rw [hremlist]
    exact assocKeys_filter_key (fun k => sums.any fun x => decide (x.id = k)) s.list
  have hndrem : (assocKeys (removeAll { s with listing := true }
      (toRemove { s with listing := true } sums)).1.list).Nodup := by
    rw [hremlist]
    exact assocKeys_filter_nodup hnd _
  obtain ⟨sp1, sp2, sp3, sp4, sp5⟩ := applySummaries_spec_p sums _ hndrem
  have hstate : (refresh s none (.ok sums)).state.list
      = (applySummaries (removeAll { s with listing := true }
          (toRemove { s with listing := true } sums)).1 sums).1.list := by
    rw [refresh_none_ok_state_p]
  have hadded := refresh_none_ok_added_p s sums
  refine ⟨?_, ?_, ?_, ?_, ?_⟩
  · rw [hstate, hadded, sp1, hremkeys]
  · rw [hstate]
    exact sp2
  · intro a ha
    rw [hadded] at ha
    obtain ⟨hna, x, hx, hxa⟩ := sp3 a ha
    refine ⟨?_, x, hx, hxa⟩
    intro hmem
    apply hna
    rw [hremkeys]
    rw [List.mem_filter]
    refine ⟨hmem, ?_⟩
    rw [List.any_eq_true]
    exact ⟨x, hx, by simp [hxa]⟩
  · intro x hx
    rw [hstate]
    exact sp4 x hx
  · intro k p hget hany
    have hgetrem : assocGet k (removeAll { s with listing := true }
        (toRemove { s with listing := true } sums)).1.list = some p := by
      rw [hremlist]
      exact assocGet_filter (fun k => sums.any fun x => decide (x.id = k)) hget hany
    obtain ⟨p', h1, h2⟩ := sp5 k p hgetrem
    rw [hstate]
    exact ⟨p', h1, h2⟩

theorem refresh_some_ok_state_p (s : PodListState) (x : String)
    (sums : List PodSummary) :
    (refresh s (some x) (.ok sums)).state
      = { (applySummaries { s with listing := true } sums).1 with
          listing := false, initialized := true } := by
  show (set_as_initialized (set_listing (applySummaries (set_listing s true).1
      sums).1 false).1).1 = _
  rw [set_listing_state_p s true, set_listing_state_p, set_as_initialized_state_p]

theorem refresh_twice_p (s : PodListState) (sums : List PodSummary)
    (hnd : (assocKeys s.list).Nodup) (hnds : (sums.map fun x => x.id).Nodup) :
    (refresh (refresh s none (.ok sums)).state none (.ok sums)).state
        = (refresh s none (.ok sums)).state
      ∧ (refresh (refresh s none (.ok sums)).state none (.ok sums)).notifs
          = [Notif.changed "listing", Notif.changed "listing"] := by
  obtain ⟨sp1, sp2, sp3, sp4, sp5⟩ := refresh_none_ok_spec_p s sums hnd
  have hshape := refresh_none_ok_state_p s sums
  have hlist1 : (refresh s none (.ok sums)).state.listing = false := by rw [hshape]
  have hinit1 : (refresh s none (.ok sums)).state.initialized = true := by rw [hshape]
  have hsub : ∀ k ∈ assocKeys (refresh s none (.ok sums)).state.list,
      (sums.any fun x => x.id = k) = true := by
    intro k hk
    rw [sp1] at hk
    rcases List.mem_append.mp hk with hk | hk
    · exact (List.mem_filter.mp hk).2
    · obtain ⟨-, x, hx, hxa⟩ := sp3 k hk
      rw [List.any_eq_true]
      exact ⟨x, hx, by simp [hxa]⟩
  have hest : ∀ sum ∈ sums, ∃ p,
      assocGet sum.id (refresh s none (.ok sums)).state.list = some p
        ∧ p.status = sum.status := by
    intro sum hmem
    have h := applySummaries_establishes_p (s := (removeAll { s with listing := true }
      (toRemove { s with listing := true } sums)).1) hnds sum hmem
    rw [hshape]
    exact h
  have hsl1 : set_listing (refresh s none (.ok sums)).state true
      = ({ (refresh s none (.ok sums)).state with listing := true },
          [Notif.changed "listing"]) := by
    simp [set_listing, hlist1]
  have htr : toRemove ({ (refresh s none (.ok sums)).state with listing := true }) sums
      = [] := by
    unfold toRemove
    rw [List.filter_eq_nil_iff]
    intro a ha
    have h := hsub a ha
    simp [h]
  have happ2 : applySummaries
      ({ (refresh s none (.ok sums)).state with listing := true }) sums
      = ({ (refresh s none (.ok sums)).state with listing := true }, []) := by
    apply applySummaries_fix_p
    intro sum hmem
    obtain ⟨p, hg, h1⟩ := hest sum hmem
    exact ⟨p, hg, Pod.update_self_p h1⟩
  have hsl2 : set_listing ({ (refresh s none (.ok sums)).state with listing := true }) false
      = ((refresh s none (.ok sums)).state, [Notif.changed "listing"]) := by
    have hb : ({ ({ (refresh s none (.ok sums)).state with listing := true }) with
        listing := false } : PodListState) = (refresh s none (.ok sums)).state := by
      rw [hshape]
    simp only [set_listing]
    rw [if_neg (by simp)]
    rw [hb]
  have hsai : set_as_initialized (refresh s none (.ok sums)).state
      = ((refresh s none (.ok sums)).state, []) := by
    simp [set_as_initialized, hinit1]
  constructor
  · show (set_as_initialized (set_listing (applySummaries
        (removeAll (set_listing (refresh s none (.ok sums)).state true).1
          (toRemove (set_listing (refresh s none (.ok sums)).state true).1 sums)).1
        sums).1 false).1).1 = _
    simp only [hsl1, htr, removeAll, List.foldl_nil, happ2, hsl2, hsai]
  · show ((set_listing (refresh s none (.ok sums)).state true).2
      ++ (removeAll (set_listing (refresh s none (.ok sums)).state true).1
            (toRemove (set_listing (refresh s none (.ok sums)).state true).1 sums)).2
      ++ (applySummaries (removeAll (set_listing (refresh s none (.ok sums)).state true).1
            (toRemove (set_listing (refresh s none (.ok sums)).state true).1 sums)).1
            sums).2
      ++ (set_listing (applySummaries (removeAll
            (set_listing (refresh s none (.ok sums)).state true).1
            (toRemove (set_listing (refresh s none (.ok sums)).state true).1 sums)).1
            sums).1 false).2
      ++ (set_as_initialized (set_listing (applySummaries (removeAll
            (set_listing (refresh s none (.ok sums)).state true).1
            (toRemove (set_listing (refresh s none (.ok sums)).state true).1 sums)).1
            sums).1 false).1).2) = _
    simp only [hsl1, htr, removeAll, List.foldl_nil, happ2, hsl2, hsai]
    rfl

theorem handle_event_remove_eq_p (s : PodListState) (e : Event)
    (he : e.action = "remove") :
    handle_event s e
      = { state := (remove_pod s e.actorId).1, notifs := (remove_pod s e.actorId).2,
          requests := [], errReported := false } := by
  simp [handle_event, he]

theorem handle_event_other_eq_p (s : PodListState) (e : Event)
    (h1 : ¬ e.action = "remove") :
    handle_event s e
      = { state := (set_listing s true).1, notifs := (set_listing s true).2,
          requests := [Request.listPods ((get_pod s e.actorId).map fun _ => e.actorId)],
          errReported := false } := by
  simp [handle_event, h1]

theorem applyOp_spec_p (s : PodListState) (op : PodOp)
    (hnd : (assocKeys s.list).Nodup) :
    (assocKeys (PodList.applyOp s op).list).Nodup
      ∧ ∃ (keep : String → Bool) (add : List String),
          assocKeys (PodList.applyOp s op).list = (assocKeys s.list).filter keep ++ add
            ∧ ∀ a ∈ add, a ∉ assocKeys s.list := by
  rcases op with ⟨id, r⟩ | e
  · simp only [PodList.applyOp]
    rcases r with err | sums
    · obtain ⟨h1, -, -⟩ := refresh_error_spec_p s id err
      have hl : (refresh s id (.error err)).state.list = s.list := by rw [h1]
      refine ⟨by rw [hl]; exact hnd, fun _ => true, [], ?_, by simp⟩
      rw [hl]
      simp [List.filter_true]
    · rcases id with _ | x
      · obtain ⟨sp1, sp2, sp3, -, -⟩ := refresh_none_ok_spec_p s sums hnd
        exact ⟨sp2, fun k => sums.any fun y => decide (y.id = k),
          notifAddedIds (refresh s none (.ok sums)).notifs, sp1,
          fun a ha => (sp3 a ha).1⟩
      · obtain ⟨sp1, sp2, sp3, -, -⟩ :=
          applySummaries_spec_p sums ({ s with listing := true }) hnd
        have hl : (refresh s (some x) (.ok sums)).state.list
            = (applySummaries { s with listing := true } sums).1.list := by
          rw [refresh_some_ok_state_p]
        refine ⟨by rw [hl]; exact sp2, fun _ => true,
          notifAddedIds (applySummaries { s with listing := true } sums).2, ?_,
          fun a ha => (sp3 a ha).1⟩
        rw [hl, sp1]
        simp [List.filter_true]
  · simp only [PodList.applyOp]
    by_cases h1 : e.action = "remove"
    · rw [handle_event_remove_eq_p s e h1]
      have hl : (remove_pod s e.actorId).1.list
          = s.list.filter (fun p => p.1 ≠ e.actorId) := by
        rw [remove_pod_state hnd]
      have hk : assocKeys (remove_pod s e.actorId).1.list
          = (assocKeys s.list).filter (fun k => decide (k ≠ e.actorId)) := by
        rw [hl]
        exact assocKeys_filter_key (fun k => decide (k ≠ e.actorId)) s.list
      refine ⟨by rw [hk]; exact hnd.filter _, fun k => decide (k ≠ e.actorId), [],
        ?_, by simp⟩
      rw [hk]
      simp
    · rw [handle_event_other_eq_p s e h1]
      have hl : (set_listing s true).1.list = s.list := by
        rw [set_listing_state_p]
      refine ⟨by rw [hl]; exact hnd, fun _ => true, [], ?_, by simp⟩
      rw [hl]
      simp [List.filter_true]

theorem applyOps_nodup_p (ops : List PodOp) :
    (assocKeys (ops.foldl PodList.applyOp PodListState.empty).list).Nodup := by
  suffices h : ∀ s, (assocKeys s.list).Nodup →
      (assocKeys (ops.foldl PodList.applyOp s).list).Nodup by
    exact h PodListState.empty (by simp [PodListState.empty, assocKeys])
  induction ops with
  | nil =>
    intro s h
    exact h
  | cons op ops ih =>
    intro s h
    rw [List.foldl_cons]
    exact ih _ (applyOp_spec_p s op h).1

end PodList

/-! ## Claim theorems -/

/-- C3: For every mirror, when the list call of a refresh fails, the mirror's
contents are left completely unchanged (no entity added, removed, or mutated)
and the supplied error callback is invoked; and in both the success and the
failure case the refresh completion clears the `listing` flag and sets
`initialized` to true. -/
theorem claim_C3_refresh_failure :
    (∀ (s : ImageListState) (e : PodmanError),
        (ImageList.refresh s (.error e)).state.list = s.list
          ∧ (ImageList.refresh s (.error e)).errReported = true
          ∧ (ImageList.refresh s (.error e)).state.listing = false
          ∧ (ImageList.refresh s (.error e)).state.initialized = true)
      ∧ (∀ (s : ImageListState) (sums : List ImageSummary),
          (ImageList.refresh s (.ok sums)).errReported = false
            ∧ (ImageList.refresh s (.ok sums)).state.listing = false
            ∧ (ImageList.refresh s (.ok sums)).state.initialized = true)
      ∧ (∀ (s : ContainerListState) (id : Option String) (e : PodmanError),
          (ContainerList.refresh s id (.error e)).state.list = s.list
            ∧ (ContainerList.refresh s id (.error e)).errReported = true
            ∧ (ContainerList.refresh s id (.error e)).state.listing = false
            ∧ (ContainerList.refresh s id (.error e)).state.initialized = true)
      ∧ (∀ (s : ContainerListState) (id : Option String)
          (sums : List ContainerSummary),
          (ContainerList.refresh s id (.ok sums)).errReported = false
            ∧ (ContainerList.refresh s id (.ok sums)).state.listing = false
            ∧ (ContainerList.refresh s id (.ok sums)).state.initialized = true)
      ∧ (∀ (s : PodListState) (id : Option String) (e : PodmanError),
          (PodList.refresh s id (.error e)).state.list = s.list
            ∧ (PodList.refresh s id (.error e)).errReported = true
            ∧ (PodList.refresh s id (.error e)).state.listing = false
            ∧ (PodList.refresh s id (.error e)).state.initialized = true)
      ∧ (∀ (s : PodListState) (id : Option String) (sums : List PodSummary),
          (PodList.refresh s id (.ok sums)).errReported = false
            ∧ (PodList.refresh s id (.ok sums)).state.listing = false
            ∧ (PodList.refresh s id (.ok sums)).state.initialized = true) := by
  refine ⟨?_, ?_, ?_, ?_, ?_, ?_⟩
  · intro s e
    obtain ⟨h1, h2, -⟩ := ImageList.refresh_error_spec s e
    exact ⟨by rw [h1], h2, by rw [h1], by rw [h1]⟩
  · intro s sums
    have h1 := ImageList.refresh_ok_state s sums
    exact ⟨rfl, by rw [h1], by rw [h1]⟩
  · intro s id e
    obtain ⟨h1, h2, -⟩ := ContainerList.refresh_error_spec_c s id e
    exact ⟨by rw [h1], h2, by rw [h1], by rw [h1]⟩
  · intro s id sums
    rcases id with _ | x
    · have h1 := ContainerList.refresh_none_ok_state_c s sums
      exact ⟨rfl, by rw [h1], by rw [h1]⟩
    · have h1 := ContainerList.refresh_some_ok_state_c s x sums
      exact ⟨rfl, by rw [h1], by rw [h1]⟩
  · intro s id e
    obtain ⟨h1, h2, -⟩ := PodList.refresh_error_spec_p s id e
    exact ⟨by rw [h1], h2, by rw [h1], by rw [h1]⟩
  · intro s id sums
    rcases id with _ | x
    · have h1 := PodList.refresh_none_ok_state_p s sums
      exact ⟨rfl, by rw [h1], by rw [h1]⟩
    · have h1 := PodList.refresh_some_ok_state_p s x sums
      exact ⟨rfl, by rw [h1], by rw [h1]⟩

/-- C10: For every mirror and every ID X not currently present in that mirror,
calling the mirror's remove operation with X is a no-op: the mirror's contents
are unchanged and no "removed", "deleted", or items-changed notification is
emitted. -/
theorem claim_C10_remove_absent_noop :
    (∀ (s : ImageListState) (id : String), ImageList.get_image s id = none →
        ImageList.remove_image s id = (s, []))
      ∧ (∀ (s : ContainerListState) (id : String),
          ContainerList.get_container s id = none →
          ContainerList.remove_container s id = (s, []))
      ∧ (∀ (s : PodListState) (id : String), PodList.get_pod s id = none →
          PodList.remove_pod s id = (s, [])) := by
  refine ⟨?_, ?_, ?_⟩
  · intro s id h
    have hsr : assocShiftRemove id s.list = none :=
      assocShiftRemove_eq_none_iff.mpr (assocGet_eq_none_iff.mp h)
    simp [ImageList.remove_image, hsr]
  · intro s id h
    have hsr : assocShiftRemove id s.list = none :=
      assocShiftRemove_eq_none_iff.mpr (assocGet_eq_none_iff.mp h)
    simp [ContainerList.remove_container, hsr]
  · intro s id h
    have hsr : assocShiftRemove id s.list = none :=
      assocShiftRemove_eq_none_iff.mpr (assocGet_eq_none_iff.mp h)
    simp [PodList.remove_pod, hsr]

/-- Witness for C10 at a concrete input: removing the ID "x" from each empty
mirror is a no-op. -/
theorem claim_C10_witness :
    ImageList.remove_image ImageListState.empty "x" = (ImageListState.empty, [])
      ∧ ContainerList.remove_container ContainerListState.empty "x"
          = (ContainerListState.empty, [])
      ∧ PodList.remove_pod PodListState.empty "x" = (PodListState.empty, []) :=
  ⟨claim_C10_remove_absent_noop.1 ImageListState.empty "x" rfl,
    claim_C10_remove_absent_noop.2.1 ContainerListState.empty "x" rfl,
    claim_C10_remove_absent_noop.2.2 PodListState.empty "x" rfl⟩

/-- C9: A `try_connect` call whose name equals the name of a connection already
in the store returns an error before any network call and leaves the connection
store and the active client unchanged; and when the subsequent ping fails, no
connection is added, nothing is persisted, and the active client is unchanged
(the attempt is fully transactional). -/
theorem claim_C9_try_connect_transactional :
    (∀ (s : ConnectionManagerState) (uuid name url : String) (urlOk : Bool)
        (ping : Except PodmanError Unit),
        ((s.connections.map Prod.snd).any fun c => c.name = name) = true →
        (ConnectionManager.try_connect s uuid name url urlOk ping).returnedErr = true
          ∧ (ConnectionManager.try_connect s uuid name url urlOk ping).requests = []
          ∧ (ConnectionManager.try_connect s uuid name url urlOk ping).state = s
          ∧ (ConnectionManager.try_connect s uuid name url urlOk ping).persisted = false)
      ∧ (∀ (s : ConnectionManagerState) (uuid name url : String) (urlOk : Bool)
          (e : PodmanError),
          (ConnectionManager.try_connect s uuid name url urlOk (.error e)).state = s
            ∧ (ConnectionManager.try_connect s uuid name url urlOk
                (.error e)).persisted = false) := by
  constructor
  · intro s uuid name url urlOk ping h
    simp [ConnectionManager.try_connect, h]
  · intro s uuid name url urlOk e
    by_cases h : ((s.connections.map Prod.snd).any fun c => c.name = name) = true
    · simp [ConnectionManager.try_connect, h]
    · rcases hu : urlOk with _ | _ <;> simp [ConnectionManager.try_connect, h]

/-- Witness for C9 at a concrete input: a store holding a connection named "a";
a duplicate-name attempt is rejected with the store untouched, and an attempt
whose ping fails leaves the store unchanged and persists nothing. -/
theorem claim_C9_witness :
    (ConnectionManager.try_connect
        { connections := [("u1", { uuid := "u1", name := "a", url := "unix://1" })],
          client := none } "u2" "a" "unix://2" true (.ok ())).returnedErr = true
      ∧ (ConnectionManager.try_connect
          { connections := [("u1", { uuid := "u1", name := "a", url := "unix://1" })],
            client := none } "u2" "a" "unix://2" true (.ok ())).requests = []
      ∧ (ConnectionManager.try_connect
          { connections := [("u1", { uuid := "u1", name := "a", url := "unix://1" })],
            client := none } "u2" "b" "unix://2" true
          (.error PodmanError.transport)).state
        = { connections := [("u1", { uuid := "u1", name := "a", url := "unix://1" })],
            client := none } := by
  refine ⟨(claim_C9_try_connect_transactional.1 _ "u2" "a" "unix://2" true
      (.ok ()) (by decide)).1,
    (claim_C9_try_connect_transactional.1 _ "u2" "a" "unix://2" true
      (.ok ()) (by decide)).2.1,
    (claim_C9_try_connect_transactional.2 _ "u2" "b" "unix://2" true
      PodmanError.transport).1⟩

theorem assocGet_filter_ne_self {α : Type} (id : String) (l : List (String × α)) :
    assocGet id (l.filter fun p => p.1 ≠ id) = none := by
  rw [assocGet_eq_none_iff]
  intro hmem
  rw [assocKeys_filter_key (fun k => decide (k ≠ id)) l] at hmem
  obtain ⟨-, hpred⟩ := List.mem_filter.mp hmem
  simp at hpred

/-- C5 counterexample: on a container mirror holding the container "x", a
"remove" event fires the entity-level "deleted" notification before the
collection-level removed notification, not the other way around as the claim
states. -/
theorem claim_C5_counterexample :
    ¬ (((ContainerList.handle_event
        { list := [("x", Container.new 0
            { id := "x", isInfra := false, imageId := "i", podId := none,
              status := "running" })],
          listing := false, initialized := true, nextObjId := 1 }
        { typ := "container", action := "remove", actorId := "x",
          actorName := "" }).notifs.filter fun n =>
          match n with
          | Notif.removed _ => true
          | Notif.deleted _ => true
          | _ => false)
      = [Notif.removed "x", Notif.deleted "x"]) := by
  decide

/-- C5 amended: for every mirror holding an entity with ID X, handling a
"remove" event for X evicts X from the mirror immediately with no network call
and without reporting an error; the container mirror fires the entity-level
"deleted" notification and then the collection-level removed notification
exactly once each (in that order), while the image and pod mirrors fire the
entity-level "deleted" notification exactly once (they have no collection-level
removed signal beyond the items-changed notification); afterwards get(X)
returns none. -/
theorem claim_C5_amended :
    (∀ (s : ContainerListState) (e : Event) (c : Container),
        (assocKeys s.list).Nodup → e.action = "remove" →
        ContainerList.get_container s e.actorId = some c →
        (ContainerList.handle_event s e).requests = []
          ∧ (ContainerList.handle_event s e).errReported = false
          ∧ ((ContainerList.handle_event s e).notifs.filter fun n =>
              match n with
              | Notif.removed _ => true
              | Notif.deleted _ => true
              | _ => false)
            = [Notif.deleted e.actorId, Notif.removed e.actorId]
          ∧ ContainerList.get_container (ContainerList.handle_event s e).state
              e.actorId = none)
      ∧ (∀ (s : ImageListState) (e : Event) (img : Image),
          (assocKeys s.list).Nodup → e.action = "remove" →
          ImageList.get_image s e.actorId = some img →
          (ImageList.handle_event s e).requests = []
            ∧ (ImageList.handle_event s e).errReported = false
            ∧ ((ImageList.handle_event s e).notifs.filter fun n =>
                match n with
                | Notif.removed _ => true
                | Notif.deleted _ => true
                | _ => false)
              = [Notif.deleted e.actorId]
            ∧ ImageList.get_image (ImageList.handle_event s e).state e.actorId = none)
      ∧ (∀ (s : PodListState) (e : Event) (p : Pod),
          (assocKeys s.list).Nodup → e.action = "remove" →
          PodList.get_pod s e.actorId = some p →
          (PodList.handle_event s e).requests = []
            ∧ (PodList.handle_event s e).errReported = false
            ∧ ((PodList.handle_event s e).notifs.filter fun n =>
                match n with
                | Notif.removed _ => true
                | Notif.deleted _ => true
                | _ => false)
              = [Notif.deleted e.actorId]
            ∧ PodList.get_pod (PodList.handle_event s e).state e.actorId = none) := by
  refine ⟨?_, ?_, ?_⟩
  · intro s e c hnd he hget
    rw [ContainerList.handle_event_remove_eq_c s e he]
    rcases hq : assocShiftRemove e.actorId s.list with _ | ⟨⟨i, v, rest⟩⟩
    · rw [assocShiftRemove_eq_none_iff] at hq
      rw [show ContainerList.get_container s e.actorId = assocGet e.actorId s.list
          from rfl] at hget
      rw [assocGet_eq_none_iff.mpr hq] at hget
      exact Option.noConfusion hget
    · obtain ⟨hrest, -⟩ := assocShiftRemove_of_nodup hnd hq
      refine ⟨rfl, rfl, ?_, ?_⟩
      · simp [ContainerList.remove_container, hq]
      · show assocGet e.actorId (ContainerList.remove_container s e.actorId).1.list = none
        have : (ContainerList.remove_container s e.actorId).1.list = rest := by
          simp [ContainerList.remove_container, hq]
        rw [this, hrest]
        exact assocGet_filter_ne_self e.actorId s.list
  · intro s e img hnd he hget
    rw [ImageList.handle_event_remove_eq s e he]
    rcases hq : assocShiftRemove e.actorId s.list with _ | ⟨⟨i, v, rest⟩⟩
    · rw [assocShiftRemove_eq_none_iff] at hq
      rw [show ImageList.get_image s e.actorId = assocGet e.actorId s.list
          from rfl] at hget
      rw [assocGet_eq_none_iff.mpr hq] at hget
      exact Option.noConfusion hget
    · obtain ⟨hrest, -⟩ := assocShiftRemove_of_nodup hnd hq
      refine ⟨rfl, rfl, ?_, ?_⟩
      · simp [ImageList.remove_image, hq]
      · show assocGet e.actorId (ImageList.remove_image s e.actorId).1.list = none
        have : (ImageList.remove_image s e.actorId).1.list = rest := by
          simp [ImageList.remove_image, hq]
        rw [this, hrest]
        exact assocGet_filter_ne_self e.actorId s.list
  · intro s e p hnd he hget
    rw [PodList.handle_event_remove_eq_p s e he]
    rcases hq : assocShiftRemove e.actorId s.list with _ | ⟨⟨i, v, rest⟩⟩
    · rw [assocShiftRemove_eq_none_iff] at hq
      rw [show PodList.get_pod s e.actorId = assocGet e.actorId s.list
          from rfl] at hget
      rw [assocGet_eq_none_iff.mpr hq] at hget
      exact Option.noConfusion hget
    · obtain ⟨hrest, -⟩ := assocShiftRemove_of_nodup hnd hq
      refine ⟨rfl, rfl, ?_, ?_⟩
      · simp [PodList.remove_pod, hq]
      · show assocGet e.actorId (PodList.remove_pod s e.actorId).1.list = none
        have : (PodList.remove_pod s e.actorId).1.list = rest := by
          simp [PodList.remove_pod, hq]
        rw [this, hrest]
        exact assocGet_filter_ne_self e.actorId s.list

/-- Witness for the amended C5 at a concrete input: a container mirror holding
"x" handles a "remove" event for "x". -/
theorem claim_C5_amended_witness :
    (ContainerList.handle_event
        { list := [("x", Container.new 0
            { id := "x", isInfra := false, imageId := "i", podId := none,
              status := "running" })],
          listing := false, initialized := true, nextObjId := 1 }
        { typ := "container", action := "remove", actorId := "x",
          actorName := "" }).requests = []
      ∧ ContainerList.get_container (ContainerList.handle_event
          { list := [("x", Container.new 0
              { id := "x", isInfra := false, imageId := "i", podId := none,
                status := "running" })],
            listing := false, initialized := true, nextObjId := 1 }
          { typ := "container", action := "remove", actorId := "x",
            actorName := "" }).state "x" = none := by
  obtain ⟨h1, -, -, h4⟩ := claim_C5_amended.1
    { list := [("x", Container.new 0
        { id := "x", isInfra := false, imageId := "i", podId := none,
          status := "running" })],
      listing := false, initialized := true, nextObjId := 1 }
    { typ := "container", action := "remove", actorId := "x", actorName := "" }
    (Container.new 0
      { id := "x", isInfra := false, imageId := "i", podId := none,
        status := "running" })
    (by decide) rfl rfl
  exact ⟨h1, h4⟩

/-- C7 counterexample: on the container mirror, handling an event whose action
"bogus" is outside the recognized set is not ignored: it issues a network list
request (the catch-all arm of `ContainerList::handle_event` starts a refresh),
contradicting the claim that no network call is issued for all three
mirrors. -/
theorem claim_C7_counterexample :
    ¬ ((ContainerList.handle_event ContainerListState.empty
        { typ := "container", action := "bogus", actorId := "x",
          actorName := "" }).requests = []) := by
  decide

/-- C7 amended: only the image mirror ignores an unrecognized action (no
mutation, no network call, no warning beyond the log, no error report); the
container and pod mirrors instead treat every action other than their
specially-handled ones ("remove"/"health_status" for containers, "remove" for
pods) as a trigger for a refresh scoped to the entity's ID if it is held and
unfiltered otherwise — issuing the corresponding list request — while still
reporting no error. -/
theorem claim_C7_amended :
    (∀ (s : ImageListState) (e : Event),
        ¬ e.action = "tag" → ¬ e.action = "untag" → ¬ e.action = "remove" →
        ¬ e.action = "build" → ¬ e.action = "pull" →
        ImageList.handle_event s e
          = { state := s, notifs := [], requests := [], errReported := false })
      ∧ (∀ (s : ContainerListState) (e : Event),
          ¬ e.action = "remove" → ¬ e.action = "health_status" →
          (ContainerList.handle_event s e).requests
              = [Request.listContainers
                  ((ContainerList.get_container s e.actorId).map fun _ => e.actorId)]
            ∧ (ContainerList.handle_event s e).state.list = s.list
            ∧ (ContainerList.handle_event s e).errReported = false)
      ∧ (∀ (s : PodListState) (e : Event),
          ¬ e.action = "remove" →
          (PodList.handle_event s e).requests
              = [Request.listPods ((PodList.get_pod s e.actorId).map fun _ => e.actorId)]
            ∧ (PodList.handle_event s e).state.list = s.list
            ∧ (PodList.handle_event s e).errReported = false) := by
  refine ⟨?_, ?_, ?_⟩
  · intro s e h1 h2 h3 h4 h5
    exact ImageList.handle_event_unknown_eq s e h1 h2 h3 h4 h5
  · intro s e h1 h2
    rw [ContainerList.handle_event_other_eq_c s e h1 h2]
    refine ⟨rfl, ?_, rfl⟩
    show (ContainerList.set_listing s true).1.list = s.list
    rw [ContainerList.set_listing_state_c]
  · intro s e h1
    rw [PodList.handle_event_other_eq_p s e h1]
    refine ⟨rfl, ?_, rfl⟩
    show (PodList.set_listing s true).1.list = s.list
    rw [PodList.set_listing_state_p]

/-- Witness for the amended C7 at a concrete input: the action "bogus" on an
empty image mirror is ignored, while on empty container and pod mirrors it
issues an unfiltered list request. -/
theorem claim_C7_amended_witness :
    ImageList.handle_event ImageListState.empty
        { typ := "image", action := "bogus", actorId := "x", actorName := "" }
      = { state := ImageListState.empty, notifs := [], requests := [],
          errReported := false }
      ∧ (ContainerList.handle_event ContainerListState.empty
          { typ := "container", action := "bogus", actorId := "x",
            actorName := "" }).requests = [Request.listContainers none]
      ∧ (PodList.handle_event PodListState.empty
          { typ := "pod", action := "bogus", actorId := "x",
            actorName := "" }).requests = [Request.listPods none] := by
  refine ⟨claim_C7_amended.1 ImageListState.empty
      { typ := "image", action := "bogus", actorId := "x", actorName := "" }
      (by decide) (by decide) (by decide) (by decide) (by decide), ?_, ?_⟩
  · have h := (claim_C7_amended.2.1 ContainerListState.empty
      { typ := "container", action := "bogus", actorId := "x", actorName := "" }
      (by decide) (by decide)).1
    simpa using h
  · have h := (claim_C7_amended.2.2 PodListState.empty
      { typ := "pod", action := "bogus", actorId := "x", actorName := "" }
      (by decide)).1
    simpa using h

/-- C8: For an image present in the image mirror, a "tag" event that
transitions its tag set from 0 to 1 tags decreases the mirror's
intermediate-image count by exactly 1; an "untag" event transitioning from 1
to 0 tags increases it by exactly 1; and tag/untag transitions not crossing
the 0/1 boundary leave the count unchanged; no network call is made in any of
these cases.  (The tag event adds the tag "localhost/" ++ name; a tag event on
an image with an empty tag set is exactly the 0→1 transition, and an untag
event is the 1→0 transition exactly when it empties the tag set.) -/
theorem claim_C8_tag_untag_intermediates :
    ∀ (s : ImageListState) (e : Event) (img : Image),
      ImageList.get_image s e.actorId = some img →
      ((e.action = "tag" →
          (ImageList.handle_event s e).requests = []
            ∧ (img.repoTags = [] →
                ImageList.intermediates (ImageList.handle_event s e).state + 1
                  = ImageList.intermediates s)
            ∧ (img.repoTags ≠ [] →
                ImageList.intermediates (ImageList.handle_event s e).state
                  = ImageList.intermediates s))
        ∧ (e.action = "untag" →
            (ImageList.handle_event s e).requests = []
              ∧ (img.repoTags ≠ [] → removeRepoTag img.repoTags e.actorName = [] →
                  ImageList.intermediates (ImageList.handle_event s e).state
                    = ImageList.intermediates s + 1)
              ∧ (img.repoTags = [] ∨ removeRepoTag img.repoTags e.actorName ≠ [] →
                  ImageList.intermediates (ImageList.handle_event s e).state
                    = ImageList.intermediates s))) := by
  intro s e img hget
  have hget' : assocGet e.actorId s.list = some img := hget
  constructor
  · intro he
    rw [ImageList.handle_event_tag_eq s e he]
    refine ⟨rfl, ?_, ?_⟩
    · intro h0
      exact ImageList.tag_intermediates_of_empty _ hget' h0
    · intro h0
      exact ImageList.tag_intermediates_of_nonempty _ hget' h0
  · intro he
    rw [ImageList.handle_event_untag_eq s e he]
    refine ⟨rfl, ?_, ?_⟩
    · intro h0 h1
      exact ImageList.untag_intermediates_of_last _ hget' h0 h1
    · intro h1
      exact ImageList.untag_intermediates_of_rest _ hget' h1

/-- Witness for C8 at a concrete input: an image mirror holding the untagged
image "i"; a "tag" event for it is the 0→1 transition and decreases the
intermediate count from 1 to 0 with no network request, and an "untag" event
removing the only tag of a singly-tagged image "j" increases it by 1. -/
theorem claim_C8_witness :
    (ImageList.handle_event
        { list := [("i", { objId := 0, id := "i", repoTags := [], containers := [] })],
          listing := false, initialized := true, nextObjId := 1 }
        { typ := "image", action := "tag", actorId := "i",
          actorName := "t" }).requests = []
      ∧ ImageList.intermediates (ImageList.handle_event
          { list := [("i", { objId := 0, id := "i", repoTags := [], containers := [] })],
            listing := false, initialized := true, nextObjId := 1 }
          { typ := "image", action := "tag", actorId := "i",
            actorName := "t" }).state + 1
        = ImageList.intermediates
          { list := [("i", { objId := 0, id := "i", repoTags := [], containers := [] })],
            listing := false, initialized := true, nextObjId := 1 }
      ∧ ImageList.intermediates (ImageList.handle_event
          { list := [("j",
              { objId := 0, id := "j", repoTags := ["t"], containers := [] })],
            listing := false, initialized := true, nextObjId := 1 }
          { typ := "image", action := "untag", actorId := "j",
            actorName := "t" }).state
        = ImageList.intermediates
          { list := [("j",
              { objId := 0, id := "j", repoTags := ["t"], containers := [] })],
            listing := false, initialized := true, nextObjId := 1 } + 1 := by
  have h1 := (claim_C8_tag_untag_intermediates
    { list := [("i", { objId := 0, id := "i", repoTags := [], containers := [] })],
      listing := false, initialized := true, nextObjId := 1 }
    { typ := "image", action := "tag", actorId := "i", actorName := "t" }
    { objId := 0, id := "i", repoTags := [], containers := [] } rfl).1 rfl
  have h2 := (claim_C8_tag_untag_intermediates
    { list := [("j", { objId := 0, id := "j", repoTags := ["t"], containers := [] })],
      listing := false, initialized := true, nextObjId := 1 }
    { typ := "image", action := "untag", actorId := "j", actorName := "t" }
    { objId := 0, id := "j", repoTags := ["t"], containers := [] } rfl).2 rfl
  exact ⟨h1.1, h1.2.1 rfl, h2.2.1 (by decide) (by decide)⟩

/-- C6: Performing a full (unfiltered) refresh twice in succession with an
identical response set is idempotent: the second refresh leaves the mirror in
the same state as after the first (same IDs, order, and object identities —
here state equality, object identity being the `objId` tokens) and emits no
"added" notifications and no removals (no entity-level "deleted", no
collection-level removed signal); stated for all three mirrors, for response
sets with pairwise-distinct IDs. -/
theorem claim_C6_refresh_idempotent :
    (∀ (s : ImageListState) (sums : List ImageSummary),
        (assocKeys s.list).Nodup → (sums.map fun x => x.id).Nodup →
        (ImageList.refresh (ImageList.refresh s (.ok sums)).state (.ok sums)).state
            = (ImageList.refresh s (.ok sums)).state
          ∧ notifAddedIds (ImageList.refresh (ImageList.refresh s (.ok sums)).state
              (.ok sums)).notifs = []
          ∧ notifDeletedIds (ImageList.refresh (ImageList.refresh s (.ok sums)).state
              (.ok sums)).notifs = []
          ∧ notifRemovedIds (ImageList.refresh (ImageList.refresh s (.ok sums)).state
              (.ok sums)).notifs = [])
      ∧ (∀ (s : ContainerListState) (sums : List ContainerSummary),
          (assocKeys s.list).Nodup → (sums.map fun x => x.id).Nodup →
          (ContainerList.refresh (ContainerList.refresh s none (.ok sums)).state none
              (.ok sums)).state
              = (ContainerList.refresh s none (.ok sums)).state
            ∧ notifAddedIds (ContainerList.refresh
                (ContainerList.refresh s none (.ok sums)).state none
                (.ok sums)).notifs = []
            ∧ notifDeletedIds (ContainerList.refresh
                (ContainerList.refresh s none (.ok sums)).state none
                (.ok sums)).notifs = []
            ∧ notifRemovedIds (ContainerList.refresh
                (ContainerList.refresh s none (.ok sums)).state none
                (.ok sums)).notifs = [])
      ∧ (∀ (s : PodListState) (sums : List PodSummary),
          (assocKeys s.list).Nodup → (sums.map fun x => x.id).Nodup →
          (PodList.refresh (PodList.refresh s none (.ok sums)).state none
              (.ok sums)).state
              = (PodList.refresh s none (.ok sums)).state
            ∧ notifAddedIds (PodList.refresh
                (PodList.refresh s none (.ok sums)).state none (.ok sums)).notifs = []
            ∧ notifDeletedIds (PodList.refresh
                (PodList.refresh s none (.ok sums)).state none (.ok sums)).notifs = []
            ∧ notifRemovedIds (PodList.refresh
                (PodList.refresh s none (.ok sums)).state none (.ok sums)).notifs = []) := by
  refine ⟨?_, ?_, ?_⟩
  · intro s sums hnd hnds
    obtain ⟨h1, h2⟩ := ImageList.refresh_twice s sums hnd hnds
    exact ⟨h1, by rw [h2]; rfl, by rw [h2]; rfl, by rw [h2]; rfl⟩
  · intro s sums hnd hnds
    obtain ⟨h1, h2⟩ := ContainerList.refresh_twice_c s sums hnd hnds
    exact ⟨h1, by rw [h2]; rfl, by rw [h2]; rfl, by rw [h2]; rfl⟩
  · intro s sums hnd hnds
    obtain ⟨h1, h2⟩ := PodList.refresh_twice_p s sums hnd hnds
    exact ⟨h1, by rw [h2]; rfl, by rw [h2]; rfl, by rw [h2]; rfl⟩

/-- Witness for C6 at a concrete input: refreshing an empty image mirror twice
with the one-image response `[{id := "a"}]`, and likewise for containers and
pods. -/
theorem claim_C6_witness :
    (ImageList.refresh (ImageList.refresh ImageListState.empty
        (.ok [{ id := "a", repoTags := [] }])).state
        (.ok [{ id := "a", repoTags := [] }])).state
      = (ImageList.refresh ImageListState.empty
          (.ok [{ id := "a", repoTags := [] }])).state
      ∧ notifAddedIds (ContainerList.refresh (ContainerList.refresh
          ContainerListState.empty none
          (.ok [{ id := "a", isInfra := false, imageId := "i", podId := none,
                  status := "running" }])).state none
          (.ok [{ id := "a", isInfra := false, imageId := "i", podId := none,
                  status := "running" }])).notifs = []
      ∧ (PodList.refresh (PodList.refresh PodListState.empty none
          (.ok [{ id := "a", status := "running" }])).state none
          (.ok [{ id := "a", status := "running" }])).state
        = (PodList.refresh PodListState.empty none
            (.ok [{ id := "a", status := "running" }])).state :=
  ⟨(claim_C6_refresh_idempotent.1 ImageListState.empty
      [{ id := "a", repoTags := [] }] (by decide) (by decide)).1,
    (claim_C6_refresh_idempotent.2.1 ContainerListState.empty
      [{ id := "a", isInfra := false, imageId := "i", podId := none,
         status := "running" }] (by decide) (by decide)).2.1,
    (claim_C6_refresh_idempotent.2.2 PodListState.empty
      [{ id := "a", status := "running" }] (by decide) (by decide)).1⟩

/-- C1: For every mirror, a full (unfiltered) refresh removes exactly the
locally-held entities whose IDs are absent from the response (for the
container mirror, infra containers are neither added nor do they ever cause
an eviction — an ID survives exactly when some response entry carries it),
inserts each unseen ID by appending it at the end, and updates each
already-present ID's entity in place preserving object identity; and the
concrete scenario: refresh([a, b]) followed by an unfiltered refresh([b, c])
yields a mirror of exactly [b, c] with b the same object as before. -/
theorem claim_C1_full_refresh_reconciliation :
    (∀ (s : ImageListState) (sums : List ImageSummary),
        (assocKeys s.list).Nodup →
        ((∀ k ∈ assocKeys s.list,
            (k ∈ assocKeys (ImageList.refresh s (.ok sums)).state.list
              ↔ (sums.any fun x => x.id = k) = true))
          ∧ (∀ x ∈ sums, x.id ∈ assocKeys (ImageList.refresh s (.ok sums)).state.list)
          ∧ assocKeys (ImageList.refresh s (.ok sums)).state.list
              = ((assocKeys s.list).filter fun k => sums.any fun x => x.id = k)
                ++ notifAddedIds (ImageList.refresh s (.ok sums)).notifs
          ∧ (∀ a ∈ notifAddedIds (ImageList.refresh s (.ok sums)).notifs,
              a ∉ assocKeys s.list)
          ∧ (∀ k img, assocGet k s.list = some img →
              (sums.any fun x => x.id = k) = true →
              ∃ img', assocGet k (ImageList.refresh s (.ok sums)).state.list
                  = some img' ∧ img'.objId = img.objId)))
      ∧ (∀ (s : ContainerListState) (sums : List ContainerSummary),
          (assocKeys s.list).Nodup →
          ((∀ k ∈ assocKeys s.list,
              (k ∈ assocKeys (ContainerList.refresh s none (.ok sums)).state.list
                ↔ (sums.any fun x => x.id = k) = true))
            ∧ (∀ x ∈ sums, x.isInfra = false →
                x.id ∈ assocKeys (ContainerList.refresh s none (.ok sums)).state.list)
            ∧ assocKeys (ContainerList.refresh s none (.ok sums)).state.list
                = ((assocKeys s.list).filter fun k => sums.any fun x => x.id = k)
                  ++ notifAddedIds (ContainerList.refresh s none (.ok sums)).notifs
            ∧ (∀ a ∈ notifAddedIds (ContainerList.refresh s none (.ok sums)).notifs,
                a ∉ assocKeys s.list
                  ∧ ∃ x ∈ sums, x.id = a ∧ x.isInfra = false)
            ∧ (∀ k c, assocGet k s.list = some c →
                (sums.any fun x => x.id = k) = true →
                ∃ c', assocGet k (ContainerList.refresh s none (.ok sums)).state.list
                    = some c' ∧ c'.objId = c.objId)))
      ∧ (∀ (s : PodListState) (sums : List PodSummary),
          (assocKeys s.list).Nodup →
          ((∀ k ∈ assocKeys s.list,
              (k ∈ assocKeys (PodList.refresh s none (.ok sums)).state.list
                ↔ (sums.any fun x => x.id = k) = true))
            ∧ (∀ x ∈ sums,
                x.id ∈ assocKeys (PodList.refresh s none (.ok sums)).state.list)
            ∧ assocKeys (PodList.refresh s none (.ok sums)).state.list
                = ((assocKeys s.list).filter fun k => sums.any fun x => x.id = k)
                  ++ notifAddedIds (PodList.refresh s none (.ok sums)).notifs
            ∧ (∀ a ∈ notifAddedIds (PodList.refresh s none (.ok sums)).notifs,
                a ∉ assocKeys s.list)
            ∧ (∀ k p, assocGet k s.list = some p →
                (sums.any fun x => x.id = k) = true →
                ∃ p', assocGet k (PodList.refresh s none (.ok sums)).state.list
                    = some p' ∧ p'.objId = p.objId)))
      ∧ (assocKeys (ImageList.refresh ImageListState.empty
            (.ok [{ id := "a", repoTags := [] },
                  { id := "b", repoTags := [] }])).state.list = ["a", "b"]
          ∧ assocKeys (ImageList.refresh (ImageList.refresh ImageListState.empty
              (.ok [{ id := "a", repoTags := [] },
                    { id := "b", repoTags := [] }])).state
              (.ok [{ id := "b", repoTags := [] },
                    { id := "c", repoTags := [] }])).state.list = ["b", "c"]
          ∧ ImageList.get_image (ImageList.refresh (ImageList.refresh
              ImageListState.empty
              (.ok [{ id := "a", repoTags := [] },
                    { id := "b", repoTags := [] }])).state
              (.ok [{ id := "b", repoTags := [] },
                    { id := "c", repoTags := [] }])).state "a" = none
          ∧ (ImageList.get_image (ImageList.refresh (ImageList.refresh
              ImageListState.empty
              (.ok [{ id := "a", repoTags := [] },
                    { id := "b", repoTags := [] }])).state
              (.ok [{ id := "b", repoTags := [] },
                    { id := "c", repoTags := [] }])).state "b").map (fun i => i.objId)
            = (ImageList.get_image (ImageList.refresh ImageListState.empty
                (.ok [{ id := "a", repoTags := [] },
                      { id := "b", repoTags := [] }])).state "b").map (fun i => i.objId)
          ∧ notifAddedIds (ImageList.refresh (ImageList.refresh ImageListState.empty
              (.ok [{ id := "a", repoTags := [] },
                    { id := "b", repoTags := [] }])).state
              (.ok [{ id := "b", repoTags := [] },
                    { id := "c", repoTags := [] }])).notifs = ["c"]) := by
  refine ⟨?_, ?_, ?_, ?_⟩
  · intro s sums hnd
    obtain ⟨sp1, sp2, sp3, sp4, sp5⟩ := ImageList.refresh_ok_spec s sums hnd
    refine ⟨?_, sp4, sp1, fun a ha => (sp3 a ha).1, sp5⟩
    intro k hk
    constructor
    · intro hmem
      rw [sp1] at hmem
      rcases List.mem_append.mp hmem with hmem | hmem
      · exact (List.mem_filter.mp hmem).2
      · exact absurd hk (sp3 k hmem).1
    · intro hany
      rw [sp1]
      exact List.mem_append_left _ (List.mem_filter.mpr ⟨hk, hany⟩)
  · intro s sums hnd
    obtain ⟨sp1, sp2, sp3, sp4, sp5⟩ := ContainerList.refresh_none_ok_spec_c s sums hnd
    refine ⟨?_, sp4, sp1, fun a ha => ⟨(sp3 a ha).1, (sp3 a ha).2⟩, sp5⟩
    intro k hk
    constructor
    · intro hmem
      rw [sp1] at hmem
      rcases List.mem_append.mp hmem with hmem | hmem
      · exact (List.mem_filter.mp hmem).2
      · exact absurd hk (sp3 k hmem).1
    · intro hany
      rw [sp1]
      exact List.mem_append_left _ (List.mem_filter.mpr ⟨hk, hany⟩)
  · intro s sums hnd
    obtain ⟨sp1, sp2, sp3, sp4, sp5⟩ := PodList.refresh_none_ok_spec_p s sums hnd
    refine ⟨?_, sp4, sp1, fun a ha => (sp3 a ha).1, sp5⟩
    intro k hk
    constructor
    · intro hmem
      rw [sp1] at hmem
      rcases List.mem_append.mp hmem with hmem | hmem
      · exact (List.mem_filter.mp hmem).2
      · exact absurd hk (sp3 k hmem).1
    · intro hany
      rw [sp1]
      exact List.mem_append_left _ (List.mem_filter.mpr ⟨hk, hany⟩)
  · refine ⟨by decide, by decide, by decide, by decide, by decide⟩

/-- Witness for C1 at a concrete input: a mirror holding images "a" and "b"
refreshed with the response `[b, c]`: "a" is evicted because no response entry
carries its ID, "c" is appended, "b" survives. -/
theorem claim_C1_witness :
    ("a" ∈ assocKeys (ImageList.refresh (ImageList.refresh ImageListState.empty
        (.ok [{ id := "a", repoTags := [] }, { id := "b", repoTags := [] }])).state
        (.ok [{ id := "b", repoTags := [] },
              { id := "c", repoTags := [] }])).state.list
      ↔ (([{ id := "b", repoTags := [] },
           { id := "c", repoTags := [] }] : List ImageSummary).any
          fun x => x.id = "a") = true) := by
  have h := ((claim_C1_full_refresh_reconciliation.1
    (ImageList.refresh ImageListState.empty
      (.ok [{ id := "a", repoTags := [] }, { id := "b", repoTags := [] }])).state
    [{ id := "b", repoTags := [] }, { id := "c", repoTags := [] }]
    (by decide)).1 "a" (by decide))
  exact h

/-- C2: For every sequence of refresh and handle_event operations applied to a
mirror, at every point the mirror never contains two entities with the same
remote ID (the key sequence is duplicate-free after any operation sequence
from the empty mirror), and iteration order is insertion order: every single
operation maps the key sequence to an order-preserving subsequence of the old
keys followed by freshly-appended keys not previously held. -/
theorem claim_C2_no_duplicates_insertion_order :
    ((∀ ops : List ImageOp,
        (assocKeys (ops.foldl ImageList.applyOp ImageListState.empty).list).Nodup)
      ∧ (∀ ops : List ContainerOp,
          (assocKeys (ops.foldl ContainerList.applyOp
            ContainerListState.empty).list).Nodup)
      ∧ (∀ ops : List PodOp,
          (assocKeys (ops.foldl PodList.applyOp PodListState.empty).list).Nodup))
      ∧ ((∀ (s : ImageListState) (op : ImageOp), (assocKeys s.list).Nodup →
            ∃ (keep : String → Bool) (add : List String),
              assocKeys (ImageList.applyOp s op).list
                  = (assocKeys s.list).filter keep ++ add
                ∧ ∀ a ∈ add, a ∉ assocKeys s.list)
        ∧ (∀ (s : ContainerListState) (op : ContainerOp), (assocKeys s.list).Nodup →
            ∃ (keep : String → Bool) (add : List String),
              assocKeys (ContainerList.applyOp s op).list
                  = (assocKeys s.list).filter keep ++ add
                ∧ ∀ a ∈ add, a ∉ assocKeys s.list)
        ∧ (∀ (s : PodListState) (op : PodOp), (assocKeys s.list).Nodup →
            ∃ (keep : String → Bool) (add : List String),
              assocKeys (PodList.applyOp s op).list
                  = (assocKeys s.list).filter keep ++ add
                ∧ ∀ a ∈ add, a ∉ assocKeys s.list)) := by
  refine ⟨⟨ImageList.applyOps_nodup, ContainerList.applyOps_nodup_c,
    PodList.applyOps_nodup_p⟩, ?_, ?_, ?_⟩
  · intro s op hnd
    exact (ImageList.applyOp_spec s op hnd).2
  · intro s op hnd
    exact (ContainerList.applyOp_spec_c s op hnd).2
  · intro s op hnd
    exact (PodList.applyOp_spec_p s op hnd).2

/-- Witness for C2 at a concrete input: applying one refresh completion to the
empty image mirror admits the order-preserving decomposition. -/
theorem claim_C2_witness :
    ∃ (keep : String → Bool) (add : List String),
      assocKeys (ImageList.applyOp ImageListState.empty
            (ImageOp.refreshDone (.ok [{ id := "a", repoTags := [] }]))).list
          = (assocKeys (ImageListState.empty).list).filter keep ++ add
        ∧ ∀ a ∈ add, a ∉ assocKeys (ImageListState.empty).list :=
  claim_C2_no_duplicates_insertion_order.2.1 ImageListState.empty
    (ImageOp.refreshDone (.ok [{ id := "a", repoTags := [] }])) (by decide)

theorem assocGet_map_value {α : Type} (F : α → α) (k : String) (l : List (String × α)) :
    assocGet k (l.map fun p => (p.1, F p.2)) = (assocGet k l).map F := by
  induction l with
  | nil => rfl
  | cons p rest ih =>
    by_cases hp : p.1 = k <;> simp [assocGet, hp, ih]

theorem assocGet_modify_isSome {α : Type} (J k : String) (f : α → α)
    (l : List (String × α)) :
    (assocGet k (assocModify J f l)).isSome = (assocGet k l).isSome := by
  by_cases hk : k = J
  · subst hk
    rw [assocGet_modify_self]
    rcases assocGet k l with _ | v <;> rfl
  · rw [assocGet_modify_ne hk]

theorem Image.mem_addContainer_self (img : Image) (cid : String) :
    cid ∈ (Image.addContainer img cid).containers := by
  unfold Image.addContainer
  by_cases h : cid ∈ img.containers
  · simp [h]
  · simp [h]

theorem Image.mem_addContainer_mono {img : Image} {x : String} (y : String)
    (h : x ∈ img.containers) : x ∈ (Image.addContainer img y).containers := by
  unfold Image.addContainer
  by_cases hy : y ∈ img.containers
  · simpa [hy] using h
  · simp [hy]
    exact Or.inl h

theorem Image.mem_foldl_addContainer_mono {img : Image} {x : String}
    (ids : List String) (h : x ∈ img.containers) :
    x ∈ (ids.foldl Image.addContainer img).containers := by
  induction ids generalizing img with
  | nil => exact h
  | cons y ids ih =>
    rw [List.foldl_cons]
    exact ih (Image.mem_addContainer_mono y h)

theorem Image.mem_foldl_addContainer {img : Image} {x : String} {ids : List String}
    (h : x ∈ ids) : x ∈ (ids.foldl Image.addContainer img).containers := by
  induction ids generalizing img with
  | nil => simp at h
  | cons y ids ih =>
    rw [List.foldl_cons]
    rcases List.mem_cons.mp h with rfl | h
    · exact Image.mem_foldl_addContainer_mono ids (Image.mem_addContainer_self img x)
    · exact ih h

theorem Pod.mem_addContainer_self_p (p : Pod) (cid : String) :
    cid ∈ (Pod.addContainer p cid).containers := by
  unfold Pod.addContainer
  by_cases h : cid ∈ p.containers
  · simp [h]
  · simp [h]

theorem Pod.mem_addContainer_mono_p {p : Pod} {x : String} (y : String)
    (h : x ∈ p.containers) : x ∈ (Pod.addContainer p y).containers := by
  unfold Pod.addContainer
  by_cases hy : y ∈ p.containers
  · simpa [hy] using h
  · simp [hy]
    exact Or.inl h

namespace Client

theorem onImageAdded_containers_get {s : ClientState} {cid J : String} {c : Container}
    (hc : assocGet cid s.containers.list = some c) (hne : c.imageId ≠ J) :
    assocGet cid (onImageAdded s J).containers.list = some c := by
  show assocGet cid (s.containers.list.map fun p =>
    (p.1, if p.2.imageId = J then { p.2 with image := some J } else p.2)) = some c
  rw [assocGet_map_value (fun v => if v.imageId = J then { v with image := some J } else v)
    cid s.containers.list, hc]
  simp [hne]

theorem onImageAdded_images_get_ne {s : ClientState} {I J : String} (hne : I ≠ J) :
    assocGet I (onImageAdded s J).images.list = assocGet I s.images.list := by
  show assocGet I (assocModify J _ s.images.list) = _
  exact assocGet_modify_ne hne _ _

theorem onImageAdded_link {s : ClientState} {cid I : String} {c : Container} {img : Image}
    (hc : assocGet cid s.containers.list = some c) (hcI : c.imageId = I)
    (himg : assocGet I s.images.list = some img) :
    assocGet cid (onImageAdded s I).containers.list = some { c with image := some I }
      ∧ ∃ img', assocGet I (onImageAdded s I).images.list = some img'
          ∧ cid ∈ img'.containers := by
  constructor
  · show assocGet cid (s.containers.list.map fun p =>
      (p.1, if p.2.imageId = I then { p.2 with image := some I } else p.2)) = _
    rw [assocGet_map_value (fun v => if v.imageId = I then { v with image := some I } else v)
      cid s.containers.list, hc]
    simp [hcI]
  · show ∃ img', assocGet I (assocModify I
      (fun im => ((s.containers.list.filter fun p => p.2.imageId = I).map
        Prod.fst).foldl Image.addContainer im) s.images.list) = some img'
        ∧ cid ∈ img'.containers
    rw [assocGet_modify_self, himg]
    refine ⟨_, rfl, ?_⟩
    have hmem : (cid, c) ∈ s.containers.list.filter (fun p => p.2.imageId = I) :=
      List.mem_filter.mpr ⟨assocGet_mem hc, by simp [hcI]⟩
    exact Image.mem_foldl_addContainer (List.mem_map_of_mem Prod.fst hmem)

theorem foldl_onImageAdded_container {L : List String} {s : ClientState}
    {cid I : String} {c : Container} (hL : I ∉ L)
    (hc : assocGet cid s.containers.list = some c) (hcI : c.imageId = I) :
    assocGet cid ((L.foldl onImageAdded s).containers).list = some c := by
  induction L generalizing s with
  | nil => exact hc
  | cons J L ih =>
    rw [List.foldl_cons]
    have hJI : I ≠ J := fun he => hL (he ▸ List.mem_cons_self _ _)
    refine ih (fun hm => hL (List.mem_cons_of_mem _ hm)) ?_
    exact onImageAdded_containers_get hc (by rw [hcI]; exact hJI)

theorem foldl_onImageAdded_image {L : List String} {s : ClientState}
    {I : String} {img : Image} (hL : I ∉ L)
    (himg : assocGet I s.images.list = some img) :
    assocGet I ((L.foldl onImageAdded s).images).list = some img := by
  induction L generalizing s with
  | nil => exact himg
  | cons J L ih =>
    rw [List.foldl_cons]
    have hJI : I ≠ J := fun he => hL (he ▸ List.mem_cons_self _ _)
    refine ih (fun hm => hL (List.mem_cons_of_mem _ hm)) ?_
    rw [onImageAdded_images_get_ne hJI]
    exact himg

end Client

namespace Client

theorem refreshImages_links {s : ClientState} {sums : List ImageSummary}
    {cid I : String} {c : Container}
    (hndI : (assocKeys s.images.list).Nodup)
    (hc : assocGet cid s.containers.list = some c)
    (hcI : c.imageId = I)
    (hIfresh : I ∉ assocKeys s.images.list)
    (hIresp : ∃ x ∈ sums, x.id = I) :
    (∃ c', assocGet cid (refreshImages s (.ok sums)).containers.list = some c'
        ∧ c'.image = some I ∧ c'.objId = c.objId)
      ∧ ∃ img, assocGet I (refreshImages s (.ok sums)).images.list = some img
          ∧ cid ∈ img.containers := by
  obtain ⟨sp1, sp2, sp3, sp4, sp5⟩ := ImageList.refresh_ok_spec s.images sums hndI
  obtain ⟨x, hx, hxI⟩ := hIresp
  have hIkeys : I ∈ assocKeys (ImageList.refresh s.images (.ok sums)).state.list := by
    rw [← hxI]
    exact sp4 x hx
  have hIL : I ∈ notifAddedIds (ImageList.refresh s.images (.ok sums)).notifs := by
    rw [sp1] at hIkeys
    rcases List.mem_append.mp hIkeys with hm | hm
    · exact absurd (List.mem_filter.mp hm).1 hIfresh
    · exact hm
  have hLnd : (notifAddedIds (ImageList.refresh s.images (.ok sums)).notifs).Nodup := by
    rw [sp1] at sp2
    exact (List.nodup_append.mp sp2).2.1
  have hIsome : ∃ img0, assocGet I (ImageList.refresh s.images (.ok sums)).state.list
      = some img0 := Option.isSome_iff_exists.mp (assocGet_isSome_iff.mpr hIkeys)
  obtain ⟨img0, himg0⟩ := hIsome
  obtain ⟨L1, L2, hL⟩ := List.append_of_mem hIL
  have hnd12 : (L1 ++ I :: L2).Nodup := hL ▸ hLnd
  have hIL1 : I ∉ L1 := by
    intro hm
    exact (List.nodup_append.mp hnd12).2.2 hm (List.mem_cons_self _ _)
  have hIL2 : I ∉ L2 := (List.nodup_cons.mp (List.nodup_append.mp hnd12).2.1).1
  have hre : refreshImages s (.ok sums)
      = (notifAddedIds (ImageList.refresh s.images (.ok sums)).notifs).foldl
          onImageAdded { s with images := (ImageList.refresh s.images (.ok sums)).state } :=
    rfl
  rw [hre, hL, List.foldl_append, List.foldl_cons]
  have hcA : assocGet cid ((L1.foldl onImageAdded
      { s with images := (ImageList.refresh s.images (.ok sums)).state }).containers).list
        = some c :=
    foldl_onImageAdded_container hIL1 hc hcI
  have himgA : assocGet I ((L1.foldl onImageAdded
      { s with images := (ImageList.refresh s.images (.ok sums)).state }).images).list
        = some img0 :=
    foldl_onImageAdded_image hIL1 himg0
  obtain ⟨hB1, img1, hB2, hB3⟩ := onImageAdded_link hcA hcI himgA
  constructor
  · refine ⟨{ c with image := some I }, ?_, rfl, rfl⟩
    exact foldl_onImageAdded_container hIL2 hB1 hcI
  · exact ⟨img1, foldl_onImageAdded_image hIL2 hB2, hB3⟩

end Client

namespace Client

theorem onContainerRemoved_containers (s : ClientState) (c : Container) :
    (onContainerRemoved s c).containers = s.containers := by
  rcases hp : c.pod with _ | pid <;>
    by_cases h : (assocGet c.imageId s.images.list).isSome = true <;>
      simp [onContainerRemoved, hp, h]

theorem onContainerRemoved_images_isSome (s : ClientState) (c : Container) (I : String) :
    (assocGet I (onContainerRemoved s c).images.list).isSome
      = (assocGet I s.images.list).isSome := by
  rcases hp : c.pod with _ | pid <;>
    by_cases h : (assocGet c.imageId s.images.list).isSome = true <;>
      simp [onContainerRemoved, hp, h, assocGet_modify_isSome]

theorem onContainerRemoved_pods_isSome (s : ClientState) (c : Container) (P : String) :
    (assocGet P (onContainerRemoved s c).pods.list).isSome
      = (assocGet P s.pods.list).isSome := by
  rcases hp : c.pod with _ | pid <;>
    by_cases h : (assocGet c.imageId s.images.list).isSome = true <;>
      simp [onContainerRemoved, hp, h, assocGet_modify_isSome]

theorem foldl_onContainerRemoved_containers (removed : List Container) (s : ClientState) :
    (removed.foldl onContainerRemoved s).containers = s.containers := by
  induction removed generalizing s with
  | nil => rfl
  | cons c rest ih =>
    rw [List.foldl_cons, ih, onContainerRemoved_containers]

theorem foldl_onContainerRemoved_images_isSome (removed : List Container)
    (s : ClientState) (I : String) :
    (assocGet I (removed.foldl onContainerRemoved s).images.list).isSome
      = (assocGet I s.images.list).isSome := by
  induction removed generalizing s with
  | nil => rfl
  | cons c rest ih =>
    rw [List.foldl_cons, ih, onContainerRemoved_images_isSome]

theorem foldl_onContainerRemoved_pods_isSome (removed : List Container)
    (s : ClientState) (P : String) :
    (assocGet P (removed.foldl onContainerRemoved s).pods.list).isSome
      = (assocGet P s.pods.list).isSome := by
  induction removed generalizing s with
  | nil => rfl
  | cons c rest ih =>
    rw [List.foldl_cons, ih, onContainerRemoved_pods_isSome]

theorem onContainerAdded_containers_get_ne {s : ClientState} {cid J : String}
    (hne : cid ≠ J) :
    assocGet cid (onContainerAdded s J).containers.list
      = assocGet cid s.containers.list := by
  have hJc : J ≠ cid := fun h => hne h.symm
  rcases hJ : assocGet J s.containers.list with _ | c0
  · simp [onContainerAdded, hJ]
  · rcases hpod : c0.podId with _ | pid
    · simp only [onContainerAdded, hJ, hpod]
      rw [assocGet_modify_ne hne]
    · simp only [onContainerAdded, hJ, hpod]
      by_cases hps : (assocGet pid s.pods.list).isSome = true
      · simp only [hps, if_true]
        rw [assocGet_modify_ne hne, assocGet_modify_ne hne]
      · rw [Bool.not_eq_true] at hps
        simp only [hps]
        rw [if_neg (by simp)]
        rw [assocGet_modify_ne hne]

theorem onContainerAdded_images_isSome (s : ClientState) (J I : String) :
    (assocGet I (onContainerAdded s J).images.list).isSome
      = (assocGet I s.images.list).isSome := by
  rcases hJ : assocGet J s.containers.list with _ | c0
  · simp [onContainerAdded, hJ]
  · rcases hpod : c0.podId with _ | pid
    · by_cases hfound : (assocGet c0.imageId s.images.list).isSome = true <;>
        simp [onContainerAdded, hJ, hpod, hfound, assocGet_modify_isSome]
    · by_cases hfound : (assocGet c0.imageId s.images.list).isSome = true <;>
        by_cases hps : (assocGet pid s.pods.list).isSome = true <;>
          simp [onContainerAdded, hJ, hpod, hfound, hps, assocGet_modify_isSome]

theorem onContainerAdded_pods_isSome (s : ClientState) (J P : String) :
    (assocGet P (onContainerAdded s J).pods.list).isSome
      = (assocGet P s.pods.list).isSome := by
  rcases hJ : assocGet J s.containers.list with _ | c0
  · simp [onContainerAdded, hJ]
  · rcases hpod : c0.podId with _ | pid
    · by_cases hfound : (assocGet c0.imageId s.images.list).isSome = true <;>
        simp [onContainerAdded, hJ, hpod, hfound]
    · by_cases hfound : (assocGet c0.imageId s.images.list).isSome = true <;>
        by_cases hps : (assocGet pid s.pods.list).isSome = true <;>
          simp [onContainerAdded, hJ, hpod, hfound, hps, assocGet_modify_isSome]

theorem onContainerAdded_images_mem {s : ClientState} {I : String} {img : Image}
    {x : String} (J : String) (himg : assocGet I s.images.list = some img)
    (hx : x ∈ img.containers) :
    ∃ img', assocGet I (onContainerAdded s J).images.list = some img'
      ∧ x ∈ img'.containers := by
  rcases hJ : assocGet J s.containers.list with _ | c0
  · exact ⟨img, by simp [onContainerAdded, hJ, himg], hx⟩
  · have himages : ∀ (t : ClientState), t.images.list
        = (if (assocGet c0.imageId s.images.list).isSome
            then assocModify c0.imageId (fun im => im.addContainer J) s.images.list
            else s.images.list) →
        ∃ img', assocGet I t.images.list = some img' ∧ x ∈ img'.containers := by
      intro t ht
      rw [ht]
      by_cases hfound : (assocGet c0.imageId s.images.list).isSome = true
      · simp only [hfound, if_true]
        by_cases hII : I = c0.imageId
        · subst hII
          rw [assocGet_modify_self, himg]
          exact ⟨_, rfl, Image.mem_addContainer_mono J hx⟩
        · rw [assocGet_modify_ne hII]
          exact ⟨img, himg, hx⟩
      · simp only [hfound, if_false]
        exact ⟨img, himg, hx⟩
    rcases hpod : c0.podId with _ | pid
    · apply himages
      by_cases hfound : (assocGet c0.imageId s.images.list).isSome = true <;>
        simp [onContainerAdded, hJ, hpod, hfound]
    · by_cases hps : (assocGet pid s.pods.list).isSome = true
      · apply himages
        by_cases hfound : (assocGet c0.imageId s.images.list).isSome = true <;>
          simp [onContainerAdded, hJ, hpod, hps, hfound]
      · apply himages
        by_cases hfound : (assocGet c0.imageId s.images.list).isSome = true <;>
          simp [onContainerAdded, hJ, hpod, hps, hfound]

theorem onContainerAdded_pods_mem {s : ClientState} {P : String} {p : Pod}
    {x : String} (J : String) (hp : assocGet P s.pods.list = some p)
    (hx : x ∈ p.containers) :
    ∃ p', assocGet P (onContainerAdded s J).pods.list = some p'
      ∧ x ∈ p'.containers := by
  rcases hJ : assocGet J s.containers.list with _ | c0
  · exact ⟨p, by simp [onContainerAdded, hJ, hp], hx⟩
  · rcases hpod : c0.podId with _ | pid
    · refine ⟨p, ?_, hx⟩
      by_cases hfound : (assocGet c0.imageId s.images.list).isSome = true <;>
        simp [onContainerAdded, hJ, hpod, hfound, hp]
    · by_cases hps : (assocGet pid s.pods.list).isSome = true
      · have hpods : (onContainerAdded s J).pods.list
            = assocModify pid (fun q => q.addContainer J) s.pods.list := by
          by_cases hfound : (assocGet c0.imageId s.images.list).isSome = true <;>
            simp [onContainerAdded, hJ, hpod, hps, hfound]
        rw [hpods]
        by_cases hPP : P = pid
        · subst hPP
          rw [assocGet_modify_self, hp]
          exact ⟨_, rfl, Pod.mem_addContainer_mono_p J hx⟩
        · rw [assocGet_modify_ne hPP]
          exact ⟨p, hp, hx⟩
      · refine ⟨p, ?_, hx⟩
        by_cases hfound : (assocGet c0.imageId s.images.list).isSome = true <;>
          simp [onContainerAdded, hJ, hpod, hps, hfound, hp]

theorem foldl_onContainerAdded_container_ne {L : List String} {s : ClientState}
    {cid : String} (hL : cid ∉ L) :
    assocGet cid ((L.foldl onContainerAdded s).containers).list
      = assocGet cid s.containers.list := by
  induction L generalizing s with
  | nil => rfl
  | cons J L ih =>
    rw [List.foldl_cons]
    have hne : cid ≠ J := fun he => hL (he ▸ List.mem_cons_self _ _)
    rw [ih (fun hm => hL (List.mem_cons_of_mem _ hm))]
    exact onContainerAdded_containers_get_ne hne

theorem foldl_onContainerAdded_images_isSome (L : List String) (s : ClientState)
    (I : String) :
    (assocGet I ((L.foldl onContainerAdded s).images).list).isSome
      = (assocGet I s.images.list).isSome := by
  induction L generalizing s with
  | nil => rfl
  | cons J L ih =>
    rw [List.foldl_cons, ih, onContainerAdded_images_isSome]

theorem foldl_onContainerAdded_pods_isSome (L : List String) (s : ClientState)
    (P : String) :
    (assocGet P ((L.foldl onContainerAdded s).pods).list).isSome
      = (assocGet P s.pods.list).isSome := by
  induction L generalizing s with
  | nil => rfl
  | cons J L ih =>
    rw [List.foldl_cons, ih, onContainerAdded_pods_isSome]

theorem foldl_onContainerAdded_images_mem {L : List String} {s : ClientState}
    {I : String} {img : Image} {x : String}
    (himg : assocGet I s.images.list = some img) (hx : x ∈ img.containers) :
    ∃ img', assocGet I ((L.foldl onContainerAdded s).images).list = some img'
      ∧ x ∈ img'.containers := by
  induction L generalizing s img with
  | nil => exact ⟨img, himg, hx⟩
  | cons J L ih =>
    rw [List.foldl_cons]
    obtain ⟨img1, h1, h2⟩ := onContainerAdded_images_mem J himg hx
    exact ih h1 h2

theorem foldl_onContainerAdded_pods_mem {L : List String} {s : ClientState}
    {P : String} {p : Pod} {x : String}
    (hp : assocGet P s.pods.list = some p) (hx : x ∈ p.containers) :
    ∃ p', assocGet P ((L.foldl onContainerAdded s).pods).list = some p'
      ∧ x ∈ p'.containers := by
  induction L generalizing s p with
  | nil => exact ⟨p, hp, hx⟩
  | cons J L ih =>
    rw [List.foldl_cons]
    obtain ⟨p1, h1, h2⟩ := onContainerAdded_pods_mem J hp hx
    exact ih h1 h2

theorem onContainerAdded_self {s : ClientState} {cid P : String} {c : Container}
    (hc : assocGet cid s.containers.list = some c)
    (hP : c.podId = some P)
    (hIs : (assocGet c.imageId s.images.list).isSome = true)
    (hPs : (assocGet P s.pods.list).isSome = true) :
    assocGet cid (onContainerAdded s cid).containers.list
        = some { c with image := some c.imageId, pod := some P }
      ∧ (∃ img', assocGet c.imageId (onContainerAdded s cid).images.list = some img'
          ∧ cid ∈ img'.containers)
      ∧ (∃ p', assocGet P (onContainerAdded s cid).pods.list = some p'
          ∧ cid ∈ p'.containers) := by
  obtain ⟨img, himg⟩ := Option.isSome_iff_exists.mp hIs
  obtain ⟨p, hp⟩ := Option.isSome_iff_exists.mp hPs
  simp only [onContainerAdded, hc, hIs, if_true, hP, hPs]
  refine ⟨?_, ?_, ?_⟩
  · rw [assocGet_modify_self, assocGet_modify_self, hc]
    simp [hP]
  · rw [assocGet_modify_self, himg]
    exact ⟨_, rfl, Image.mem_addContainer_self img cid⟩
  · rw [assocGet_modify_self, hp]
    exact ⟨_, rfl, Pod.mem_addContainer_self_p p cid⟩

end Client

theorem ContainerList.refresh_fresh_value {s : ContainerListState}
    {sums : List ContainerSummary} {sum : ContainerSummary}
    (hnd : (assocKeys s.list).Nodup) (hnds : (sums.map fun x => x.id).Nodup)
    (hmem : sum ∈ sums) (hinf : sum.isInfra = false)
    (hfresh : sum.id ∉ assocKeys s.list) :
    ∃ n, assocGet sum.id (ContainerList.refresh s none (.ok sums)).state.list
      = some (Container.new n sum) := by
  have hstate : (ContainerList.refresh s none (.ok sums)).state.list
      = (ContainerList.applySummaries (ContainerList.removeAll { s with listing := true }
          (ContainerList.toRemove { s with listing := true } sums)).1
          (sums.filter fun c => ¬ c.isInfra)).1.list := by
    rw [ContainerList.refresh_none_ok_state_c]
  have hremlist : (ContainerList.removeAll { s with listing := true }
      (ContainerList.toRemove { s with listing := true } sums)).1.list
        = s.list.filter fun p => sums.any fun x => x.id = p.1 := by
    rw [@ContainerList.removeAll_toRemove_state_c { s with listing := true } sums hnd]
  have hndf : ((sums.filter fun c => ¬ c.isInfra).map fun x => x.id).Nodup :=
    hnds.sublist ((List.filter_sublist sums).map (fun x => x.id))
  have hmem' : sum ∈ sums.filter fun c => ¬ c.isInfra :=
    List.mem_filter.mpr ⟨hmem, by simp [hinf]⟩
  have hfresh' : sum.id ∉ assocKeys (ContainerList.removeAll { s with listing := true }
      (ContainerList.toRemove { s with listing := true } sums)).1.list := by
    rw [hremlist]
    rw [assocKeys_filter_key (fun k => sums.any fun x => decide (x.id = k)) s.list]
    intro hm
    exact hfresh (List.mem_filter.mp hm).1
  rw [hstate]
  exact ContainerList.applySummaries_fresh_value_c hndf hmem' hfresh'


namespace Client

theorem foldl_added_links {t : ClientState} {L1 L2 : List String} {cid P : String}
    {c : Container}
    (hL1 : cid ∉ L1) (hL2 : cid ∉ L2)
    (hc : assocGet cid t.containers.list = some c)
    (hP : c.podId = some P)
    (hIs : (assocGet c.imageId t.images.list).isSome = true)
    (hPs : (assocGet P t.pods.list).isSome = true) :
    (∃ c', assocGet cid (L2.foldl onContainerAdded
          (onContainerAdded (L1.foldl onContainerAdded t) cid)).containers.list = some c'
        ∧ c'.image = some c.imageId ∧ c'.pod = some P)
      ∧ (∃ img, assocGet c.imageId (L2.foldl onContainerAdded
          (onContainerAdded (L1.foldl onContainerAdded t) cid)).images.list = some img
          ∧ cid ∈ img.containers)
      ∧ (∃ p, assocGet P (L2.foldl onContainerAdded
          (onContainerAdded (L1.foldl onContainerAdded t) cid)).pods.list = some p
          ∧ cid ∈ p.containers) := by
  have hAc : assocGet cid ((L1.foldl onContainerAdded t).containers).list = some c := by
    rw [foldl_onContainerAdded_container_ne hL1]
    exact hc
  have hAi : (assocGet c.imageId ((L1.foldl onContainerAdded t).images).list).isSome
      = true := by
    rw [foldl_onContainerAdded_images_isSome]
    exact hIs
  have hAp : (assocGet P ((L1.foldl onContainerAdded t).pods).list).isSome = true := by
    rw [foldl_onContainerAdded_pods_isSome]
    exact hPs
  obtain ⟨hB1, ⟨img1, hB2, hB3⟩, ⟨p1, hB4, hB5⟩⟩ := onContainerAdded_self hAc hP hAi hAp
  refine ⟨⟨{ c with image := some c.imageId, pod := some P }, ?_, rfl, rfl⟩, ?_, ?_⟩
  · rw [foldl_onContainerAdded_container_ne hL2]
    exact hB1
  · exact foldl_onContainerAdded_images_mem hB2 hB3
  · exact foldl_onContainerAdded_pods_mem hB4 hB5

theorem refreshContainers_links {s : ClientState} {sums : List ContainerSummary}
    {sum : ContainerSummary} {P : String}
    (hndC : (assocKeys s.containers.list).Nodup)
    (hnds : (sums.map fun x => x.id).Nodup)
    (hmem : sum ∈ sums) (hinf : sum.isInfra = false)
    (hfresh : sum.id ∉ assocKeys s.containers.list)
    (hP : sum.podId = some P)
    (hIs : (assocGet sum.imageId s.images.list).isSome = true)
    (hPs : (assocGet P s.pods.list).isSome = true) :
    (∃ c', assocGet sum.id
        (refreshContainers s none (.ok sums)).containers.list = some c'
        ∧ c'.image = some sum.imageId ∧ c'.pod = some P)
      ∧ (∃ img, assocGet sum.imageId
          (refreshContainers s none (.ok sums)).images.list = some img
          ∧ sum.id ∈ img.containers)
      ∧ (∃ p, assocGet P (refreshContainers s none (.ok sums)).pods.list = some p
          ∧ sum.id ∈ p.containers) := by
  obtain ⟨sp1, sp2, sp3, sp4, sp5⟩ :=
    ContainerList.refresh_none_ok_spec_c s.containers sums hndC
  obtain ⟨n, hval⟩ := ContainerList.refresh_fresh_value hndC hnds hmem hinf hfresh
  have hkeys : sum.id ∈ assocKeys (ContainerList.refresh s.containers none
      (.ok sums)).state.list := sp4 sum hmem hinf
  have hL : sum.id ∈ notifAddedIds (ContainerList.refresh s.containers none
      (.ok sums)).notifs := by
    rw [sp1] at hkeys
    rcases List.mem_append.mp hkeys with hm | hm
    · exact absurd (List.mem_filter.mp hm).1 hfresh
    · exact hm
  have hLnd : (notifAddedIds (ContainerList.refresh s.containers none
      (.ok sums)).notifs).Nodup := by
    rw [sp1] at sp2
    exact (List.nodup_append.mp sp2).2.1
  obtain ⟨L1, L2, hLsplit⟩ := List.append_of_mem hL
  have hnd12 : (L1 ++ sum.id :: L2).Nodup := hLsplit ▸ hLnd
  have hL1 : sum.id ∉ L1 := fun hm =>
    (List.nodup_append.mp hnd12).2.2 hm (List.mem_cons_self _ _)
  have hL2 : sum.id ∉ L2 := (List.nodup_cons.mp (List.nodup_append.mp hnd12).2.1).1
  have hre : refreshContainers s none (.ok sums)
      = (notifAddedIds (ContainerList.refresh s.containers none (.ok sums)).notifs).foldl
          onContainerAdded
          (((notifRemovedIds (ContainerList.refresh s.containers none
              (.ok sums)).notifs).filterMap
              fun cid => assocGet cid s.containers.list).foldl onContainerRemoved
            { s with
              containers := (ContainerList.refresh s.containers none (.ok sums)).state }) :=
    rfl
  rw [hre, hLsplit, List.foldl_append, List.foldl_cons]
  have hs1c : assocGet sum.id (((notifRemovedIds (ContainerList.refresh s.containers none
      (.ok sums)).notifs).filterMap fun cid => assocGet cid s.containers.list).foldl
        onContainerRemoved
        { s with containers := (ContainerList.refresh s.containers none
            (.ok sums)).state }).containers.list = some (Container.new n sum) := by
    rw [foldl_onContainerRemoved_containers]
    exact hval
  have hs1i : (assocGet sum.imageId (((notifRemovedIds (ContainerList.refresh
      s.containers none (.ok sums)).notifs).filterMap
        fun cid => assocGet cid s.containers.list).foldl onContainerRemoved
        { s with containers := (ContainerList.refresh s.containers none
            (.ok sums)).state }).images.list).isSome = true := by
    rw [foldl_onContainerRemoved_images_isSome]
    exact hIs
  have hs1p : (assocGet P (((notifRemovedIds (ContainerList.refresh s.containers none
      (.ok sums)).notifs).filterMap fun cid => assocGet cid s.containers.list).foldl
        onContainerRemoved
        { s with containers := (ContainerList.refresh s.containers none
            (.ok sums)).state }).pods.list).isSome = true := by
    rw [foldl_onContainerRemoved_pods_isSome]
    exact hPs
  exact foldl_added_links hL1 hL2 hs1c
    (show (Container.new n sum).podId = some P from hP) hs1i hs1p

theorem onContainerAdded_self_image {s : ClientState} {cid : String} {c : Container}
    (hc : assocGet cid s.containers.list = some c)
    (hIs : (assocGet c.imageId s.images.list).isSome = true) :
    (∃ c', assocGet cid (onContainerAdded s cid).containers.list = some c'
        ∧ c'.image = some c.imageId)
      ∧ (∃ img', assocGet c.imageId (onContainerAdded s cid).images.list = some img'
          ∧ cid ∈ img'.containers) := by
  obtain ⟨img, himg⟩ := Option.isSome_iff_exists.mp hIs
  rcases hpod : c.podId with _ | pid
  · simp only [onContainerAdded, hc, hIs, if_true, hpod]
    refine ⟨⟨{ c with image := some c.imageId }, ?_, rfl⟩, ?_⟩
    · rw [assocGet_modify_self, hc]
      rfl
    · rw [assocGet_modify_self, himg]
      exact ⟨_, rfl, Image.mem_addContainer_self img cid⟩
  · simp only [onContainerAdded, hc, hIs, if_true, hpod]
    by_cases hps : (assocGet pid s.pods.list).isSome = true
    · simp only [hps, if_true]
      refine ⟨⟨{ c with image := some c.imageId, pod := some pid }, ?_, rfl⟩, ?_⟩
      · rw [assocGet_modify_self, assocGet_modify_self, hc]
        rfl
      · rw [assocGet_modify_self, himg]
        exact ⟨_, rfl, Image.mem_addContainer_self img cid⟩
    · rw [Bool.not_eq_true] at hps
      simp only [hps]
      rw [if_neg (by simp)]
      refine ⟨⟨{ c with image := some c.imageId }, ?_, rfl⟩, ?_⟩
      · rw [assocGet_modify_self, hc]
        rfl
      · rw [assocGet_modify_self, himg]
        exact ⟨_, rfl, Image.mem_addContainer_self img cid⟩

theorem onContainerAdded_self_pod {s : ClientState} {cid P : String} {c : Container}
    (hc : assocGet cid s.containers.list = some c)
    (hP : c.podId = some P)
    (hPs : (assocGet P s.pods.list).isSome = true) :
    (∃ c', assocGet cid (onContainerAdded s cid).containers.list = some c'
        ∧ c'.pod = some P)
      ∧ (∃ p', assocGet P (onContainerAdded s cid).pods.list = some p'
          ∧ cid ∈ p'.containers) := by
  obtain ⟨p, hp⟩ := Option.isSome_iff_exists.mp hPs
  by_cases hfound : (assocGet c.imageId s.images.list).isSome = true
  · simp only [onContainerAdded, hc, hfound, if_true, hP, hPs]
    refine ⟨⟨{ c with image := some c.imageId, pod := some P }, ?_, rfl⟩, ?_⟩
    · rw [assocGet_modify_self, assocGet_modify_self, hc]
      rfl
    · rw [assocGet_modify_self, hp]
      exact ⟨_, rfl, Pod.mem_addContainer_self_p p cid⟩
  · rw [Bool.not_eq_true] at hfound
    simp only [onContainerAdded, hc, hfound, hP, hPs, if_true]
    refine ⟨⟨{ c with image := none, pod := some P }, ?_, rfl⟩, ?_⟩
    · rw [assocGet_modify_self, assocGet_modify_self, hc]
      rfl
    · rw [assocGet_modify_self, hp]
      exact ⟨_, rfl, Pod.mem_addContainer_self_p p cid⟩

theorem foldl_added_links_image {t : ClientState} {L1 L2 : List String} {cid : String}
    {c : Container}
    (hL1 : cid ∉ L1) (hL2 : cid ∉ L2)
    (hc : assocGet cid t.containers.list = some c)
    (hIs : (assocGet c.imageId t.images.list).isSome = true) :
    (∃ c', assocGet cid (L2.foldl onContainerAdded
          (onContainerAdded (L1.foldl onContainerAdded t) cid)).containers.list = some c'
        ∧ c'.image = some c.imageId)
      ∧ (∃ img, assocGet c.imageId (L2.foldl onContainerAdded
          (onContainerAdded (L1.foldl onContainerAdded t) cid)).images.list = some img
          ∧ cid ∈ img.containers) := by
  have hAc : assocGet cid ((L1.foldl onContainerAdded t).containers).list = some c := by
    rw [foldl_onContainerAdded_container_ne hL1]
    exact hc
  have hAi : (assocGet c.imageId ((L1.foldl onContainerAdded t).images).list).isSome
      = true := by
    rw [foldl_onContainerAdded_images_isSome]
    exact hIs
  obtain ⟨⟨c1, hB1, hB1i⟩, ⟨img1, hB2, hB3⟩⟩ := onContainerAdded_self_image hAc hAi
  refine ⟨⟨c1, ?_, hB1i⟩, ?_⟩
  · rw [foldl_onContainerAdded_container_ne hL2]
    exact hB1
  · exact foldl_onContainerAdded_images_mem hB2 hB3

theorem foldl_added_links_pod {t : ClientState} {L1 L2 : List String} {cid P : String}
    {c : Container}
    (hL1 : cid ∉ L1) (hL2 : cid ∉ L2)
    (hc : assocGet cid t.containers.list = some c)
    (hP : c.podId = some P)
    (hPs : (assocGet P t.pods.list).isSome = true) :
    (∃ c', assocGet cid (L2.foldl onContainerAdded
          (onContainerAdded (L1.foldl onContainerAdded t) cid)).containers.list = some c'
        ∧ c'.pod = some P)
      ∧ (∃ p, assocGet P (L2.foldl onContainerAdded
          (onContainerAdded (L1.foldl onContainerAdded t) cid)).pods.list = some p
          ∧ cid ∈ p.containers) := by
  have hAc : assocGet cid ((L1.foldl onContainerAdded t).containers).list = some c := by
    rw [foldl_onContainerAdded_container_ne hL1]
    exact hc
  have hAp : (assocGet P ((L1.foldl onContainerAdded t).pods).list).isSome = true := by
    rw [foldl_onContainerAdded_pods_isSome]
    exact hPs
  obtain ⟨⟨c1, hB1, hB1p⟩, ⟨p1, hB4, hB5⟩⟩ := onContainerAdded_self_pod hAc hP hAp
  refine ⟨⟨c1, ?_, hB1p⟩, ?_⟩
  · rw [foldl_onContainerAdded_container_ne hL2]
    exact hB1
  · exact foldl_onContainerAdded_pods_mem hB4 hB5

theorem refreshContainers_links_image {s : ClientState} {sums : List ContainerSummary}
    {sum : ContainerSummary}
    (hndC : (assocKeys s.containers.list).Nodup)
    (hnds : (sums.map fun x => x.id).Nodup)
    (hmem : sum ∈ sums) (hinf : sum.isInfra = false)
    (hfresh : sum.id ∉ assocKeys s.containers.list)
    (hIs : (assocGet sum.imageId s.images.list).isSome = true) :
    (∃ c', assocGet sum.id
        (refreshContainers s none (.ok sums)).containers.list = some c'
        ∧ c'.image = some sum.imageId)
      ∧ (∃ img, assocGet sum.imageId
          (refreshContainers s none (.ok sums)).images.list = some img
          ∧ sum.id ∈ img.containers) := by
  obtain ⟨sp1, sp2, sp3, sp4, sp5⟩ :=
    ContainerList.refresh_none_ok_spec_c s.containers sums hndC
  obtain ⟨n, hval⟩ := ContainerList.refresh_fresh_value hndC hnds hmem hinf hfresh
  have hkeys : sum.id ∈ assocKeys (ContainerList.refresh s.containers none
      (.ok sums)).state.list := sp4 sum hmem hinf
  have hL : sum.id ∈ notifAddedIds (ContainerList.refresh s.containers none
      (.ok sums)).notifs := by
    rw [sp1] at hkeys
    rcases List.mem_append.mp hkeys with hm | hm
    · exact absurd (List.mem_filter.mp hm).1 hfresh
    · exact hm
  have hLnd : (notifAddedIds (ContainerList.refresh s.containers none
      (.ok sums)).notifs).Nodup := by
    rw [sp1] at sp2
    exact (List.nodup_append.mp sp2).2.1
  obtain ⟨L1, L2, hLsplit⟩ := List.append_of_mem hL
  have hnd12 : (L1 ++ sum.id :: L2).Nodup := hLsplit ▸ hLnd
  have hL1 : sum.id ∉ L1 := fun hm =>
    (List.nodup_append.mp hnd12).2.2 hm (List.mem_cons_self _ _)
  have hL2 : sum.id ∉ L2 := (List.nodup_cons.mp (List.nodup_append.mp hnd12).2.1).1
  have hre : refreshContainers s none (.ok sums)
      = (notifAddedIds (ContainerList.refresh s.containers none (.ok sums)).notifs).foldl
          onContainerAdded
          (((notifRemovedIds (ContainerList.refresh s.containers none
              (.ok sums)).notifs).filterMap
              fun cid => assocGet cid s.containers.list).foldl onContainerRemoved
            { s with
              containers := (ContainerList.refresh s.containers none (.ok sums)).state }) :=
    rfl
  rw [hre, hLsplit, List.foldl_append, List.foldl_cons]
  have hs1c : assocGet sum.id (((notifRemovedIds (ContainerList.refresh s.containers none
      (.ok sums)).notifs).filterMap fun cid => assocGet cid s.containers.list).foldl
        onContainerRemoved
        { s with containers := (ContainerList.refresh s.containers none
            (.ok sums)).state }).containers.list = some (Container.new n sum) := by
    rw [foldl_onContainerRemoved_containers]
    exact hval
  have hs1i : (assocGet sum.imageId (((notifRemovedIds (ContainerList.refresh
      s.containers none (.ok sums)).notifs).filterMap
        fun cid => assocGet cid s.containers.list).foldl onContainerRemoved
        { s with containers := (ContainerList.refresh s.containers none
            (.ok sums)).state }).images.list).isSome = true := by
    rw [foldl_onContainerRemoved_images_isSome]
    exact hIs
  exact foldl_added_links_image hL1 hL2 hs1c hs1i

theorem refreshContainers_links_pod {s : ClientState} {sums : List ContainerSummary}
    {sum : ContainerSummary} {P : String}
    (hndC : (assocKeys s.containers.list).Nodup)
    (hnds : (sums.map fun x => x.id).Nodup)
    (hmem : sum ∈ sums) (hinf : sum.isInfra = false)
    (hfresh : sum.id ∉ assocKeys s.containers.list)
    (hP : sum.podId = some P)
    (hPs : (assocGet P s.pods.list).isSome = true) :
    (∃ c', assocGet sum.id
        (refreshContainers s none (.ok sums)).containers.list = some c'
        ∧ c'.pod = some P)
      ∧ (∃ p, assocGet P (refreshContainers s none (.ok sums)).pods.list = some p
          ∧ sum.id ∈ p.containers) := by
  obtain ⟨sp1, sp2, sp3, sp4, sp5⟩ :=
    ContainerList.refresh_none_ok_spec_c s.containers sums hndC
  obtain ⟨n, hval⟩ := ContainerList.refresh_fresh_value hndC hnds hmem hinf hfresh
  have hkeys : sum.id ∈ assocKeys (ContainerList.refresh s.containers none
      (.ok sums)).state.list := sp4 sum hmem hinf
  have hL : sum.id ∈ notifAddedIds (ContainerList.refresh s.containers none
      (.ok sums)).notifs := by
    rw [sp1] at hkeys
    rcases List.mem_append.mp hkeys with hm | hm
    · exact absurd (List.mem_filter.mp hm).1 hfresh
    · exact hm
  have hLnd : (notifAddedIds (ContainerList.refresh s.containers none
      (.ok sums)).notifs).Nodup := by
    rw [sp1] at sp2
    exact (List.nodup_append.mp sp2).2.1
  obtain ⟨L1, L2, hLsplit⟩ := List.append_of_mem hL
  have hnd12 : (L1 ++ sum.id :: L2).Nodup := hLsplit ▸ hLnd
  have hL1 : sum.id ∉ L1 := fun hm =>
    (List.nodup_append.mp hnd12).2.2 hm (List.mem_cons_self _ _)
  have hL2 : sum.id ∉ L2 := (List.nodup_cons.mp (List.nodup_append.mp hnd12).2.1).1
  have hre : refreshContainers s none (.ok sums)
      = (notifAddedIds (ContainerList.refresh s.containers none (.ok sums)).notifs).foldl
          onContainerAdded
          (((notifRemovedIds (ContainerList.refresh s.containers none
              (.ok sums)).notifs).filterMap
              fun cid => assocGet cid s.containers.list).foldl onContainerRemoved
            { s with
              containers := (ContainerList.refresh s.containers none (.ok sums)).state }) :=
    rfl
  rw [hre, hLsplit, List.foldl_append, List.foldl_cons]
  have hs1c : assocGet sum.id (((notifRemovedIds (ContainerList.refresh s.containers none
      (.ok sums)).notifs).filterMap fun cid => assocGet cid s.containers.list).foldl
        onContainerRemoved
        { s with containers := (ContainerList.refresh s.containers none
            (.ok sums)).state }).containers.list = some (Container.new n sum) := by
    rw [foldl_onContainerRemoved_containers]
    exact hval
  have hs1p : (assocGet P (((notifRemovedIds (ContainerList.refresh s.containers none
      (.ok sums)).notifs).filterMap fun cid => assocGet cid s.containers.list).foldl
        onContainerRemoved
        { s with containers := (ContainerList.refresh s.containers none
            (.ok sums)).state }).pods.list).isSome = true := by
    rw [foldl_onContainerRemoved_pods_isSome]
    exact hPs
  exact foldl_added_links_pod hL1 hL2 hs1c
    (show (Container.new n sum).podId = some P from hP) hs1p

end Client

/-- C4: Cross-reference wiring establishes links regardless of arrival order.
Part 1: if a container with recorded image ID I is present in the container
mirror while image I is absent from the image mirror, then after an image
refresh whose response lists I, the container's image reference resolves to I
(with the container object itself preserved) and image I's container list
contains the container. Part 2: symmetrically, when a (non-infra) container
arrives by container refresh while its image is already present in the image
mirror, the stored container is immediately linked to the image and the
image's container list gains the container — whether or not the container
belongs to a pod or that pod is held. Part 3: likewise, when such a container
arrives while the pod it belongs to is already present in the pod mirror, the
stored container is immediately linked to the pod and the pod's container
list gains the container — whether or not its image is held. -/
theorem claim_C4_cross_reference_linking :
    (∀ (s : ClientState) (sums : List ImageSummary) (cid I : String) (c : Container),
        (assocKeys s.images.list).Nodup →
        assocGet cid s.containers.list = some c →
        c.imageId = I →
        I ∉ assocKeys s.images.list →
        (∃ x ∈ sums, x.id = I) →
        (∃ c', assocGet cid (Client.refreshImages s (.ok sums)).containers.list = some c'
            ∧ c'.image = some I ∧ c'.objId = c.objId)
          ∧ ∃ img, assocGet I (Client.refreshImages s (.ok sums)).images.list = some img
              ∧ cid ∈ img.containers)
    ∧ (∀ (s : ClientState) (sums : List ContainerSummary) (x : ContainerSummary),
        (assocKeys s.containers.list).Nodup →
        (sums.map fun y => y.id).Nodup →
        x ∈ sums →
        x.isInfra = false →
        x.id ∉ assocKeys s.containers.list →
        (assocGet x.imageId s.images.list).isSome = true →
        (∃ c', assocGet x.id
            (Client.refreshContainers s none (.ok sums)).containers.list = some c'
            ∧ c'.image = some x.imageId)
          ∧ (∃ img, assocGet x.imageId
              (Client.refreshContainers s none (.ok sums)).images.list = some img
              ∧ x.id ∈ img.containers))
    ∧ (∀ (s : ClientState) (sums : List ContainerSummary) (x : ContainerSummary)
        (P : String),
        (assocKeys s.containers.list).Nodup →
        (sums.map fun y => y.id).Nodup →
        x ∈ sums →
        x.isInfra = false →
        x.id ∉ assocKeys s.containers.list →
        x.podId = some P →
        (assocGet P s.pods.list).isSome = true →
        (∃ c', assocGet x.id
            (Client.refreshContainers s none (.ok sums)).containers.list = some c'
            ∧ c'.pod = some P)
          ∧ (∃ p, assocGet P (Client.refreshContainers s none (.ok sums)).pods.list
              = some p ∧ x.id ∈ p.containers)) :=
  ⟨fun _ _ _ _ _ h1 h2 h3 h4 h5 => Client.refreshImages_links h1 h2 h3 h4 h5,
   fun _ _ _ h1 h2 h3 h4 h5 h6 =>
     Client.refreshContainers_links_image h1 h2 h3 h4 h5 h6,
   fun _ _ _ _ h1 h2 h3 h4 h5 h6 h7 =>
     Client.refreshContainers_links_pod h1 h2 h3 h4 h5 h6 h7⟩

/-- Witness for C4 at concrete inputs: container "c1" (image ID "i1") is
present before any image; an image refresh delivering "i1" links both
directions. Symmetrically, with image "i1" and pod "p1" present, a container
refresh delivering the pod-less container "c3" links it to the image, and the
same refresh links the pod member "c2" to its pod. -/
theorem claim_C4_witness :
    ((∃ c', assocGet "c1" (Client.refreshImages c4Before
          (.ok [{ id := "i1", repoTags := [] }])).containers.list = some c'
        ∧ c'.image = some "i1" ∧ c'.objId = 0)
      ∧ (∃ img, assocGet "i1" (Client.refreshImages c4Before
          (.ok [{ id := "i1", repoTags := [] }])).images.list = some img
          ∧ "c1" ∈ img.containers))
    ∧ ((∃ c', assocGet "c3" (Client.refreshContainers c4After none
          (.ok [c4Sum, c4SumNoPod])).containers.list = some c'
        ∧ c'.image = some "i1")
      ∧ (∃ img, assocGet "i1" (Client.refreshContainers c4After none
          (.ok [c4Sum, c4SumNoPod])).images.list = some img ∧ "c3" ∈ img.containers))
    ∧ ((∃ c', assocGet "c2" (Client.refreshContainers c4After none
          (.ok [c4Sum, c4SumNoPod])).containers.list = some c'
        ∧ c'.pod = some "p1")
      ∧ (∃ p, assocGet "p1" (Client.refreshContainers c4After none
          (.ok [c4Sum, c4SumNoPod])).pods.list = some p ∧ "c2" ∈ p.containers)) :=
  ⟨claim_C4_cross_reference_linking.1 c4Before [{ id := "i1", repoTags := [] }]
      "c1" "i1"
      { objId := 0, id := "c1", imageId := "i1", podId := none,
        status := "running", image := none, pod := none }
      (by decide) (by decide) rfl (by decide) (by decide),
   claim_C4_cross_reference_linking.2.1 c4After [c4Sum, c4SumNoPod] c4SumNoPod
      (by decide) (by decide) (by decide) rfl (by decide) (by decide),
   claim_C4_cross_reference_linking.2.2 c4After [c4Sum, c4SumNoPod] c4Sum "p1"
      (by decide) (by decide) (by decide) rfl (by decide) rfl (by decide)⟩
